import Mathlib

/-!
# Consensus core of mitum: voteproof admission, voteproof validity, state supervisor

A shallow embedding of the consensus subsystem (`isaac` package):

* `VoteproofConsensusStateChecker` (`isaac/voteproof_checker.go`),
* `VoteproofV0.IsValid` (`isaac/voteproof_v0.go`),
* `ConsensusStates.activateHandler` / `newVoteproof` (`isaac/states.go`),
* `Ballotbox` / `VoteRecords`, after the specification and `isaac/ballotbox_test.go`.

Conventions of the embedding:

* `base.Height` is a Go `int64`: heights are integers (`Int`) and the one arithmetic
  expression on them (`CheckHeight`) wraps around at 64 bits (`wrapInt64`).
* `base.Round` (`uint64`) is only ever compared, so it is a natural number.
* Hashes, addresses, signatures and keys are opaque comparable values.
* Go maps are association lists; the list order is one enumeration order.
* A method call on a nil interface value is the outcome `Run.nilDereference`.
* The supervisor is modelled sequentially (its mutex is not modelled); every
  call it makes on a state handler is appended to a call log.
-/

namespace Mitum

/-! ## Basic values -/

/-- Rounds are Go `uint64` values (`base.Round`). -/
abbrev Round := Nat

/-- Content hashes (`valuehash.Hash`), compared with `Equal`. -/
abbrev Hash := Nat

/-- Node addresses (`base.Address`). -/
abbrev Address := Nat

/-- Points in time (`time.Time`); `0` is the zero time. -/
abbrev Time := Nat

/-- The height before genesis (`base.NilHeight`). -/
def NilHeight : Int := -1

/-- Two's complement wrap-around of an integer into the `int64` range. -/
def wrapInt64 (x : Int) : Int := (x + 2 ^ 63) % 2 ^ 64 - 2 ^ 63

/-- Ballot stages (`base.Stage`). -/
inductive Stage where
  | INIT
  | SIGN
  | ACCEPT
  | PROPOSAL
  deriving DecidableEq, Repr

/-- States of the consensus state machine (`base.State`). -/
inductive State where
  | Stopped
  | Booting
  | Joining
  | Consensus
  | Syncing
  | Broken
  deriving DecidableEq, Repr

/-- Result of a vote (`VoteproofResultType`). -/
inductive VoteproofResultType where
  | NotYet
  | Draw
  | Majority
  deriving DecidableEq, Repr

/-- Facts that are voted on (`operation.Fact`). `INITBallotFact` is the variant
that answers the type assertion `.(ballot.INITBallotFact)`. -/
inductive Fact where
  | INITBallotFact (height : Int) (round : Round) (previousBlock : Hash)
  | SIGNBallotFact (height : Int) (round : Round) (proposal newBlock : Hash)
  | ACCEPTBallotFact (height : Int) (round : Round) (proposal newBlock : Hash)
  | ProposalFact (height : Int) (round : Round) (seals : List Hash)
  deriving DecidableEq, Repr

/-- Quorum numbers carried by a voteproof (`Threshold.Total`, `Threshold.Threshold`). -/
structure Threshold where
  total : Nat
  threshold : Nat
  deriving DecidableEq, Repr

/-- One node's vote inside a voteproof (`VoteproofNodeFact`). -/
structure VoteproofNodeFact where
  fact : Hash
  factSignature : Nat
  signer : Nat
  deriving DecidableEq, Repr

/-- The voteproof value (`VoteproofV0`); the three maps are association lists. -/
structure VoteproofV0 where
  height : Int
  round : Round
  threshold : Threshold
  result : VoteproofResultType
  closed : Bool
  stage : Stage
  majority : Option Fact
  facts : List (Hash × Fact)
  ballots : List (Address × Hash)
  votes : List (Address × VoteproofNodeFact)
  finishedAt : Time
  deriving DecidableEq, Repr

/-- Block header (`block.ManifestV0`). -/
structure Manifest where
  h : Hash
  height : Int
  round : Round
  proposal : Hash
  previousBlock : Hash
  operationsHash : Hash
  statesHash : Hash
  createdAt : Time
  deriving DecidableEq, Repr

/-- The hash of a manifest (`Manifest.Hash()`). -/
def Manifest.Hash (m : Manifest) : Hash := m.h

/-- A signed vote of one node (`ballot.Ballot`). -/
structure Ballot where
  hash : Hash
  node : Address
  height : Int
  round : Round
  stage : Stage
  fact : Fact
  factHash : Hash
  signedAt : Time
  deriving DecidableEq, Repr

/-- A seal that reaches the supervisor (`seal.Seal`): a ballot, which is a
`ballot.Proposal` when its stage is PROPOSAL, or a seal of operations; `signer` is what
`Signer()` returns. -/
inductive Seal where
  | ballot (blt : Ballot) (signer : Nat)
  | operations (hash : Hash) (signer : Nat)
  deriving DecidableEq, Repr

/-- The signer of a seal (`Seal.Signer()`). -/
def Seal.Signer : Seal → Nat
  | Seal.ballot _ signer => signer
  | Seal.operations _ signer => signer

/-! ## Errors and outcomes -/

/-- The message of a plain `xerrors.Errorf` error. -/
inductive Msg where
  | higherHeight
  | needsINITBallotFact
  | differentPreviousBlock
  | differentRound
  | noActivatedHandler
  | other (code : Nat)
  | emptyBlocksNoChannels
  | lastBlockIsEmpty
  | proposerIsLocal
  | proposerIsNotInNodes
  | proposerIsDead
  | notOperationSeal
  deriving DecidableEq, Repr

/-- Errors of `Ballotbox.Vote`. -/
inductive BallotboxError where
  | NotInSuffrage
  | InvalidBallot
  | ThresholdUnavailable
  deriving DecidableEq, Repr

/-- Errors that travel through the supervisor. `DuplicatedError` and `NotFoundError`
are the sentinels of the `util` package, `Ballotbox` wraps an error of the ballotbox,
`Canceled` and `DeadlineExceeded` are the errors of a `context`. -/
inductive Error where
  | IgnoreVoteproofError
  | StateToBeChangeError (toState : State) (voteproof : VoteproofV0)
      (ballot : Option Ballot) (err : Msg)
  | Errorf (msg : Msg)
  | unknownStateFound (toState : State)
  | stateHandlerNotRegistered (toState : State)
  | failedToDeactivatePrevious (inner : Error)
  | failedToActivate (inner : Error)
  | DuplicatedError
  | NotFoundError
  | Ballotbox (err : BallotboxError)
  | Canceled
  | DeadlineExceeded
  deriving DecidableEq, Repr

/-- The test `xerrors.Is(err, IgnoreVoteproofError)`. -/
def Error.isIgnoreVoteproof : Error → Bool
  | .IgnoreVoteproofError => true
  | _ => false

/-- The test `xerrors.As(err, &ctx)` for `*StateToBeChangeError`: the target
state and the voteproof of the error when it is one. -/
def Error.asStateToBeChange : Error → Option (State × VoteproofV0 × Option Ballot)
  | .StateToBeChangeError s vp b _ => some (s, vp, b)
  | _ => none

/-- Errors made from `FailedToActivateHandler` (by `Errorf` or `Wrap`). -/
def Error.isFailedToActivateHandler : Error → Bool
  | .unknownStateFound _ => true
  | .stateHandlerNotRegistered _ => true
  | .failedToDeactivatePrevious _ => true
  | .failedToActivate _ => true
  | _ => false

/-- Outcome of running Go code that may call a method on a nil interface. -/
inductive Run (α : Type) where
  | ret (a : α)
  | nilDereference
  | indexOutOfRange
  deriving DecidableEq, Repr

/-! ## Voteproof admission (`isaac/voteproof_checker.go`) -/

/-- The checker value built by `NewVoteproofConsensusStateChecker`. -/
structure VoteproofConsensusStateChecker where
  lastManifest : Option Manifest
  lastINITVoteproof : Option VoteproofV0
  voteproof : VoteproofV0
  deriving DecidableEq, Repr

/-- The local `height` of `CheckHeight`: `NilHeight` without a manifest. -/
def VoteproofConsensusStateChecker.localHeight (vpc : VoteproofConsensusStateChecker) : Int :=
  match vpc.lastManifest with
  | none => NilHeight
  | some m => m.height

/-- The difference `d := voteproof.Height() - (height + 1)` in `int64` arithmetic. -/
def VoteproofConsensusStateChecker.heightDiff (vpc : VoteproofConsensusStateChecker) : Int :=
  wrapInt64 (vpc.voteproof.height - wrapInt64 (vpc.localHeight + 1))

/-- Embedding of `VoteproofConsensusStateChecker.CheckHeight`. -/
def VoteproofConsensusStateChecker.CheckHeight (vpc : VoteproofConsensusStateChecker) :
    Bool × Option Error :=
  let d := vpc.heightDiff
  if d > 0 then
    (false, some (Error.StateToBeChangeError State.Syncing vpc.voteproof none Msg.higherHeight))
  else if d < 0 then
    (false, some Error.IgnoreVoteproofError)
  else
    (true, none)

/-- Embedding of `checkBlockWithINITVoteproof` (`isaac/states.go`): `manifest.Hash()`
is only reached when the majority is an INIT ballot fact. -/
def checkBlockWithINITVoteproof (manifest : Option Manifest) (voteproof : VoteproofV0) :
    Run (Option Error) :=
  match voteproof.majority with
  | some (Fact.INITBallotFact _ _ previousBlock) =>
    match manifest with
    | none => Run.nilDereference
    | some m =>
      if previousBlock = m.Hash then Run.ret none
      else Run.ret (some (Error.Errorf Msg.differentPreviousBlock))
  | _ => Run.ret (some (Error.Errorf Msg.needsINITBallotFact))

/-- The message carried by a plain error, as wrapped into `StateToBeChangeError.Err`. -/
def Error.msg : Error → Msg
  | .Errorf m => m
  | _ => Msg.other 0

/-- Embedding of `VoteproofConsensusStateChecker.CheckINITVoteproof`. -/
def VoteproofConsensusStateChecker.CheckINITVoteproof (vpc : VoteproofConsensusStateChecker) :
    Run (Bool × Option Error) :=
  if vpc.voteproof.stage ≠ Stage.INIT then Run.ret (true, none)
  else
    match checkBlockWithINITVoteproof vpc.lastManifest vpc.voteproof with
    | Run.nilDereference => Run.nilDereference
    | Run.indexOutOfRange => Run.indexOutOfRange
    | Run.ret (some err) =>
      Run.ret (false, some (Error.StateToBeChangeError State.Syncing vpc.voteproof none err.msg))
    | Run.ret none => Run.ret (true, none)

/-- Embedding of `VoteproofConsensusStateChecker.CheckACCEPTVoteproof`. -/
def VoteproofConsensusStateChecker.CheckACCEPTVoteproof (vpc : VoteproofConsensusStateChecker) :
    Run (Bool × Option Error) :=
  if vpc.voteproof.stage ≠ Stage.ACCEPT then Run.ret (true, none)
  else
    match vpc.lastINITVoteproof with
    | none => Run.nilDereference
    | some last =>
      if last.round ≠ vpc.voteproof.round then
        Run.ret (false, some (Error.Errorf Msg.differentRound))
      else Run.ret (true, none)

/-! ## Go maps as association lists -/

/-- Map lookup `m[k]`: the value of the first entry with key `k`. -/
def GoMap.get {K V : Type} [DecidableEq K] : List (K × V) → K → Option V
  | [], _ => none
  | (k', v) :: rest, k => if k' = k then some v else GoMap.get rest k

/-- Map assignment `m[k] = v`: overwrite the entry of `k`, or add one. -/
def GoMap.set {K V : Type} [DecidableEq K] : List (K × V) → K → V → List (K × V)
  | [], k, v => [(k, v)]
  | (k', v') :: rest, k, v =>
    if k' = k then (k, v) :: rest else (k', v') :: GoMap.set rest k v

/-- The keys of a map. -/
def GoMap.keys {K V : Type} (m : List (K × V)) : List K := m.map Prod.fst

/-- The first error raised while ranging over a list, if any. -/
def firstError {α E : Type} (l : List α) (check : α → Option E) : Option E :=
  l.findSome? check

/-! ## Voteproof validity (`isaac/voteproof_v0.go`) -/

/-- Network identifier handed to every `IsValid`. -/
abbrev NetworkID := List Nat

/-- Reasons for which `VoteproofV0.IsValid` fails. -/
inductive Invalid where
  | invalidField
  | emptyFinishedAt
  | invalidResult
  | emptyMajorityButNotDraw
  | invalidMajority
  | emptyFacts
  | emptyBallots
  | emptyVotes
  | voteCountDoesNotMatch
  | unknownNodeFound (node : Address)
  | invalidNode (node : Address)
  | missingFactInFacts (fact : Hash)
  | unknownFactsInFacts
  | invalidFactEntry (fact : Hash)
  | factHashDoesNotMatch (fact : Hash)
  | invalidBallotEntry (node : Address)
  | resultShouldBeNotYet
  | resultMismatch
  | majorityShouldBeNil
  | majorityFactHashMismatch
  deriving DecidableEq, Repr

/-- The `IsValid` and `Hash` methods of the values a voteproof is made of; they
belong to other packages and are parameters of the embedding. -/
structure Validators where
  heightIsValid : NetworkID → Int → Bool
  stageIsValid : NetworkID → Stage → Bool
  thresholdIsValid : NetworkID → Threshold → Bool
  resultIsValid : NetworkID → VoteproofResultType → Bool
  factIsValid : NetworkID → Fact → Bool
  addressIsValid : NetworkID → Address → Bool
  hashIsValid : NetworkID → Hash → Bool
  factHash : Fact → Hash

/-- Modelled from the spec: `FindMajority(total, threshold, counts...)` of the
threshold package, which is not among the sources. It is `-1` (not yet) when the sum
of the counts is below the threshold and the remaining votes can still lift the
largest count to it, `-2` (draw) when the sum reaches the threshold and no count
does or when the remaining votes cannot lift any count to the threshold, and otherwise
the index of the first count that reaches the threshold. -/
def FindMajority (total threshold : Nat) (counts : List Nat) : Int :=
  let sum := counts.sum
  let largest := counts.foldl max 0
  if sum < threshold ∧ (total - sum) + largest ≥ threshold then -1
  else if (sum ≥ threshold ∧ counts.all (fun c => decide (c < threshold)))
      ∨ (total - sum) + largest < threshold then -2
  else (counts.findIdx (fun c => decide (c ≥ threshold)) : Nat)

/-- Embedding of `VoteproofV0.isValidFields`. -/
def VoteproofV0.isValidFields (val : Validators) (vp : VoteproofV0) (b : NetworkID) :
    Option Invalid :=
  if !(val.heightIsValid b vp.height && val.stageIsValid b vp.stage
      && val.thresholdIsValid b vp.threshold && val.resultIsValid b vp.result) then
    some Invalid.invalidField
  else if vp.finishedAt = 0 then some Invalid.emptyFinishedAt
  else if vp.result ≠ VoteproofResultType.Majority ∧ vp.result ≠ VoteproofResultType.Draw then
    some Invalid.invalidResult
  else if vp.majority = none ∧ vp.result ≠ VoteproofResultType.Draw then
    some Invalid.emptyMajorityButNotDraw
  else if (vp.majority.any fun m => !val.factIsValid b m) then some Invalid.invalidMajority
  else if vp.facts.length < 1 then some Invalid.emptyFacts
  else if vp.ballots.length < 1 then some Invalid.emptyBallots
  else if vp.votes.length < 1 then some Invalid.emptyVotes
  else if vp.ballots.length ≠ vp.votes.length then some Invalid.voteCountDoesNotMatch
  else
    firstError vp.ballots fun kv =>
      match GoMap.get vp.votes kv.1 with
      | none => some (Invalid.unknownNodeFound kv.1)
      | some _ => none

/-- The set `factHashes` built by `isValidFacts`: the fact hashes of the votes. -/
def VoteproofV0.factHashes (vp : VoteproofV0) : List (Hash × Bool) :=
  vp.votes.foldl (fun acc nf => GoMap.set acc nf.2.fact true) []

/-- Embedding of `VoteproofV0.isValidFacts`. -/
def VoteproofV0.isValidFacts (val : Validators) (vp : VoteproofV0) (b : NetworkID) :
    Option Invalid :=
  match firstError vp.votes (fun nf =>
      if !val.addressIsValid b nf.1 then some (Invalid.invalidNode nf.1)
      else match GoMap.get vp.facts nf.2.fact with
        | none => some (Invalid.missingFactInFacts nf.2.fact)
        | some _ => none) with
  | some e => some e
  | none =>
    if vp.factHashes.length ≠ vp.facts.length then some Invalid.unknownFactsInFacts
    else
      match firstError vp.facts (fun kv =>
          if !(val.hashIsValid b kv.1 && val.factIsValid b kv.2) then
            some (Invalid.invalidFactEntry kv.1)
          else if val.factHash kv.2 ≠ kv.1 then some (Invalid.factHashDoesNotMatch kv.1)
          else none) with
      | some e => some e
      | none =>
        firstError vp.ballots fun kv =>
          if !(val.addressIsValid b kv.1 && val.hashIsValid b kv.2) then
            some (Invalid.invalidBallotEntry kv.1)
          else none

/-- The map `counts` built by `isValidCheckMajority`: votes per fact hash. -/
def VoteproofV0.counts (vp : VoteproofV0) : List (Hash × Nat) :=
  vp.votes.foldl (fun acc nf => GoMap.set acc nf.2.fact ((GoMap.get acc nf.2.fact).getD 0 + 1)) []

/-- The map `byCount` built by ranging over `counts` in the given order. -/
def byCountOf (enumerated : List (Hash × Nat)) : List (Nat × Hash) :=
  enumerated.foldl (fun acc hc => GoMap.set acc hc.2 hc.1) []

/-- Embedding of `VoteproofV0.isValidCheckMajority`. The argument `enum` is the order
in which `range counts` enumerates the map `counts`. -/
def VoteproofV0.isValidCheckMajority (val : Validators)
    (enum : List (Hash × Nat) → List (Hash × Nat)) (vp : VoteproofV0) : Run (Option Invalid) :=
  let enumerated := enum vp.counts
  let set := enumerated.map Prod.snd
  let byCount := byCountOf enumerated
  let index := FindMajority vp.threshold.total vp.threshold.threshold set
  let finish (result : VoteproofResultType) (factHash : Option Hash) : Run (Option Invalid) :=
    let fact : Option Fact := factHash.bind (GoMap.get vp.facts)
    if vp.result ≠ result then Run.ret (some Invalid.resultMismatch)
    else
      match fact, factHash with
      | some _, some h =>
        match vp.majority with
        | none => Run.nilDereference
        | some m =>
          if val.factHash m ≠ h then Run.ret (some Invalid.majorityFactHashMismatch)
          else Run.ret none
      | _, _ =>
        if vp.majority ≠ none then Run.ret (some Invalid.majorityShouldBeNil) else Run.ret none
  if index = -1 then finish VoteproofResultType.NotYet none
  else if index = -2 then finish VoteproofResultType.Draw none
  else if index < 0 ∨ index ≥ set.length then Run.indexOutOfRange
  else finish VoteproofResultType.Majority (GoMap.get byCount (set.getD index.toNat 0))

/-- Embedding of `VoteproofV0.IsValid`; `int(vp.threshold.Threshold)` converts a
`uint` to an `int`. -/
def VoteproofV0.IsValid (val : Validators) (enum : List (Hash × Nat) → List (Hash × Nat))
    (vp : VoteproofV0) (b : NetworkID) : Run (Option Invalid) :=
  match vp.isValidFields val b with
  | some e => Run.ret (some e)
  | none =>
    match vp.isValidFacts val b with
    | some e => Run.ret (some e)
    | none =>
      if (vp.votes.length : Int) < wrapInt64 vp.threshold.threshold then
        if vp.result ≠ VoteproofResultType.NotYet then
          Run.ret (some Invalid.resultShouldBeNotYet)
        else Run.ret none
      else vp.isValidCheckMajority val enum

/-- The Go map invariant of a voteproof: no key occurs twice in a map. -/
def VoteproofV0.WellFormed (vp : VoteproofV0) : Prop :=
  (GoMap.keys vp.facts).Nodup ∧ (GoMap.keys vp.ballots).Nodup ∧ (GoMap.keys vp.votes).Nodup

/-- The number of votes of a voteproof for the fact hash `h`. -/
def VoteproofV0.voteCount (vp : VoteproofV0) (h : Hash) : Nat :=
  vp.votes.countP (fun nf => decide (nf.2.fact = h))

/-- The classification that an outcome of `FindMajority` stands for. -/
def classifyMajority (index : Int) : VoteproofResultType :=
  if index = -1 then VoteproofResultType.NotYet
  else if index = -2 then VoteproofResultType.Draw
  else VoteproofResultType.Majority

/-! ## The supervisor `ConsensusStates` (`isaac/states.go`) -/

/-- A request to change the state (`StateChangeContext`). -/
structure StateChangeContext where
  fromState : State
  toState : State
  voteproof : Option VoteproofV0
  ballot : Option Ballot
  deriving DecidableEq, Repr

/-- The constructor `NewStateChangeContext(from, to, voteproof, ballot)`. -/
def NewStateChangeContext (fromState toState : State) (voteproof : Option VoteproofV0)
    (ballot : Option Ballot) : StateChangeContext :=
  { fromState := fromState, toState := toState, voteproof := voteproof, ballot := ballot }

/-- Modelled from the spec: `StateToBeChangeError.StateChangeContext()`, which is not
among the sources: the request to switch to the target state of the error, carrying
its voteproof and ballot. The state it names as the origin is the argument
`fromState`. -/
def StateToBeChangeContext (fromState toState : State) (voteproof : VoteproofV0)
    (ballot : Option Ballot) : StateChangeContext :=
  NewStateChangeContext fromState toState (some voteproof) ballot

/-- A state handler object: its identity and what its `State()` method returns. -/
structure StateHandler where
  id : Nat
  state : State
  deriving DecidableEq, Repr

/-- A call made by the supervisor on a state handler, with what the handler
returned. `NewSeal` is made in a goroutine of its own and its answer is only logged;
`SetStateChan` and `SetSealChan` hand over the channels of the supervisor. -/
inductive Call where
  | Deactivate (handler : StateHandler) (ctx : StateChangeContext) (result : Option Error)
  | Activate (handler : StateHandler) (ctx : StateChangeContext) (result : Option Error)
  | NewVoteproof (handler : StateHandler) (voteproof : VoteproofV0) (result : Option Error)
  | NewSeal (handler : StateHandler) (sl : Seal)
  | SetStateChan (handler : StateHandler)
  | SetSealChan (handler : StateHandler)
  deriving DecidableEq, Repr

/-- What the state handlers answer to the calls of the supervisor; an answer may
depend on the calls made before. -/
structure HandlerBehaviour where
  Activate : List Call → StateHandler → StateChangeContext → Option Error
  Deactivate : List Call → StateHandler → StateChangeContext → Option Error
  NewVoteproof : List Call → StateHandler → VoteproofV0 → Option Error

/-- The supervisor: the registered handlers (`states`), the active handler, what the
local state holds (the answer of `Storage().LastManifest()`, the last INIT and ACCEPT
voteproofs), and the log of the calls made on handlers. -/
structure ConsensusStates where
  states : List (State × Option StateHandler)
  activeHandler : Option StateHandler
  lastManifest : Except Error (Option Manifest)
  lastINITVoteproof : Option VoteproofV0
  lastACCEPTVoteproof : Option VoteproofV0
  calls : List Call

/-- The map `states` built by `NewConsensusStates`: the five handlers, any of which
may be nil. -/
def NewConsensusStates.states (booting joining consensus syncing broken : Option StateHandler) :
    List (State × Option StateHandler) :=
  [(State.Booting, booting), (State.Joining, joining), (State.Consensus, consensus),
    (State.Syncing, syncing), (State.Broken, broken)]

/-- Embedding of `ConsensusStates.activateHandler`: the error it returns and the
supervisor afterwards. -/
def ConsensusStates.activateHandler (hb : HandlerBehaviour) (css : ConsensusStates)
    (ctx : StateChangeContext) : Option Error × ConsensusStates :=
  let handler := css.activeHandler
  if (match handler with
      | some h => decide (h.state = ctx.toState)
      | none => false) then (none, css)
  else
    match GoMap.get css.states ctx.toState with
    | none => (some (Error.unknownStateFound ctx.toState), css)
    | some none => (some (Error.stateHandlerNotRegistered ctx.toState), css)
    | some (some toHandler) =>
      let deactivated : Option Error × ConsensusStates :=
        match handler with
        | some h =>
          let r := hb.Deactivate css.calls h ctx
          (r, { css with calls := css.calls ++ [Call.Deactivate h ctx r] })
        | none => (none, css)
      match deactivated with
      | (some err, css1) => (some (Error.failedToDeactivatePrevious err), css1)
      | (none, css1) =>
        let r := hb.Activate css1.calls toHandler ctx
        let css2 := { css1 with calls := css1.calls ++ [Call.Activate toHandler ctx r] }
        match r with
        | some err => (some (Error.failedToActivate err), css2)
        | none => (none, { css2 with activeHandler := some toHandler })

/-- Modelled from the spec: `util.NewChecker(name, fns).Check()`, which is not among
the sources: the checks run in order and the first error is returned (spec §4.5:
"Else continue"). A check that returns `(false, nil)`, as `CheckNodeIsInSuffrage`
does for an unknown node, ends the run without error; none of the checks of
`newVoteproof` returns it. -/
def Checker.Check : List (Unit → Run (Bool × Option Error)) → Run (Option Error)
  | [] => Run.ret none
  | f :: rest =>
    match f () with
    | Run.nilDereference => Run.nilDereference
    | Run.indexOutOfRange => Run.indexOutOfRange
    | Run.ret (_, some err) => Run.ret (some err)
    | Run.ret (false, none) => Run.ret none
    | Run.ret (true, none) => Checker.Check rest

/-- The end of `newVoteproof`: record the voteproof by its stage and hand it to the
active handler. -/
def ConsensusStates.recordAndHandOver (hb : HandlerBehaviour) (css : ConsensusStates)
    (voteproof : VoteproofV0) : Option Error × ConsensusStates :=
  let css1 : ConsensusStates :=
    match voteproof.stage with
    | Stage.ACCEPT => { css with lastACCEPTVoteproof := some voteproof }
    | Stage.INIT => { css with lastINITVoteproof := some voteproof }
    | _ => css
  match css1.activeHandler with
  | none => (none, css1)
  | some h =>
    let r := hb.NewVoteproof css1.calls h voteproof
    (r, { css1 with calls := css1.calls ++ [Call.NewVoteproof h voteproof r] })

/-- Embedding of `ConsensusStates.newVoteproof`. The argument `fromState` is the
origin named by the state-change request of a `StateToBeChangeError`. -/
def ConsensusStates.newVoteproof (hb : HandlerBehaviour) (fromState : State)
    (css : ConsensusStates) (voteproof : VoteproofV0) : Run (Option Error × ConsensusStates) :=
  match css.lastManifest with
  | Except.error err => Run.ret (some err, css)
  | Except.ok manifest =>
    let vpc : VoteproofConsensusStateChecker :=
      { lastManifest := manifest, lastINITVoteproof := css.lastINITVoteproof,
        voteproof := voteproof }
    match Checker.Check [fun _ => Run.ret vpc.CheckHeight, fun _ => vpc.CheckINITVoteproof] with
    | Run.nilDereference => Run.nilDereference
    | Run.indexOutOfRange => Run.indexOutOfRange
    | Run.ret none => Run.ret (css.recordAndHandOver hb voteproof)
    | Run.ret (some err) =>
      match err.asStateToBeChange with
      | some (toState, vp, blt) =>
        match css.activateHandler hb (StateToBeChangeContext fromState toState vp blt) with
        | (some err0, css1) => Run.ret (some err0, css1)
        | (none, css1) => Run.ret (css1.recordAndHandOver hb voteproof)
      | none =>
        if err.isIgnoreVoteproof then Run.ret (none, css)
        else Run.ret (some err, css)

/-! ## Ballotbox and VoteRecords (spec §4.1, §4.3, §4.4)

The sources of the ballotbox are not available; only its tests are
(`isaac/ballotbox_test.go`). The definitions of this section follow the
specification. -/

/-- Modelled from the spec: `Stage.CanVote()`, which is not among the sources: only
INIT, SIGN and ACCEPT ballots are voted on. -/
def Stage.CanVote : Stage → Bool
  | Stage.INIT => true
  | Stage.SIGN => true
  | Stage.ACCEPT => true
  | Stage.PROPOSAL => false

/-- Modelled from the spec: `NewThreshold(total, ratio)`, which is not among the
sources: `threshold = ceil(total * ratio / 100)`, the ratio being given in whole
percent. -/
def NewThreshold (total ratio : Nat) : Threshold :=
  { total := total, threshold := (total * ratio + 99) / 100 }

/-- The key `(height, round, stage)` of a `VoteRecords` in the ballotbox. -/
abbrev VoteKey := Int × Round × Stage

/-- The key under which a ballot is tallied. -/
def Ballot.key (blt : Ballot) : VoteKey := (blt.height, blt.round, blt.stage)

/-- Modelled from the spec: the per-(height, round, stage) aggregator `VoteRecords`,
which is not among the sources: the suffrage snapshot and threshold taken at
construction, at most one ballot per node, and the cached voteproof. -/
structure VoteRecords where
  height : Int
  round : Round
  stage : Stage
  suffrages : List Address
  threshold : Threshold
  ballots : List (Address × Ballot)
  voteproof : VoteproofV0
  deriving DecidableEq, Repr

/-- Modelled from the spec: `NewVoteRecords`, which is not among the sources: no
ballots, and a cached voteproof that is not yet finished. -/
def NewVoteRecords (key : VoteKey) (suffrages : List Address) (threshold : Threshold) :
    VoteRecords :=
  { height := key.1, round := key.2.1, stage := key.2.2, suffrages := suffrages,
    threshold := threshold, ballots := [],
    voteproof :=
      { height := key.1, round := key.2.1, threshold := threshold,
        result := VoteproofResultType.NotYet, closed := false, stage := key.2.2,
        majority := none, facts := [], ballots := [], votes := [], finishedAt := 0 } }

/-- The distinct facts of the recorded ballots, in the order in which their hashes
were first inserted. -/
def tallyFacts (ballots : List (Address × Ballot)) : List (Hash × Fact) :=
  ballots.foldl (fun acc nb =>
    match GoMap.get acc nb.2.factHash with
    | some _ => acc
    | none => acc ++ [(nb.2.factHash, nb.2.fact)]) []

/-- Modelled from the spec: the voteproof that `VoteRecords.Vote` computes from the
recorded ballots, which is not among the sources: it recomputes the counts per fact,
calls `FindMajority`, and is stamped with the time when it is finished. -/
def VoteRecords.recompute (vrs : VoteRecords) (now : Time) : VoteproofV0 :=
  let facts := tallyFacts vrs.ballots
  let counts := facts.map fun hf =>
    vrs.ballots.countP (fun nb => decide (nb.2.factHash = hf.1))
  let index := FindMajority vrs.threshold.total vrs.threshold.threshold counts
  let result := classifyMajority index
  { height := vrs.height, round := vrs.round, threshold := vrs.threshold,
    result := result, closed := false, stage := vrs.stage,
    majority :=
      if result = VoteproofResultType.Majority then (facts.get? index.toNat).map Prod.snd
      else none,
    facts := facts,
    ballots := vrs.ballots.map fun nb => (nb.1, nb.2.hash),
    votes := vrs.ballots.map fun nb =>
      (nb.1, { fact := nb.2.factHash, factSignature := 0, signer := nb.1 }),
    finishedAt := if result = VoteproofResultType.NotYet then 0 else now }

/-- Modelled from the spec: `VoteRecords.Vote`, which is not among the sources. When
already finished it returns the cached voteproof with the closed flag set, whoever
votes (spec §4.3 and scenario S3, where the third ballot comes from outside the
suffrage); otherwise it fails with `NotInSuffrage` for a node outside the suffrage
snapshot; a ballot of a node that has already voted is ignored and the cached voteproof
returned; otherwise the ballot is inserted and the voteproof recomputed. The boolean
tells whether the ballot was admitted. -/
def VoteRecords.Vote (vrs : VoteRecords) (blt : Ballot) (now : Time) :
    Except BallotboxError (VoteproofV0 × VoteRecords × Bool) :=
  if vrs.voteproof.result ≠ VoteproofResultType.NotYet then
    let vp := { vrs.voteproof with closed := true }
    Except.ok (vp, { vrs with voteproof := vp }, false)
  else if blt.node ∉ vrs.suffrages then Except.error BallotboxError.NotInSuffrage
  else
    match GoMap.get vrs.ballots blt.node with
    | some _ => Except.ok (vrs.voteproof, vrs, false)
    | none =>
      let vrs1 := { vrs with ballots := vrs.ballots ++ [(blt.node, blt)] }
      let vp := vrs1.recompute now
      Except.ok (vp, { vrs1 with voteproof := vp }, true)

/-- Modelled from the spec: the `Ballotbox`, which is not among the sources: the
suffrage and threshold it was built with, the registry of `VoteRecords`, and the
latest ballot. -/
structure Ballotbox where
  suffrages : List Address
  threshold : Option Threshold
  vrs : List (VoteKey × VoteRecords)
  latestBallot : Option Ballot
  deriving DecidableEq, Repr

/-- Modelled from the spec: `NewBallotbox`, which is not among the sources. -/
def NewBallotbox (suffrages : List Address) (threshold : Option Threshold) : Ballotbox :=
  { suffrages := suffrages, threshold := threshold, vrs := [], latestBallot := none }

/-- The order on ballots by height, then round. -/
def Ballot.isLaterThan (blt : Ballot) (latest : Option Ballot) : Bool :=
  match latest with
  | none => true
  | some l => decide (l.height < blt.height ∨ (l.height = blt.height ∧ l.round < blt.round))

/-- Modelled from the spec: `Ballotbox.Vote`, which is not among the sources. A ballot
whose stage cannot vote is invalid; the `VoteRecords` of the key of the ballot is
looked up, or created with the current suffrage and threshold; the ballot is voted
there; an admitted ballot later than the latest one becomes the latest. -/
def Ballotbox.Vote (bb : Ballotbox) (blt : Ballot) (now : Time) :
    Except BallotboxError (VoteproofV0 × Ballotbox) :=
  if !blt.stage.CanVote then Except.error BallotboxError.InvalidBallot
  else
    let loaded : Except BallotboxError VoteRecords :=
      match GoMap.get bb.vrs blt.key with
      | some vrs => Except.ok vrs
      | none =>
        match bb.threshold with
        | none => Except.error BallotboxError.ThresholdUnavailable
        | some t => Except.ok (NewVoteRecords blt.key bb.suffrages t)
    match loaded with
    | Except.error e => Except.error e
    | Except.ok vrs =>
      match vrs.Vote blt now with
      | Except.error e => Except.error e
      | Except.ok (vp, vrs1, admitted) =>
        Except.ok (vp,
          { bb with
            vrs := GoMap.set bb.vrs blt.key vrs1,
            latestBallot :=
              if admitted && blt.isLaterThan bb.latestBallot then some blt
              else bb.latestBallot })

/-- A sequence of `Vote` calls: each call with its outcome, and the final ballotbox.
A failed call leaves the ballotbox as it was. -/
def Ballotbox.voteAll (bb : Ballotbox) :
    List (Ballot × Time) → List (Ballot × Except BallotboxError VoteproofV0) × Ballotbox
  | [] => ([], bb)
  | (blt, now) :: rest =>
    match bb.Vote blt now with
    | Except.error e =>
      let r := Ballotbox.voteAll bb rest
      ((blt, Except.error e) :: r.1, r.2)
    | Except.ok (vp, bb1) =>
      let r := Ballotbox.voteAll bb1 rest
      ((blt, Except.ok vp) :: r.1, r.2)

/-! ## The supervisor, continued: ballots, seals and start (`isaac/states.go`)

The ballotbox of the supervisor (`css.ballotbox`) is passed along with the
supervisor. Logging is not modelled. -/

/-- Continue a run with its result. -/
def Run.bind {α β : Type} (r : Run α) (f : α → Run β) : Run β :=
  match r with
  | Run.ret a => f a
  | Run.nilDereference => Run.nilDereference
  | Run.indexOutOfRange => Run.indexOutOfRange

/-- Embedding of `VoteproofV0.IsFinished`. -/
def VoteproofV0.IsFinished (vp : VoteproofV0) : Bool :=
  decide (vp.result ≠ VoteproofResultType.NotYet)

/-- Embedding of `VoteproofV0.IsClosed`. -/
def VoteproofV0.IsClosed (vp : VoteproofV0) : Bool := vp.closed

/-- Embedding of `ConsensusStates.vote`: the error returned, the supervisor and the
ballotbox afterwards. -/
def ConsensusStates.vote (hb : HandlerBehaviour) (fromState : State) (css : ConsensusStates)
    (bb : Ballotbox) (blt : Ballot) (now : Time) :
    Run (Option Error × ConsensusStates × Ballotbox) :=
  match bb.Vote blt now with
  | Except.error err => Run.ret (some (Error.Ballotbox err), css, bb)
  | Except.ok (voteproof, bb1) =>
    if !voteproof.IsFinished then Run.ret (none, css, bb1)
    else if voteproof.IsClosed then Run.ret (none, css, bb1)
    else (css.newVoteproof hb fromState voteproof).bind fun r => Run.ret (r.1, r.2, bb1)

/-- What `NewSeal` asks of its collaborators: the answer of `Storage().NewSeals` for
the seal, the public key of the local node, and the answer of the checks of
`validateProposal` (`NewProposalValidationChecker` is not among the sources). -/
structure SealEnv where
  NewSeals : Seal → Option Error
  localPublickey : Nat
  validateProposal : Ballot → Option Error

/-- Embedding of `ConsensusStates.validateSeal`: a proposal is checked by
`validateProposal`, `validateBallot` accepts every other ballot, and any other seal
passes. -/
def ConsensusStates.validateSeal (env : SealEnv) (sl : Seal) : Option Error :=
  match sl with
  | Seal.ballot blt _ =>
    if blt.stage = Stage.PROPOSAL then env.validateProposal blt else none
  | Seal.operations _ _ => none

/-- Embedding of `ConsensusStates.NewSeal`: the error returned, the supervisor and the
ballotbox afterwards. The hand-over to the active handler, made in a goroutine, is
logged as `Call.NewSeal`. -/
def ConsensusStates.NewSeal (hb : HandlerBehaviour) (env : SealEnv) (fromState : State)
    (css : ConsensusStates) (bb : Ballotbox) (sl : Seal) (now : Time) :
    Run (Option Error × ConsensusStates × Ballotbox) :=
  match env.NewSeals sl with
  | some err => Run.ret (some err, css, bb)
  | none =>
    match css.activeHandler with
    | none => Run.ret (some (Error.Errorf Msg.noActivatedHandler), css, bb)
    | some _ =>
      let isFromLocal : Bool := decide (sl.Signer = env.localPublickey)
      match (if !isFromLocal then ConsensusStates.validateSeal env sl else none) with
      | some err => Run.ret (some err, css, bb)
      | none =>
        let voted : Run (Option Error × ConsensusStates × Ballotbox) :=
          match sl with
          | Seal.ballot blt _ =>
            if blt.stage.CanVote then css.vote hb fromState bb blt now
            else Run.ret (none, css, bb)
          | Seal.operations _ _ => Run.ret (none, css, bb)
        voted.bind fun r =>
          match r.1 with
          | some err => Run.ret (some err, r.2.1, r.2.2)
          | none =>
            match r.2.1.activeHandler with
            | none => Run.nilDereference
            | some h =>
              Run.ret (none, { r.2.1 with calls := r.2.1.calls ++ [Call.NewSeal h sl] }, r.2.2)

/-- The calls of the loop of `Start` over the entries of the map `states`, taken in the
order in which `range` visits them: every handler that is not nil is given the state
channel and the seal channel. -/
def registerChannels : List (State × Option StateHandler) → List Call
  | [] => []
  | (_, none) :: rest => registerChannels rest
  | (_, some h) :: rest => Call.SetStateChan h :: Call.SetSealChan h :: registerChannels rest

/-- Embedding of `ConsensusStates.Start`. The argument `enum` is the order in which
`range css.states` visits the map, `daemonStart` is the answer of
`FunctionDaemon.Start()`; the ticker that cleans the ballotbox runs in a goroutine of
its own and is not modelled. -/
def ConsensusStates.Start (hb : HandlerBehaviour)
    (enum : List (State × Option StateHandler) → List (State × Option StateHandler))
    (daemonStart : Option Error) (css : ConsensusStates) : Option Error × ConsensusStates :=
  let css1 : ConsensusStates :=
    { css with calls := css.calls ++ registerChannels (enum css.states) }
  match daemonStart with
  | some err => (some err, css1)
  | none =>
    match css1.activateHandler hb
        (NewStateChangeContext State.Stopped State.Booting none none) with
    | (some err, css2) => (some err, css2)
    | (none, css2) => (none, css2)

/-- Embedding of `NewConsensusStates`: the five handlers registered, none active. -/
def NewConsensusStates (lastManifest : Except Error (Option Manifest))
    (lastINITVoteproof lastACCEPTVoteproof : Option VoteproofV0)
    (booting joining consensus syncing broken : Option StateHandler) : ConsensusStates :=
  { states := NewConsensusStates.states booting joining consensus syncing broken,
    activeHandler := none,
    lastManifest := lastManifest,
    lastINITVoteproof := lastINITVoteproof,
    lastACCEPTVoteproof := lastACCEPTVoteproof,
    calls := [] }

/-! ## Ballotbox, continued: `Clean` and `LatestBallot` (spec §4.4) -/

/-- Modelled from the spec: `Ballotbox.Clean(height)`, which is not among the sources:
it drops all `VoteRecords` with a height up to `height`, and returns no error. -/
def Ballotbox.Clean (bb : Ballotbox) (height : Int) : Option Error × Ballotbox :=
  (none, { bb with vrs := bb.vrs.filter fun kv => !decide (kv.2.height ≤ height) })

/-- Modelled from the spec: `Ballotbox.LatestBallot()`, which is not among the
sources: the latest ballot seen, by height and round. -/
def Ballotbox.LatestBallot (bb : Ballotbox) : Option Ballot := bb.latestBallot

/-- The ballots of the calls of a sequence of votes that returned a voteproof, in the
order of the calls. -/
def successfulBallots :
    List (Ballot × Except BallotboxError VoteproofV0) → List Ballot
  | [] => []
  | (blt, Except.ok _) :: rest => blt :: successfulBallots rest
  | (_, Except.error _) :: rest => successfulBallots rest

/-- The ballot `l` is the earliest of the ballots of `history` whose height and round
are maximal: every ballot before it is strictly lower, no ballot after it is higher. -/
def EarliestMaximal (history : List Ballot) (l : Ballot) : Prop :=
  ∃ pre post, history = pre ++ l :: post ∧
    (∀ b ∈ pre, l.isLaterThan (some b) = true) ∧
    (∀ b ∈ post, b.isLaterThan (some l) = false)

/-- The latest ballot of the ballotbox is the earliest maximal ballot of `history`,
or there is none and `history` is empty. -/
def Ballotbox.LatestIs (bb : Ballotbox) (history : List Ballot) : Prop :=
  match bb.latestBallot with
  | none => history = []
  | some l => EarliestMaximal history l

/-- The height and round of every key that has records are at most those of the
latest ballot. -/
def Ballotbox.KeysBelowLatest (bb : Ballotbox) : Prop :=
  ∀ k vrs, GoMap.get bb.vrs k = some vrs →
    ∃ l, bb.latestBallot = some l ∧
      ¬ (l.height < k.1 ∨ (l.height = k.1 ∧ l.round < k.2.1))

/-! ## The Booting state (`states/basic/state_booting.go`) -/

/-- The test `errors.Is(err, util.NotFoundError)`. -/
def Error.isNotFound : Error → Bool
  | Error.NotFoundError => true
  | _ => false

/-- The callback that the function returned by `Enter` calls first: `EmptySwitchFunc`,
or the function returned by `BaseState.Enter`, given by what it returns when called. -/
inductive SwitchCallback where
  | EmptySwitchFunc
  | fromBase (result : Option Error)
  deriving DecidableEq, Repr

/-- The function returned by `BootingState.Enter`: it calls `callback` and then
`NewStateSwitchContext(next)`. -/
structure SwitchFunc where
  callback : SwitchCallback
  next : State
  deriving DecidableEq, Repr

/-- What `BootingState.Enter` does to its collaborators before it returns. -/
inductive BootingEffect where
  | resetBallotbox
  | cleanDatabase
  | cleanBlockData
  deriving DecidableEq, Repr

/-- The answers of the collaborators of `BootingState.Enter`: `BaseState.Enter` (an
error, or a callback that may be nil), `storage.CheckBlock`, `db.Clean()`,
`blockData.Clean(false)`, the number of syncable channels, and
`suffrage.IsInside(local.Address())`. -/
structure BootingEnv where
  baseEnter : Except Error (Option (Option Error))
  checkBlock : Option Error
  dbClean : Option Error
  blockDataClean : Option Error
  syncableChannels : Nat
  isInside : Bool

/-- Embedding of `blockdata.Clean(db, blockData, false)` (`storage/blockdata/util.go`):
the error returned and what was cleaned. -/
def blockdataClean (env : BootingEnv) : Option Error × List BootingEffect :=
  match env.dbClean with
  | some err => (some err, [BootingEffect.cleanDatabase])
  | none => (env.blockDataClean, [BootingEffect.cleanDatabase, BootingEffect.cleanBlockData])

/-- Embedding of `BootingState.enterSyncing`. -/
def BootingState.enterSyncing (env : BootingEnv) (callback : SwitchCallback) :
    Except Error SwitchFunc :=
  if env.syncableChannels < 1 then Except.error (Error.Errorf Msg.emptyBlocksNoChannels)
  else Except.ok { callback := callback, next := State.Syncing }

/-- The callback chosen at the head of `BootingState.Enter`: `EmptySwitchFunc`, replaced
by the function returned by `BaseState.Enter` when that one is not nil. -/
def BootingState.callbackOf (i : Option (Option Error)) : SwitchCallback :=
  match i with
  | none => SwitchCallback.EmptySwitchFunc
  | some result => SwitchCallback.fromBase result

/-- Embedding of `BootingState.Enter`: the function or the error returned, and the
effects on the collaborators. -/
def BootingState.Enter (env : BootingEnv) : Except Error SwitchFunc × List BootingEffect :=
  match env.baseEnter with
  | Except.error err => (Except.error err, [])
  | Except.ok i =>
    let callback : SwitchCallback := BootingState.callbackOf i
    match env.checkBlock with
    | some err =>
      if !err.isNotFound then (Except.error err, [BootingEffect.resetBallotbox])
      else
        match blockdataClean env with
        | (some err1, effects) => (Except.error err1, BootingEffect.resetBallotbox :: effects)
        | (none, effects) =>
          (BootingState.enterSyncing env callback, BootingEffect.resetBallotbox :: effects)
    | none =>
      if env.isInside then
        (Except.ok { callback := callback, next := State.Joining },
          [BootingEffect.resetBallotbox])
      else
        (Except.ok { callback := callback, next := State.Syncing },
          [BootingEffect.resetBallotbox])

/-- Running the function returned by `Enter`: `callback()` first, and when it returns
nil, `NewStateSwitchContext(next)`. The result is the error returned and the state
that was requested, if any. The arguments are what `EmptySwitchFunc` and
`NewStateSwitchContext` return. -/
def SwitchFunc.run (emptySwitchFunc : Option Error) (newStateSwitchContext : State → Option Error)
    (f : SwitchFunc) : Option Error × Option State :=
  let called : Option Error :=
    match f.callback with
    | SwitchCallback.EmptySwitchFunc => emptySwitchFunc
    | SwitchCallback.fromBase result => result
  match called with
  | some err => (some err, none)
  | none => (newStateSwitchContext f.next, some f.next)

/-! ## The ACCEPT ballot (`isaac/ballot_v0_accept.go`) -/

/-- Byte strings (`[]byte`). -/
abbrev Bytes := List Nat

/-- The part shared by all ballots (`BaseBallotV0`); a nil interface is `none` and the
zero time is `0`. -/
structure BaseBallotV0 where
  h : Option Hash
  signer : Option Nat
  signature : Option Bytes
  signedAt : Time
  node : Option Address
  deriving DecidableEq, Repr

/-- The part shared by all ballot facts (`BaseBallotFactV0`). -/
structure BaseBallotFactV0 where
  height : Int
  round : Round
  deriving DecidableEq, Repr

/-- The fact of an ACCEPT ballot (`ACCEPTBallotFactV0`); `base` is the embedded
`BaseBallotFactV0`. -/
structure ACCEPTBallotFactV0 where
  base : BaseBallotFactV0
  proposal : Option Hash
  newBlock : Option Hash
  deriving DecidableEq, Repr

/-- The ACCEPT ballot (`ACCEPTBallotV0`); `base` and `fact` are the embedded
`BaseBallotV0` and `ACCEPTBallotFactV0`. -/
structure ACCEPTBallotV0 where
  base : BaseBallotV0
  fact : ACCEPTBallotFactV0
  bodyHash : Option Hash
  voteproof : Option VoteproofV0
  factHash : Option Hash
  factSignature : Option Bytes
  deriving DecidableEq, Repr

/-- The zero value `ACCEPTBallotV0{}`. -/
def ACCEPTBallotV0.zero : ACCEPTBallotV0 :=
  { base := { h := none, signer := none, signature := none, signedAt := 0, node := none },
    fact := { base := { height := 0, round := 0 }, proposal := none, newBlock := none },
    bodyHash := none, voteproof := none, factHash := none, factSignature := none }

/-- What `Sign` uses of other packages: `valuehash.NewSHA256` and `Hash.Bytes()`, the
`Sign` and `Publickey` methods of a private key (a key is a number), the `Bytes()` and
`IsReadyToSign` methods of `BaseBallotV0`, the `Bytes()` method of `BaseBallotFactV0`,
the answer of `isvalid.Check` on the three parts of a fact, and `localtime.Now()`. -/
structure SignEnv where
  NewSHA256 : Bytes → Hash
  hashBytes : Hash → Bytes
  Sign : Nat → Bytes → Except Error Bytes
  Publickey : Nat → Nat
  baseBallotBytes : BaseBallotV0 → Bytes
  IsReadyToSign : BaseBallotV0 → NetworkID → Option Error
  baseFactBytes : BaseBallotFactV0 → Bytes
  isvalidCheck : ACCEPTBallotFactV0 → NetworkID → Option Error
  Now : Time

/-- Modelled from the spec: `BaseBallotV0.SetHash`, which is not among the sources: the
ballot with the hash replaced (spec §3: the hash is one of the fields of a ballot). -/
def BaseBallotV0.SetHash (bb : BaseBallotV0) (h : Hash) : BaseBallotV0 :=
  { bb with h := some h }

/-- Embedding of `VoteproofV0.Bytes`, which returns nil. -/
def VoteproofV0.Bytes (_vp : VoteproofV0) : Bytes := []

/-- The call `h.Bytes()` on a hash interface: a nil interface panics. -/
def hashBytesOf (env : SignEnv) : Option Hash → Run Bytes
  | none => Run.nilDereference
  | some h => Run.ret (env.hashBytes h)

/-- The call `voteproof.Bytes()` on a voteproof interface: a nil interface panics. -/
def voteproofBytesOf : Option VoteproofV0 → Run Bytes
  | none => Run.nilDereference
  | some vp => Run.ret vp.Bytes

/-- Embedding of `ACCEPTBallotFactV0.IsValid`. -/
def ACCEPTBallotFactV0.IsValid (env : SignEnv) (abf : ACCEPTBallotFactV0) (b : NetworkID) :
    Option Error :=
  env.isvalidCheck abf b

/-- Embedding of `ACCEPTBallotFactV0.Bytes`: the concatenation of the bytes of the base
fact, of the proposal and of the new block. -/
def ACCEPTBallotFactV0.Bytes (env : SignEnv) (abf : ACCEPTBallotFactV0) : Run Bytes :=
  (hashBytesOf env abf.proposal).bind fun p =>
    (hashBytesOf env abf.newBlock).bind fun n =>
      Run.ret (env.baseFactBytes abf.base ++ p ++ n)

/-- Embedding of `ACCEPTBallotFactV0.Hash`. -/
def ACCEPTBallotFactV0.Hash (env : SignEnv) (abf : ACCEPTBallotFactV0) : Run Hash :=
  (abf.Bytes env).bind fun e => Run.ret (env.NewSHA256 e)

/-- Embedding of `ACCEPTBallotV0.GenerateBodyHash`. -/
def ACCEPTBallotV0.GenerateBodyHash (env : SignEnv) (ab : ACCEPTBallotV0) (b : NetworkID) :
    Run (Except Error Hash) :=
  match ab.fact.IsValid env b with
  | some err => Run.ret (Except.error err)
  | none =>
    (ab.fact.Bytes env).bind fun f =>
      (voteproofBytesOf ab.voteproof).bind fun v =>
        Run.ret (Except.ok (env.NewSHA256 (f ++ v ++ b)))

/-- Embedding of `ACCEPTBallotV0.GenerateHash`. -/
def ACCEPTBallotV0.GenerateHash (env : SignEnv) (ab : ACCEPTBallotV0) (b : NetworkID) :
    Run (Except Error Hash) :=
  (ab.fact.Bytes env).bind fun f =>
    (hashBytesOf env ab.bodyHash).bind fun h =>
      (voteproofBytesOf ab.voteproof).bind fun v =>
        Run.ret (Except.ok (env.NewSHA256 (env.baseBallotBytes ab.base ++ f ++ h ++ v ++ b)))

/-- Embedding of `ACCEPTBallotV0.Sign`: the error returned and the ballot behind the
receiver afterwards. The receiver is written only after both signatures exist. -/
def ACCEPTBallotV0.Sign (env : SignEnv) (ab : ACCEPTBallotV0) (pk : Nat) (b : NetworkID) :
    Run (Option Error × ACCEPTBallotV0) :=
  match env.IsReadyToSign ab.base b with
  | some err => Run.ret (some err, ab)
  | none =>
    (ab.GenerateBodyHash env b).bind fun r =>
      match r with
      | Except.error err => Run.ret (some err, ab)
      | Except.ok bodyHash =>
        match env.Sign pk (env.hashBytes bodyHash ++ b) with
        | Except.error err => Run.ret (some err, ab)
        | Except.ok sig =>
          (ab.fact.Hash env).bind fun factHash =>
            match env.Sign pk (env.hashBytes factHash ++ b) with
            | Except.error err => Run.ret (some err, ab)
            | Except.ok factSig =>
              let ab1 : ACCEPTBallotV0 :=
                { ab with
                  base := { ab.base with
                    signer := some (env.Publickey pk), signature := some sig,
                    signedAt := env.Now },
                  bodyHash := some bodyHash, factHash := some factHash,
                  factSignature := some factSig }
              (ab1.GenerateHash env b).bind fun g =>
                match g with
                | Except.error err => Run.ret (some err, ab1)
                | Except.ok h => Run.ret (none, { ab1 with base := ab1.base.SetHash h })

/-- Embedding of `ACCEPTBallotV0.Stage`. -/
def ACCEPTBallotV0.Stage (_ab : ACCEPTBallotV0) : Stage := Stage.ACCEPT

/-- The methods of a `Block` that the construction of an ACCEPT ballot reads: `Hash()`,
`Height()` and `Proposal()`. -/
structure Block where
  hash : Option Hash
  height : Int
  proposal : Option Hash
  deriving DecidableEq, Repr

/-- The accessors of `Localstate` that the construction of an ACCEPT ballot reads:
`LastBlock()`, `Node().Address()`, `Node().Privatekey()` and `LastINITVoteproof()`. -/
structure Localstate where
  lastBlock : Option Block
  address : Option Address
  privatekey : Nat
  lastINITVoteproof : Option VoteproofV0

/-- The composite literal `ab` of `NewACCEPTBallotV0FromLocalstate`, the ballot before it
is signed; `lastBlock.Height() + 1` is an addition of `int64`. -/
def unsignedACCEPTBallot (localstate : Localstate) (lastBlock : Block) (round : Round)
    (newBlock : Block) : ACCEPTBallotV0 :=
  { base := { h := none, signer := none, signature := none, signedAt := 0,
              node := localstate.address },
    fact := { base := { height := wrapInt64 (lastBlock.height + 1), round := round },
              proposal := newBlock.proposal, newBlock := newBlock.hash },
    bodyHash := none, voteproof := localstate.lastINITVoteproof, factHash := none,
    factSignature := none }

/-- Embedding of `NewACCEPTBallotV0FromLocalstate`: the ballot and the error returned. -/
def NewACCEPTBallotV0FromLocalstate (env : SignEnv) (localstate : Localstate) (round : Round)
    (newBlock : Block) (b : NetworkID) : Run (ACCEPTBallotV0 × Option Error) :=
  match localstate.lastBlock with
  | none => Run.ret (ACCEPTBallotV0.zero, some (Error.Errorf Msg.lastBlockIsEmpty))
  | some lastBlock =>
    ((unsignedACCEPTBallot localstate lastBlock round newBlock).Sign env
        localstate.privatekey b).bind fun r =>
      match r.1 with
      | some err => Run.ret (ACCEPTBallotV0.zero, some err)
      | none => Run.ret (r.2, none)

/-! ## The network policy (`isaac/operation_policy.go`) -/

/-- A `time.Duration`: a number of nanoseconds. -/
abbrev Duration := Int

/-- The constant `time.Second`. -/
def Second : Duration := 1000000000

/-- The constant `time.Minute`. -/
def Minute : Duration := 60 * Second

/-- A `base.ThresholdRatio`, a percentage. -/
abbrev ThresholdRatio := ℚ

/-- Errors of `PolicyOperationBodyV0.IsValid`; `tooNarrow` carries the name under which
the duration is examined. -/
inductive PolicyError where
  | tooNarrow (k : String) (d : Duration)
  | numberOfActingSuffrageNodesMustBeOver0 (n : Nat)
  | invalidThresholdRatio (r : ThresholdRatio)
  deriving DecidableEq, Repr

/-- Modelled from the spec: `ThresholdRatio.IsValid`, which is not among the sources: a
ratio is valid when it lies in `(0, 100]` (spec §5). -/
def ThresholdRatio.IsValid (tr : ThresholdRatio) : Option PolicyError :=
  if 0 < tr ∧ tr ≤ 100 then none else some (PolicyError.invalidThresholdRatio tr)

/-- The body of the policy operation (`PolicyOperationBodyV0`). -/
structure PolicyOperationBodyV0 where
  thresholdRatio : ThresholdRatio
  timeoutWaitingProposal : Duration
  intervalBroadcastingINITBallot : Duration
  intervalBroadcastingProposal : Duration
  waitBroadcastingACCEPTBallot : Duration
  intervalBroadcastingACCEPTBallot : Duration
  numberOfActingSuffrageNodes : Nat
  timespanValidBallot : Duration
  timeoutProcessProposal : Duration
  deriving DecidableEq, Repr

/-- Embedding of `DefaultPolicy`. -/
def DefaultPolicy : PolicyOperationBodyV0 :=
  { thresholdRatio := 100,
    timeoutWaitingProposal := Second * 5,
    intervalBroadcastingINITBallot := Second * 1,
    intervalBroadcastingProposal := Second * 1,
    waitBroadcastingACCEPTBallot := Second * 2,
    intervalBroadcastingACCEPTBallot := Second * 1,
    numberOfActingSuffrageNodes := 1,
    timespanValidBallot := Minute * 1,
    timeoutProcessProposal := Second * 30 }

/-- The map of durations that `PolicyOperationBodyV0.IsValid` ranges over, as the list
of its entries in the order of the literal. -/
def PolicyOperationBodyV0.durations (po : PolicyOperationBodyV0) : List (String × Duration) :=
  [("TimeoutWaitingProposal", po.timeoutWaitingProposal),
   ("IntervalBroadcastingINITBallot", po.intervalBroadcastingINITBallot),
   ("IntervalBroadcastingProposal", po.intervalBroadcastingProposal),
   ("WaitBroadcastingACCEPTBallot", po.waitBroadcastingACCEPTBallot),
   ("IntervalBroadcastingACCEPTBallot", po.intervalBroadcastingACCEPTBallot),
   ("TimespanValidBallot", po.timespanValidBallot),
   ("TimeoutProcessProposal", po.timeoutProcessProposal)]

/-- Embedding of `PolicyOperationBodyV0.IsValid`; `enum` is the order in which the
`range` over the map visits its entries. -/
def PolicyOperationBodyV0.IsValid
    (enum : List (String × Duration) → List (String × Duration))
    (po : PolicyOperationBodyV0) : Option PolicyError :=
  match firstError (enum po.durations)
      (fun kd => if kd.2 < 0 then some (PolicyError.tooNarrow kd.1 kd.2) else none) with
  | some err => some err
  | none =>
    if po.numberOfActingSuffrageNodes < 1 then
      some (PolicyError.numberOfActingSuffrageNodesMustBeOver0 po.numberOfActingSuffrageNodes)
    else ThresholdRatio.IsValid po.thresholdRatio

/-! ## The fixed suffrage (`contest/common/fixed_suffrage.go`) -/

/-- What a suffrage reads of a node (`isaac.Node`): `Address()` and `Publickey()`. -/
structure Node where
  address : Address
  publickey : Nat
  deriving DecidableEq, Repr

/-- The suffrage with a fixed proposer (`FixedSuffrage`); `nodes` is the map from
address to node, and a nil proposer is `none`. -/
structure FixedSuffrage where
  proposer : Option Node
  nodes : List (Address × Node)
  nodeSlice : List Node
  deriving DecidableEq, Repr

/-- Embedding of `NewFixedSuffrage`. -/
def NewFixedSuffrage (proposer : Option Node) (nodes : List Node) : FixedSuffrage :=
  { proposer := proposer,
    nodes := nodes.foldl (fun ns n => GoMap.set ns n.address n) [],
    nodeSlice := nodes }

/-- Embedding of `FixedSuffrage.IsActing`. -/
def FixedSuffrage.IsActing (ff : FixedSuffrage) (_height : Int) (_round : Round)
    (node : Address) : Bool :=
  (GoMap.get ff.nodes node).isSome

/-- Embedding of `FixedSuffrage.IsProposer`; `Address()` on a nil proposer panics. -/
def FixedSuffrage.IsProposer (ff : FixedSuffrage) (_height : Int) (_round : Round)
    (node : Address) : Run Bool :=
  match ff.proposer with
  | none => Run.nilDereference
  | some p => Run.ret (decide (p.address = node))

/-! ## The seals extracter (`isaac/seal.go`) -/

/-- An operation (`operation.Operation`): what `Hash()` returns, and the rest of it. -/
structure Operation where
  hash : Hash
  body : Nat
  deriving DecidableEq, Repr

/-- A seal as the extracter reads it: what `Hash()` returns and, when the type assertion
`sl.(operation.Seal)` holds, what `Operations()` returns. -/
structure StoredSeal where
  hash : Hash
  operations : Option (List Operation)
  deriving DecidableEq, Repr

/-- The extracter (`SealsExtracter`); the set `founds` is the list of its keys. -/
structure SealsExtracter where
  localAddress : Address
  proposer : Address
  seals : List Hash
  founds : List Hash
  deriving DecidableEq, Repr

/-- Embedding of `NewSealsExtracter`. -/
def NewSealsExtracter (localAddress proposer : Address) (seals : List Hash) : SealsExtracter :=
  { localAddress := localAddress, proposer := proposer, seals := seals, founds := [] }

/-- What the extracter uses of the database, the context, the node pool and the channel
of the proposer: `database.Seal(h)` (a seal, not found, or an error);
whether the `select` of the lookup number `i` takes the branch `ctx.Done()`, with
`ctx.Err()`; the same for the `select` of `extractFromChannel`; `nodepool.Node(address)`
(not found, or the channel, which may be nil); `channel.Seals(ctx, hashes)`;
`database.NewSeals(seals)`; and the order in which `range` visits the map of the
received seals. -/
structure ExtractEnv where
  databaseSeal : Hash → Except Error (Option StoredSeal)
  ctxDone : Nat → Option Error
  ctxDoneChannel : Option Error
  Node : Address → Option (Option Nat)
  Seals : Nat → List Hash → Except Error (List StoredSeal)
  NewSeals : List StoredSeal → Option Error
  enum : List (Hash × List Operation) → List (Hash × List Operation)

/-- The tests `errors.Is(err, context.DeadlineExceeded)` and
`errors.Is(err, context.Canceled)`. -/
def Error.isContextDone : Error → Bool
  | Error.Canceled => true
  | Error.DeadlineExceeded => true
  | _ => false

/-- The test `errors.Is(err, util.DuplicatedError)`. -/
def Error.isDuplicated : Error → Bool
  | Error.DuplicatedError => true
  | _ => false

/-- One round of the loop of `filterFounds` and of `filterDuplicated`: an operation
whose hash is not among the found ones is appended and its hash recorded. -/
def filterStep (acc : List Operation × List Hash) (op : Operation) :
    List Operation × List Hash :=
  if op.hash ∈ acc.2 then acc else (acc.1 ++ [op], acc.2 ++ [op.hash])

/-- Embedding of `SealsExtracter.filterFounds`: the operations returned and the set
`se.founds` afterwards. -/
def SealsExtracter.filterFounds (founds : List Hash) (ops : List Operation) :
    List Operation × List Hash :=
  if ops.length < 1 then ([], founds) else ops.foldl filterStep ([], founds)

/-- Embedding of `SealsExtracter.filterDuplicated`. -/
def SealsExtracter.filterDuplicated (ops : List Operation) : List Operation :=
  if ops.length < 1 then [] else (ops.foldl filterStep ([], [])).1

/-- Embedding of `SealsExtracter.fromStorage`, for the lookup number `i`: the error, or
the operations when the seal was found. -/
def SealsExtracter.fromStorage (env : ExtractEnv) (i : Nat) (h : Hash) :
    Except Error (Option (List Operation)) :=
  match env.ctxDone i with
  | some err => Except.error err
  | none =>
    match env.databaseSeal h with
    | Except.error err => Except.error err
    | Except.ok none => Except.ok none
    | Except.ok (some sl) =>
      match sl.operations with
      | none => Except.error (Error.Errorf Msg.notOperationSeal)
      | some os => Except.ok (some (SealsExtracter.filterDuplicated os))

/-- The variables of `Extract` and of `extractFromStorage`: the map `opsBySeals`, the set
`se.founds`, the number of operations counted and the hashes not found. -/
structure ExtractState where
  opsBySeals : List (Hash × List Operation)
  founds : List Hash
  count : Nat
  notFounds : List Hash
  deriving DecidableEq, Repr

/-- The loop of `SealsExtracter.extractFromStorage`, from the lookup number `i` on. -/
def SealsExtracter.extractFromStorageLoop (env : ExtractEnv) :
    Nat → List Hash → ExtractState → Option Error × ExtractState
  | _, [], st => (none, st)
  | i, h :: rest, st =>
    match SealsExtracter.fromStorage env i h with
    | Except.error err =>
      if err.isContextDone then (some err, st)
      else if err.isNotFound then
        SealsExtracter.extractFromStorageLoop env (i + 1) rest
          { st with notFounds := st.notFounds ++ [h] }
      else (some err, st)
    | Except.ok none =>
      SealsExtracter.extractFromStorageLoop env (i + 1) rest
        { st with notFounds := st.notFounds ++ [h] }
    | Except.ok (some ops) =>
      let r := SealsExtracter.filterFounds st.founds ops
      SealsExtracter.extractFromStorageLoop env (i + 1) rest
        { st with opsBySeals := GoMap.set st.opsBySeals h r.1, founds := r.2,
                  count := st.count + r.1.length }

/-- Embedding of `SealsExtracter.extractFromStorage`. -/
def SealsExtracter.extractFromStorage (env : ExtractEnv) (se : SealsExtracter)
    (opsBySeals : List (Hash × List Operation)) : Option Error × ExtractState :=
  SealsExtracter.extractFromStorageLoop env 0 se.seals
    { opsBySeals := opsBySeals, founds := se.founds, count := 0, notFounds := [] }

/-- The map `bySeals` built at the end of `fromChannel`. -/
def bySealsOf : List StoredSeal → List (Hash × List Operation) →
    Except Error (List (Hash × List Operation))
  | [], acc => Except.ok acc
  | sl :: rest, acc =>
    match sl.operations with
    | none => Except.error (Error.Errorf Msg.notOperationSeal)
    | some os => bySealsOf rest (GoMap.set acc sl.hash os)

/-- Embedding of `SealsExtracter.fromChannel`: the map of the received seals or the
error, and the requests made on the channel of the proposer. -/
def SealsExtracter.fromChannel (env : ExtractEnv) (se : SealsExtracter) (notFounds : List Hash) :
    Except Error (List (Hash × List Operation)) × List (Nat × List Hash) :=
  if se.localAddress = se.proposer then (Except.error (Error.Errorf Msg.proposerIsLocal), [])
  else
    match env.Node se.proposer with
    | none => (Except.error (Error.Errorf Msg.proposerIsNotInNodes), [])
    | some none => (Except.error (Error.Errorf Msg.proposerIsDead), [])
    | some (some proposerch) =>
      match env.Seals proposerch notFounds with
      | Except.error err => (Except.error err, [(proposerch, notFounds)])
      | Except.ok received =>
        match (env.NewSeals received).filter (fun err => !err.isDuplicated) with
        | some err => (Except.error err, [(proposerch, notFounds)])
        | none => (bySealsOf received [], [(proposerch, notFounds)])

/-- The loop of `extractFromChannel` over the received seals. -/
def SealsExtracter.extractFromChannelLoop :
    List (Hash × List Operation) → ExtractState → ExtractState
  | [], st => st
  | kv :: rest, st =>
    let r := SealsExtracter.filterFounds st.founds kv.2
    SealsExtracter.extractFromChannelLoop rest
      { st with opsBySeals := GoMap.set st.opsBySeals kv.1 r.1, founds := r.2,
                count := st.count + r.1.length }

/-- Embedding of `SealsExtracter.extractFromChannel`: the error, the variables afterwards
(`count` is the number counted here) and the requests made on the channel of the
proposer by the goroutine that runs `fromChannel`. -/
def SealsExtracter.extractFromChannel (env : ExtractEnv) (se : SealsExtracter)
    (seals : List Hash) (st : ExtractState) :
    Option Error × ExtractState × List (Nat × List Hash) :=
  let r := SealsExtracter.fromChannel env se seals
  match env.ctxDoneChannel with
  | some err => (some err, { st with count := 0 }, r.2)
  | none =>
    match r.1 with
    | Except.error err => (some err, { st with count := 0 }, r.2)
    | Except.ok m =>
      (none, SealsExtracter.extractFromChannelLoop (env.enum m) { st with count := 0 }, r.2)

/-- The statement `copy(ops[offset:], l)`: slicing beyond the end of `ops` panics, and
`copy` stops at the end of the shorter slice. -/
def copyAt (ops : List (Option Operation)) (offset : Nat) (l : List Operation) :
    Run (List (Option Operation)) :=
  if offset > ops.length then Run.indexOutOfRange
  else
    let copied := l.take (ops.length - offset)
    Run.ret (ops.take offset ++ copied.map some ++ ops.drop (offset + copied.length))

/-- The last loop of `Extract`: the operations of the seals, in the order of `se.seals`,
copied into `ops` from `offset` on. -/
def SealsExtracter.collect (opsBySeals : List (Hash × List Operation)) :
    List Hash → List (Option Operation) → Nat → Run (List (Option Operation))
  | [], ops, _ => Run.ret ops
  | h :: rest, ops, offset =>
    match GoMap.get opsBySeals h with
    | none => SealsExtracter.collect opsBySeals rest ops offset
    | some l =>
      if l.length > 0 then
        (copyAt ops offset l).bind fun ops1 =>
          SealsExtracter.collect opsBySeals rest ops1 (offset + l.length)
      else SealsExtracter.collect opsBySeals rest ops offset

/-- What a call of `Extract` leaves behind: what it returns (a nil operation is `none`),
the set `se.founds` afterwards, and the requests made on the channel of the proposer. -/
structure ExtractOutcome where
  result : Run (Except Error (List (Option Operation)))
  founds : List Hash
  requests : List (Nat × List Hash)

/-- Embedding of `SealsExtracter.Extract`. -/
def SealsExtracter.Extract (env : ExtractEnv) (se : SealsExtracter) : ExtractOutcome :=
  match SealsExtracter.extractFromStorage env se [] with
  | (some err, st) =>
    { result := Run.ret (Except.error err), founds := st.founds, requests := [] }
  | (none, st) =>
    let fromChannel : Option Error × ExtractState × List (Nat × List Hash) :=
      if st.notFounds.length > 0 then SealsExtracter.extractFromChannel env se st.notFounds st
      else (none, { st with count := 0 }, [])
    match fromChannel with
    | (some err, st1, requests) =>
      { result := Run.ret (Except.error err), founds := st1.founds, requests := requests }
    | (none, st1, requests) =>
      let opsCount := st.count + st1.count
      { result :=
          (SealsExtracter.collect st1.opsBySeals se.seals (List.replicate opsCount none) 0).bind
            fun ops => Run.ret (Except.ok ops),
        founds := st1.founds, requests := requests }

/-- The subsequence of the first occurrences by hash: the operations of `ops` whose hash
occurs neither in `seen` nor earlier in `ops`. -/
def firstOccurrences : List Hash → List Operation → List Operation
  | _, [] => []
  | seen, op :: rest =>
    if op.hash ∈ seen then firstOccurrences seen rest
    else op :: firstOccurrences (seen ++ [op.hash]) rest

/-- Whether an answer of `fromStorage` says that storage does not have the seal: the
lookup reports not-found, or it fails with `NotFoundError`. -/
def isStorageMiss : Except Error (Option (List Operation)) → Bool
  | Except.ok none => true
  | Except.ok (some _) => false
  | Except.error err => !err.isContextDone && err.isNotFound

/-- The error of an answer of `fromStorage` that fails with another error than
`NotFoundError`, cancellation and deadline-exceeded included. -/
def storageFailure : Except Error (Option (List Operation)) → Option Error
  | Except.ok _ => none
  | Except.error err => if err.isContextDone || !err.isNotFound then some err else none

/-- The answers of `fromStorage` to the lookups of the listed seals, numbered from `i`. -/
def storageAnswers (env : ExtractEnv) (i : Nat) (seals : List Hash) :
    List (Hash × Except Error (Option (List Operation))) :=
  (seals.enumFrom i).map fun ih => (ih.2, SealsExtracter.fromStorage env ih.1 ih.2)

/-- The listed seal hashes that storage does not have, in list order. -/
def missingSeals (env : ExtractEnv) (i : Nat) (seals : List Hash) : List Hash :=
  ((storageAnswers env i seals).filter fun a => isStorageMiss a.2).map Prod.fst

/-- The error with which the database fails the lookup of the seal `h`: an error of
`database.Seal` other than `NotFoundError`, cancellation and deadline-exceeded
included, or the error "not operation.Seal" for a seal found that is not an operation
seal. -/
def databaseFailure (env : ExtractEnv) (h : Hash) : Option Error :=
  match env.databaseSeal h with
  | Except.error err => if err.isContextDone || !err.isNotFound then some err else none
  | Except.ok none => none
  | Except.ok (some sl) =>
    match sl.operations with
    | none => some (Error.Errorf Msg.notOperationSeal)
    | some _ => none

/-- Whether the database does not have the seal `h`: `database.Seal` reports not-found,
or it fails with `NotFoundError`. -/
def databaseMisses (env : ExtractEnv) (h : Hash) : Bool :=
  match env.databaseSeal h with
  | Except.error err => !err.isContextDone && err.isNotFound
  | Except.ok none => true
  | Except.ok (some _) => false

/-- The groups of operations that the map `opsBySeals` holds for the listed seals, in
list order; a seal without an entry has the empty group. -/
def groupsOf (opsBySeals : List (Hash × List Operation)) (seals : List Hash) :
    List (List Operation) :=
  seals.map fun h => (GoMap.get opsBySeals h).getD []

/-- What holds of the variables of `Extract` while the entries of `opsBySeals` are made
for listed seals, each once: the hashes found are pairwise different, they are the
hashes of the operations in the groups of the listed seals, and their number is the
number of operations counted (`c` having been counted before). -/
def ExtractInv (seals : List Hash) (c : Nat) (st : ExtractState) : Prop :=
  st.founds.Nodup ∧
  ((groupsOf st.opsBySeals seals).flatten.map Operation.hash).Perm st.founds ∧
  st.count + c = st.founds.length

/-- The records of the key `k` hold a finished voteproof with the given result,
majority and finishing time. -/
def Ballotbox.FinishedAt (bb : Ballotbox) (k : VoteKey) (r : VoteproofResultType)
    (m : Option Fact) (f : Time) : Prop :=
  ∃ vrs, GoMap.get bb.vrs k = some vrs ∧ vrs.voteproof.result = r ∧
    r ≠ VoteproofResultType.NotYet ∧ vrs.voteproof.majority = m ∧ vrs.voteproof.finishedAt = f

/-- The records of the key `k`, if any, hold a voteproof that is not finished. -/
def Ballotbox.UnfinishedAt (bb : Ballotbox) (k : VoteKey) : Prop :=
  ∀ vrs, GoMap.get bb.vrs k = some vrs → vrs.voteproof.result = VoteproofResultType.NotYet

/-- Every `VoteRecords` of the ballotbox holds at most one ballot per node. -/
def Ballotbox.OneBallotPerNode (bb : Ballotbox) : Prop :=
  ∀ k vrs, GoMap.get bb.vrs k = some vrs → (GoMap.keys vrs.ballots).Nodup

/-- Records with total 50 and ratio 100 in which only the node `node`, a member of
the suffrage, has voted: unfinished, and holding ballots of that node only. -/
def VoteRecords.SingleVoter (node : Address) (vrs : VoteRecords) : Prop :=
  node ∈ vrs.suffrages ∧ vrs.threshold = NewThreshold 50 100 ∧
    vrs.voteproof.result = VoteproofResultType.NotYet ∧ ∀ nb ∈ vrs.ballots, nb.1 = node

/-- A ballotbox with total 50 and ratio 100 whose suffrage holds `node`, all of whose
records are `SingleVoter` records. -/
def Ballotbox.SingleVoter (node : Address) (bb : Ballotbox) : Prop :=
  node ∈ bb.suffrages ∧ bb.threshold = some (NewThreshold 50 100) ∧
    ∀ k vrs, GoMap.get bb.vrs k = some vrs → vrs.SingleVoter node

/-- Every `VoteRecords` of the ballotbox was built with the suffrage `S` of the
ballotbox. -/
def Ballotbox.SnapshotOf (S : List Address) (bb : Ballotbox) : Prop :=
  bb.suffrages = S ∧ ∀ k vrs, GoMap.get bb.vrs k = some vrs → vrs.suffrages = S

/-! ## Sample values -/

/-- A manifest at height 2 with hash 7. -/
def sampleManifest : Manifest :=
  { h := 7, height := 2, round := 0, proposal := 1, previousBlock := 6,
    operationsHash := 0, statesHash := 0, createdAt := 1 }

/-- A voteproof with the given height, round, stage and majority fact, carrying two
votes for the fact hash 40. -/
def sampleVoteproof (height : Int) (round : Round) (stage : Stage) (majority : Option Fact) :
    VoteproofV0 :=
  { height := height, round := round, threshold := { total := 2, threshold := 2 },
    result := VoteproofResultType.Majority, closed := false, stage := stage,
    majority := majority,
    facts := match majority with
      | some f => [(40, f)]
      | none => [],
    ballots := [(1, 11), (2, 12)],
    votes := [(1, { fact := 40, factSignature := 1, signer := 1 }),
      (2, { fact := 40, factSignature := 2, signer := 2 })],
    finishedAt := 5 }

/-- An INIT ballot of a node at `(height, round)` for the previous block `pb`. -/
def sampleINITBallot (node : Address) (height : Int) (round : Round) (pb : Hash) : Ballot :=
  { hash := 1000 + pb, node := node, height := height, round := round, stage := Stage.INIT,
    fact := Fact.INITBallotFact height round pb, factHash := pb, signedAt := 1 }

/-- Validators that accept every value and hash a fact by its content: an INIT fact
by its previous block, every other fact to 0. -/
def sampleValidators : Validators :=
  { heightIsValid := fun _ _ => true, stageIsValid := fun _ _ => true,
    thresholdIsValid := fun _ _ => true, resultIsValid := fun _ _ => true,
    factIsValid := fun _ _ => true, addressIsValid := fun _ _ => true,
    hashIsValid := fun _ _ => true,
    factHash := fun f => match f with
      | Fact.INITBallotFact _ _ pb => pb
      | _ => 0 }

/-- A ballotbox of three nodes with total 3 and ratio 66 (threshold 2). -/
def sampleBallotbox : Ballotbox := NewBallotbox [1, 2, 3] (some (NewThreshold 3 66))

/-- The outcome of the second of two votes for the same previous block: the first
finished voteproof, and the ballotbox after it. -/
def sampleFirstFinished : VoteproofV0 × Ballotbox :=
  match (sampleBallotbox.voteAll [(sampleINITBallot 1 10 0 5, 7)]).2.Vote
      (sampleINITBallot 2 10 0 5) 8 with
  | Except.ok r => r
  | Except.error _ => (sampleVoteproof 0 0 Stage.INIT none, sampleBallotbox)

/-- Whether every voteproof returned for the key `k` in a list of outcomes is not yet
finished. -/
def allNotYetOn (k : VoteKey) (l : List (Ballot × Except BallotboxError VoteproofV0)) : Bool :=
  l.all fun e =>
    match e.2 with
    | Except.ok v => decide (e.1.key = k → v.result = VoteproofResultType.NotYet)
    | Except.error _ => true

/-- Handlers that answer nil to every call. -/
def sampleHandlers : HandlerBehaviour :=
  { Activate := fun _ _ _ => none, Deactivate := fun _ _ _ => none,
    NewVoteproof := fun _ _ _ => none }

/-- The Consensus handler of the sample supervisor. -/
def sampleConsensusHandler : StateHandler := { id := 3, state := State.Consensus }

/-- The Syncing handler of the sample supervisor. -/
def sampleSyncingHandler : StateHandler := { id := 4, state := State.Syncing }

/-- A supervisor with a Consensus and a Syncing handler registered, the Consensus
handler active, the last manifest at height 2 and a last INIT voteproof of round 0. -/
def sampleConsensusStates : ConsensusStates :=
  { states := NewConsensusStates.states none none (some sampleConsensusHandler)
      (some sampleSyncingHandler) none,
    activeHandler := some sampleConsensusHandler,
    lastManifest := Except.ok (some sampleManifest),
    lastINITVoteproof := some (sampleVoteproof 3 0 Stage.INIT (some (Fact.INITBallotFact 3 0 7))),
    lastACCEPTVoteproof := none,
    calls := [] }

/-- Collaborators of `NewSeal` whose storage reports every seal as duplicated. -/
def sampleDuplicatedSealEnv : SealEnv :=
  { NewSeals := fun _ => some Error.DuplicatedError, localPublickey := 1,
    validateProposal := fun _ => none }

/-- The Booting handler of the sample supervisor. -/
def sampleBootingHandler : StateHandler := { id := 1, state := State.Booting }

/-- The outcome of the first vote in the sample ballotbox: an unfinished voteproof,
and the ballotbox after it. -/
def sampleFirstVote : VoteproofV0 × Ballotbox :=
  match sampleBallotbox.Vote (sampleINITBallot 1 10 0 5) 7 with
  | Except.ok r => r
  | Except.error _ => (sampleVoteproof 0 0 Stage.INIT none, sampleBallotbox)

/-- The ballotbox of the test of `Clean`: votes at height 10, then 9, then 10. -/
def sampleTwoHeights : Ballotbox :=
  ((NewBallotbox [1, 2] (some (NewThreshold 3 66))).voteAll
    [(sampleINITBallot 1 10 0 5, 7), (sampleINITBallot 1 9 0 9, 8),
      (sampleINITBallot 2 10 0 5, 9)]).2

/-- A node with no blocks and one syncable channel whose database cannot be
cleaned. -/
def sampleBootingCleanFails : BootingEnv :=
  { baseEnter := Except.ok none, checkBlock := some Error.NotFoundError,
    dbClean := some (Error.Errorf (Msg.other 1)), blockDataClean := none,
    syncableChannels := 1, isInside := true }

/-- A node with no blocks and one syncable channel, cleaned without error. -/
def sampleBootingNoBlocks : BootingEnv :=
  { baseEnter := Except.ok none, checkBlock := some Error.NotFoundError,
    dbClean := none, blockDataClean := none, syncableChannels := 1, isInside := true }

/-- Stand-ins for the hash and the signature: the hash of a byte string is its sum plus
its length, a signature is the key followed by the message. -/
def sampleSignEnv : SignEnv :=
  { NewSHA256 := fun e => e.sum + e.length, hashBytes := fun h => [h],
    Sign := fun pk m => Except.ok (pk :: m), Publickey := fun pk => pk + 100,
    baseBallotBytes := fun bb => [bb.signedAt], IsReadyToSign := fun _ _ => none,
    baseFactBytes := fun f => [f.height.toNat, f.round], isvalidCheck := fun _ _ => none,
    Now := 5 }

/-- An unsigned ACCEPT ballot of node 1 for height 3, round 0, with an INIT voteproof. -/
def sampleUnsignedACCEPT : ACCEPTBallotV0 :=
  { base := { h := none, signer := none, signature := none, signedAt := 0, node := some 1 },
    fact := { base := { height := 3, round := 0 }, proposal := some 11, newBlock := some 12 },
    bodyHash := none, voteproof := some (sampleVoteproof 3 0 Stage.INIT none), factHash := none,
    factSignature := none }

/-- The ballot `sampleUnsignedACCEPT` after `Sign` with the key 7 and the network id
`[9]`. -/
def sampleSignedACCEPT : ACCEPTBallotV0 :=
  match sampleUnsignedACCEPT.Sign sampleSignEnv 7 [9] with
  | Run.ret (_, ab) => ab
  | _ => ACCEPTBallotV0.zero

/-- A local state of node 1 whose last block has height 2. -/
def sampleLocalstate : Localstate :=
  { lastBlock := some { hash := some 7, height := 2, proposal := some 6 },
    address := some 1, privatekey := 7,
    lastINITVoteproof := some (sampleVoteproof 3 0 Stage.INIT none) }

/-- The block processed for height 3. -/
def sampleNewBlock : Block := { hash := some 12, height := 3, proposal := some 11 }

/-- A policy whose first and last durations are negative. -/
def sampleNarrowPolicy : PolicyOperationBodyV0 :=
  { DefaultPolicy with timeoutWaitingProposal := -1, timeoutProcessProposal := -2 }

/-- A fixed suffrage whose proposer, node 9, is not among its nodes 1 and 2. -/
def sampleOutsideProposer : FixedSuffrage :=
  NewFixedSuffrage (some { address := 9, publickey := 9 })
    [{ address := 1, publickey := 1 }, { address := 2, publickey := 2 }]

/-- A voteproof of four votes, two for the fact hash 10 and two for the fact hash 20,
with threshold 2 of 4, declaring the fact of hash 10 the majority. -/
def sampleTiedVoteproof : VoteproofV0 :=
  { height := 3, round := 0, threshold := { total := 4, threshold := 2 },
    result := VoteproofResultType.Majority, closed := false, stage := Stage.INIT,
    majority := some (Fact.INITBallotFact 3 0 10),
    facts := [(10, Fact.INITBallotFact 3 0 10), (20, Fact.INITBallotFact 3 0 20)],
    ballots := [(1, 11), (2, 12), (3, 13), (4, 14)],
    votes := [(1, { fact := 10, factSignature := 1, signer := 1 }),
      (2, { fact := 10, factSignature := 2, signer := 2 }),
      (3, { fact := 20, factSignature := 3, signer := 3 }),
      (4, { fact := 20, factSignature := 4, signer := 4 })],
    finishedAt := 5 }

/-- Handlers that answer nil to `Deactivate` and refuse every `Activate`. -/
def sampleRefusingHandlers : HandlerBehaviour :=
  { Activate := fun _ _ _ => some (Error.Errorf (Msg.other 1)),
    Deactivate := fun _ _ _ => none, NewVoteproof := fun _ _ _ => none }

/-- Three operations, the third with the hash of the first. -/
def sampleOperations : List Operation :=
  [{ hash := 1, body := 10 }, { hash := 2, body := 20 }, { hash := 1, body := 30 }]

/-- A database that holds the seal 7, with the operations `sampleOperations`, and the
seal 8, with one operation of hash 2; the proposer 5 is reachable on the channel 0 and
answers with one operation of hash 3 for every hash requested. -/
def sampleExtractEnv : ExtractEnv :=
  { databaseSeal := fun h =>
      if h = 7 then Except.ok (some { hash := 7, operations := some sampleOperations })
      else if h = 8 then
        Except.ok (some { hash := 8, operations := some [{ hash := 2, body := 20 }] })
      else Except.ok none,
    ctxDone := fun _ => none,
    ctxDoneChannel := none,
    Node := fun a => if a = 5 then some (some 0) else none,
    Seals := fun _ hs =>
      Except.ok (hs.map fun h => { hash := h, operations := some [{ hash := 3, body := h }] }),
    NewSeals := fun _ => none,
    enum := id }

/-- The sample database, with the lookup number 1 cancelled. -/
def sampleCancelledEnv : ExtractEnv :=
  { sampleExtractEnv with ctxDone := fun i => if i = 1 then some Error.Canceled else none }

/-- The sample database, where the lookup of the seal 9 fails with an error of the
database and the lookup of the seal 10 fails with `NotFoundError`. -/
def sampleFailingDatabaseEnv : ExtractEnv :=
  { sampleExtractEnv with
    databaseSeal := fun h =>
      if h = 9 then Except.error (Error.Errorf (Msg.other 3))
      else if h = 10 then Except.error Error.NotFoundError
      else sampleExtractEnv.databaseSeal h }

/-! ## Theorems -/

/-- The wrap-around is the identity on the `int64` range. -/
theorem wrapInt64_of_range (x : Int) (h1 : -2 ^ 63 ≤ x) (h2 : x < 2 ^ 63) : wrapInt64 x = x := by
  unfold wrapInt64
  rw [Int.emod_eq_of_lt (by omega) (by omega)]
  omega

/-- C1: `CheckHeight` computes `d = V.Height - (lastManifest.Height + 1)` in `int64`
arithmetic, the height of an absent manifest being `NilHeight = -1`. It returns the
state-change error to Syncing carrying `V` when `d > 0`, `IgnoreVoteproofError` when
`d < 0`, and `(true, nil)` exactly when `d = 0`. For heights from `NilHeight` upwards
with `lastManifest.Height + 1` representable, `d` is the exact integer difference. -/
theorem CheckHeight_classifies_by_height_difference
    (lastManifest : Option Manifest) (lastINITVoteproof : Option VoteproofV0) (V : VoteproofV0) :
    let vpc : VoteproofConsensusStateChecker := ⟨lastManifest, lastINITVoteproof, V⟩
    let h : Int := match lastManifest with
      | none => -1
      | some m => m.height
    let d : Int := wrapInt64 (V.height - wrapInt64 (h + 1))
    (0 < d → vpc.CheckHeight =
      (false, some (Error.StateToBeChangeError State.Syncing V none Msg.higherHeight))) ∧
    (d < 0 → vpc.CheckHeight = (false, some Error.IgnoreVoteproofError)) ∧
    (vpc.CheckHeight = (true, none) ↔ d = 0) ∧
    (-1 ≤ V.height → V.height < 2 ^ 63 → -1 ≤ h → h + 1 < 2 ^ 63 →
      d = V.height - (h + 1)) := by
  intro vpc h d
  have hd : vpc.heightDiff = d := by
    cases lastManifest <;> rfl
  refine ⟨?_, ?_, ?_, ?_⟩
  · intro hpos
    simp only [VoteproofConsensusStateChecker.CheckHeight, hd, gt_iff_lt, hpos, if_true, vpc]
  · intro hneg
    have hnot : ¬ 0 < d := by omega
    simp only [VoteproofConsensusStateChecker.CheckHeight, hd, gt_iff_lt, hnot, hneg, if_true,
      if_false]
  · constructor
    · intro hret
      by_contra hne
      rcases lt_or_gt_of_ne hne with hlt | hgt
      · have hnot : ¬ 0 < d := by omega
        simp [VoteproofConsensusStateChecker.CheckHeight, hd, hnot, hlt] at hret
      · have hgt2 : 0 < d := hgt
        simp [VoteproofConsensusStateChecker.CheckHeight, hd, hgt2] at hret
    · intro hz
      simp [VoteproofConsensusStateChecker.CheckHeight, hd, hz]
  · intro h1 h2 h3 h4
    show wrapInt64 (V.height - wrapInt64 (h + 1)) = V.height - (h + 1)
    rw [wrapInt64_of_range (h + 1) (by omega) h4]
    exact wrapInt64_of_range _ (by omega) (by omega)

/-- Witness of C1 at a voteproof of height 5 over a manifest of height 2 (`d = 2`). -/
theorem CheckHeight_classifies_by_height_difference_witness :
    (⟨some sampleManifest, none, sampleVoteproof 5 0 Stage.INIT none⟩ :
        VoteproofConsensusStateChecker).CheckHeight =
      (false, some (Error.StateToBeChangeError State.Syncing
        (sampleVoteproof 5 0 Stage.INIT none) none Msg.higherHeight)) ∧
    wrapInt64 ((5 : Int) - wrapInt64 (2 + 1)) = 5 - (2 + 1) :=
  ⟨(CheckHeight_classifies_by_height_difference (some sampleManifest) none
      (sampleVoteproof 5 0 Stage.INIT none)).1 (by decide),
   (CheckHeight_classifies_by_height_difference (some sampleManifest) none
      (sampleVoteproof 5 0 Stage.INIT none)).2.2.2 (by decide) (by decide) (by decide)
      (by decide)⟩

/-- C2: with a last manifest `m`, for a voteproof `V` of stage INIT,
`CheckINITVoteproof` returns `(true, nil)` if and only if the majority of `V` is an
INIT ballot fact whose previous block equals `m.Hash()`, and in every other case it
returns a state-change error to Syncing carrying `V`; for a voteproof of any other
stage it returns `(true, nil)`, with or without a last manifest. -/
theorem CheckINITVoteproof_passes_iff_previous_block_matches
    (m : Manifest) (lastINITVoteproof : Option VoteproofV0) (V : VoteproofV0) :
    let vpc : VoteproofConsensusStateChecker := ⟨some m, lastINITVoteproof, V⟩
    let matches_ : Prop :=
      ∃ h r pb, V.majority = some (Fact.INITBallotFact h r pb) ∧ pb = m.Hash
    (V.stage = Stage.INIT →
      (vpc.CheckINITVoteproof = Run.ret (true, none) ↔ matches_) ∧
      (¬ matches_ → ∃ err, vpc.CheckINITVoteproof =
        Run.ret (false, some (Error.StateToBeChangeError State.Syncing V none err)))) ∧
    (V.stage ≠ Stage.INIT → ∀ lastManifest : Option Manifest,
      (⟨lastManifest, lastINITVoteproof, V⟩ :
        VoteproofConsensusStateChecker).CheckINITVoteproof = Run.ret (true, none)) := by
  intro vpc matches_
  constructor
  · intro hstage
    rcases hmaj : V.majority with _ | f
    · refine ⟨?_, ?_⟩
      · simp [matches_, vpc, VoteproofConsensusStateChecker.CheckINITVoteproof, hstage,
          checkBlockWithINITVoteproof, hmaj]
      · intro _
        exact ⟨_, by simp [vpc, VoteproofConsensusStateChecker.CheckINITVoteproof, hstage,
          checkBlockWithINITVoteproof, hmaj]; rfl⟩
    · cases f with
      | INITBallotFact h r pb =>
        by_cases hpb : pb = m.Hash
        · refine ⟨?_, ?_⟩
          · simp [matches_, vpc, VoteproofConsensusStateChecker.CheckINITVoteproof, hstage,
              checkBlockWithINITVoteproof, hmaj, hpb]
          · intro hno
            exact absurd ⟨h, r, pb, by simp [hmaj], hpb⟩ hno
        · refine ⟨?_, ?_⟩
          · simp [matches_, vpc, VoteproofConsensusStateChecker.CheckINITVoteproof, hstage,
              checkBlockWithINITVoteproof, hmaj, hpb]
          · intro _
            exact ⟨_, by simp [vpc, VoteproofConsensusStateChecker.CheckINITVoteproof, hstage,
              checkBlockWithINITVoteproof, hmaj, hpb]; rfl⟩
      | SIGNBallotFact h r p nb =>
        refine ⟨?_, ?_⟩
        · simp [matches_, vpc, VoteproofConsensusStateChecker.CheckINITVoteproof, hstage,
            checkBlockWithINITVoteproof, hmaj]
        · intro _
          exact ⟨_, by simp [vpc, VoteproofConsensusStateChecker.CheckINITVoteproof, hstage,
            checkBlockWithINITVoteproof, hmaj]; rfl⟩
      | ACCEPTBallotFact h r p nb =>
        refine ⟨?_, ?_⟩
        · simp [matches_, vpc, VoteproofConsensusStateChecker.CheckINITVoteproof, hstage,
            checkBlockWithINITVoteproof, hmaj]
        · intro _
          exact ⟨_, by simp [vpc, VoteproofConsensusStateChecker.CheckINITVoteproof, hstage,
            checkBlockWithINITVoteproof, hmaj]; rfl⟩
      | ProposalFact h r sl =>
        refine ⟨?_, ?_⟩
        · simp [matches_, vpc, VoteproofConsensusStateChecker.CheckINITVoteproof, hstage,
            checkBlockWithINITVoteproof, hmaj]
        · intro _
          exact ⟨_, by simp [vpc, VoteproofConsensusStateChecker.CheckINITVoteproof, hstage,
            checkBlockWithINITVoteproof, hmaj]; rfl⟩
  · intro hstage lastManifest
    simp [VoteproofConsensusStateChecker.CheckINITVoteproof, hstage]

/-- Witness of C2: an INIT voteproof whose majority names the hash of the last
manifest passes, and an ACCEPT voteproof passes whatever its majority. -/
theorem CheckINITVoteproof_passes_iff_previous_block_matches_witness :
    ((⟨some sampleManifest, none,
        sampleVoteproof 3 0 Stage.INIT (some (Fact.INITBallotFact 3 0 7))⟩ :
        VoteproofConsensusStateChecker).CheckINITVoteproof = Run.ret (true, none) ↔
      ∃ h r pb, (sampleVoteproof 3 0 Stage.INIT (some (Fact.INITBallotFact 3 0 7))).majority =
        some (Fact.INITBallotFact h r pb) ∧ pb = sampleManifest.Hash) ∧
    (⟨some sampleManifest, none, sampleVoteproof 3 0 Stage.ACCEPT none⟩ :
        VoteproofConsensusStateChecker).CheckINITVoteproof = Run.ret (true, none) :=
  ⟨((CheckINITVoteproof_passes_iff_previous_block_matches sampleManifest none
      (sampleVoteproof 3 0 Stage.INIT (some (Fact.INITBallotFact 3 0 7)))).1 rfl).1,
   (CheckINITVoteproof_passes_iff_previous_block_matches sampleManifest none
      (sampleVoteproof 3 0 Stage.ACCEPT none)).2 (by decide) (some sampleManifest)⟩

/-- C3: with a last INIT voteproof `last`, for a voteproof `V` of stage ACCEPT,
`CheckACCEPTVoteproof` returns `(true, nil)` if and only if `V.Round` equals
`last.Round`, and otherwise returns `(false, err)` with `err` neither
`IgnoreVoteproofError` nor a state-change error; for a voteproof of any other stage
it returns `(true, nil)`, with or without a last INIT voteproof. -/
theorem CheckACCEPTVoteproof_passes_iff_round_matches
    (lastManifest : Option Manifest) (last : VoteproofV0) (V : VoteproofV0) :
    let vpc : VoteproofConsensusStateChecker := ⟨lastManifest, some last, V⟩
    (V.stage = Stage.ACCEPT →
      (vpc.CheckACCEPTVoteproof = Run.ret (true, none) ↔ V.round = last.round) ∧
      (V.round ≠ last.round → ∃ err, vpc.CheckACCEPTVoteproof = Run.ret (false, some err) ∧
        err.isIgnoreVoteproof = false ∧ err.asStateToBeChange = none)) ∧
    (V.stage ≠ Stage.ACCEPT → ∀ lastINITVoteproof : Option VoteproofV0,
      (⟨lastManifest, lastINITVoteproof, V⟩ :
        VoteproofConsensusStateChecker).CheckACCEPTVoteproof = Run.ret (true, none)) := by
  intro vpc
  constructor
  · intro hstage
    by_cases hr : last.round = V.round
    · refine ⟨?_, ?_⟩
      · simp [vpc, VoteproofConsensusStateChecker.CheckACCEPTVoteproof, hstage, hr]
      · intro hne
        exact absurd hr.symm hne
    · refine ⟨?_, ?_⟩
      · have hr2 : ¬ V.round = last.round := fun h => hr h.symm
        simp [vpc, VoteproofConsensusStateChecker.CheckACCEPTVoteproof, hstage, hr, hr2]
      · intro _
        refine ⟨Error.Errorf Msg.differentRound, ?_, rfl, rfl⟩
        simp [vpc, VoteproofConsensusStateChecker.CheckACCEPTVoteproof, hstage, hr]
  · intro hstage lastINITVoteproof
    simp [VoteproofConsensusStateChecker.CheckACCEPTVoteproof, hstage]

/-- Witness of C3: an ACCEPT voteproof of round 1 against a last INIT voteproof of
round 0 is refused with a plain error, and an INIT voteproof passes. -/
theorem CheckACCEPTVoteproof_passes_iff_round_matches_witness :
    (∃ err, (⟨some sampleManifest, some (sampleVoteproof 3 0 Stage.INIT none),
        sampleVoteproof 3 1 Stage.ACCEPT none⟩ :
        VoteproofConsensusStateChecker).CheckACCEPTVoteproof = Run.ret (false, some err) ∧
      err.isIgnoreVoteproof = false ∧ err.asStateToBeChange = none) ∧
    (⟨some sampleManifest, some (sampleVoteproof 3 0 Stage.INIT none),
        sampleVoteproof 3 1 Stage.INIT none⟩ :
        VoteproofConsensusStateChecker).CheckACCEPTVoteproof = Run.ret (true, none) :=
  ⟨((CheckACCEPTVoteproof_passes_iff_round_matches (some sampleManifest)
      (sampleVoteproof 3 0 Stage.INIT none) (sampleVoteproof 3 1 Stage.ACCEPT none)).1 rfl).2
      (by decide),
   (CheckACCEPTVoteproof_passes_iff_round_matches (some sampleManifest)
      (sampleVoteproof 3 0 Stage.INIT none) (sampleVoteproof 3 1 Stage.INIT none)).2
      (by decide) (some (sampleVoteproof 3 0 Stage.INIT none))⟩

/-! ### Go maps -/

theorem GoMap.get_eq_none_iff {K V : Type} [DecidableEq K] (m : List (K × V)) (k : K) :
    GoMap.get m k = none ↔ k ∉ GoMap.keys m := by
  induction m with
  | nil => simp [GoMap.get, GoMap.keys]
  | cons kv rest ih =>
    obtain ⟨k', v⟩ := kv
    by_cases hk : k' = k
    · simp [GoMap.get, GoMap.keys, hk]
    · have hk2 : ¬ k = k' := fun h => hk h.symm
      simp only [GoMap.get, hk, if_false, ih]
      simp [GoMap.keys, hk2]

theorem GoMap.get_some_mem {K V : Type} [DecidableEq K] (m : List (K × V)) (k : K) (v : V)
    (h : GoMap.get m k = some v) : (k, v) ∈ m := by
  induction m with
  | nil => simp [GoMap.get] at h
  | cons kv rest ih =>
    obtain ⟨k', v'⟩ := kv
    by_cases hk : k' = k
    · simp [GoMap.get, hk] at h
      simp [hk, h]
    · simp only [GoMap.get, hk, if_false] at h
      exact List.mem_cons_of_mem _ (ih h)

theorem GoMap.mem_keys_of_get {K V : Type} [DecidableEq K] (m : List (K × V)) (k : K) (v : V)
    (h : GoMap.get m k = some v) : k ∈ GoMap.keys m := by
  by_contra hne
  rw [← GoMap.get_eq_none_iff] at hne
  rw [hne] at h
  cases h

theorem GoMap.exists_get_of_mem_keys {K V : Type} [DecidableEq K] (m : List (K × V)) (k : K)
    (h : k ∈ GoMap.keys m) : ∃ v, GoMap.get m k = some v := by
  cases hg : GoMap.get m k with
  | none => exact absurd h ((GoMap.get_eq_none_iff m k).1 hg)
  | some v => exact ⟨v, rfl⟩

theorem GoMap.mem_keys_set {K V : Type} [DecidableEq K] (m : List (K × V)) (k : K) (v : V)
    (x : K) : x ∈ GoMap.keys (GoMap.set m k v) ↔ x = k ∨ x ∈ GoMap.keys m := by
  induction m with
  | nil => simp [GoMap.set, GoMap.keys]
  | cons kv rest ih =>
    obtain ⟨k', v'⟩ := kv
    by_cases hk : k' = k
    · subst hk
      simp [GoMap.set, GoMap.keys]
    · simp only [GoMap.set, hk, if_false]
      simp only [GoMap.keys, List.map_cons, List.mem_cons] at ih ⊢
      rw [ih]
      tauto

theorem GoMap.nodup_keys_set {K V : Type} [DecidableEq K] (m : List (K × V)) (k : K) (v : V)
    (h : (GoMap.keys m).Nodup) : (GoMap.keys (GoMap.set m k v)).Nodup := by
  induction m with
  | nil => simp [GoMap.set, GoMap.keys]
  | cons kv rest ih =>
    obtain ⟨k', v'⟩ := kv
    simp only [GoMap.keys, List.map_cons, List.nodup_cons] at h
    by_cases hk : k' = k
    · subst hk
      simp only [GoMap.set, if_true, GoMap.keys, List.map_cons, List.nodup_cons]
      exact h
    · simp only [GoMap.set, hk, if_false, GoMap.keys, List.map_cons, List.nodup_cons]
      refine ⟨?_, ih h.2⟩
      intro hmem
      have := (GoMap.mem_keys_set rest k v k').1 hmem
      rcases this with h1 | h1
      · exact hk h1
      · exact h.1 h1

theorem GoMap.get_set {K V : Type} [DecidableEq K] (m : List (K × V)) (k : K) (v : V) (x : K) :
    GoMap.get (GoMap.set m k v) x = if k = x then some v else GoMap.get m x := by
  induction m with
  | nil => simp [GoMap.set, GoMap.get]
  | cons kv rest ih =>
    obtain ⟨k', v'⟩ := kv
    by_cases hk : k' = k
    · subst hk
      by_cases hx : k' = x <;> simp [GoMap.set, GoMap.get, hx]
    · simp only [GoMap.set, hk, if_false, GoMap.get, ih]
      by_cases hx : k' = x
      · subst hx
        have : ¬ k = k' := fun h => hk h.symm
        simp [this]
      · simp [hx]

/-- Two duplicate-free lists of the same length, one inside the other, have the same
members. -/
theorem mem_iff_of_nodup_subset_length {α : Type} (l₁ l₂ : List α) (hd : l₁.Nodup)
    (hsub : l₁ ⊆ l₂) (hlen : l₂.length ≤ l₁.length) (x : α) : x ∈ l₁ ↔ x ∈ l₂ :=
  ((List.subperm_of_subset hd hsub).perm_of_length_le hlen).mem_iff

/-! ### Voteproof validity -/

/-- What a passing `isValidFields` establishes. -/
theorem VoteproofV0.isValidFields_none (val : Validators) (vp : VoteproofV0) (b : NetworkID)
    (h : vp.isValidFields val b = none) :
    vp.finishedAt ≠ 0 ∧
    (vp.result = VoteproofResultType.Majority ∨ vp.result = VoteproofResultType.Draw) ∧
    (vp.majority = none → vp.result = VoteproofResultType.Draw) ∧
    1 ≤ vp.facts.length ∧ 1 ≤ vp.ballots.length ∧ 1 ≤ vp.votes.length ∧
    vp.ballots.length = vp.votes.length ∧
    (∀ kv ∈ vp.ballots, kv.1 ∈ GoMap.keys vp.votes) := by
  unfold VoteproofV0.isValidFields at h
  split_ifs at h with h1 h2 h3 h4 h5 h6 h7 h8 h9
  refine ⟨h2, ?_, ?_, by omega, by omega, by omega, ?_, ?_⟩
  · by_contra hc
    exact h3 ⟨fun hm => hc (Or.inl hm), fun hd => hc (Or.inr hd)⟩
  · intro hm
    by_contra hd
    exact h4 ⟨hm, hd⟩
  · by_contra hc
    exact h9 hc
  · intro kv hkv
    have hall := (List.findSome?_eq_none_iff.1 h) kv hkv
    cases hg : GoMap.get vp.votes kv.1 with
    | none => simp [hg] at hall
    | some v => exact GoMap.mem_keys_of_get _ _ _ hg

/-- Keys of a map filled by ranging over the votes. -/
theorem foldl_set_keys {V : Type} (g : List (Hash × V) → VoteproofNodeFact → V)
    (vs : List (Address × VoteproofNodeFact)) (acc : List (Hash × V))
    (hacc : (GoMap.keys acc).Nodup) :
    (GoMap.keys (vs.foldl (fun acc nf => GoMap.set acc nf.2.fact (g acc nf.2)) acc)).Nodup ∧
    ∀ x, x ∈ GoMap.keys (vs.foldl (fun acc nf => GoMap.set acc nf.2.fact (g acc nf.2)) acc) ↔
      (x ∈ GoMap.keys acc ∨ ∃ nf ∈ vs, nf.2.fact = x) := by
  induction vs generalizing acc with
  | nil => simp [hacc]
  | cons nf rest ih =>
    simp only [List.foldl_cons]
    have hn := GoMap.nodup_keys_set acc nf.2.fact (g acc nf.2) hacc
    obtain ⟨h1, h2⟩ := ih _ hn
    refine ⟨h1, ?_⟩
    intro x
    rw [h2 x, GoMap.mem_keys_set]
    constructor
    · rintro ((hx | hx) | ⟨nf', hnf', hx⟩)
      · exact Or.inr ⟨nf, List.mem_cons_self _ _, hx.symm⟩
      · exact Or.inl hx
      · exact Or.inr ⟨nf', List.mem_cons_of_mem _ hnf', hx⟩
    · rintro (hx | ⟨nf', hnf', hx⟩)
      · exact Or.inl (Or.inr hx)
      · rcases List.mem_cons.1 hnf' with heq | hmem
        · subst heq
          exact Or.inl (Or.inl hx.symm)
        · exact Or.inr ⟨nf', hmem, hx⟩

/-- What a passing `isValidFacts` establishes. -/
theorem VoteproofV0.isValidFacts_none (val : Validators) (vp : VoteproofV0) (b : NetworkID)
    (h : vp.isValidFacts val b = none) :
    (∀ nf ∈ vp.votes, nf.2.fact ∈ GoMap.keys vp.facts) ∧
    vp.factHashes.length = vp.facts.length ∧
    (∀ kv ∈ vp.facts, val.factHash kv.2 = kv.1) := by
  unfold VoteproofV0.isValidFacts at h
  split at h
  · cases h
  · rename_i hvotes
    split_ifs at h with hlen
    split at h
    · cases h
    · rename_i hfacts
      refine ⟨?_, by simpa using hlen, ?_⟩
      · intro nf hnf
        have hall := (List.findSome?_eq_none_iff.1 hvotes) nf hnf
        split_ifs at hall with ha
        cases hg : GoMap.get vp.facts nf.2.fact with
        | none => simp [hg] at hall
        | some v => exact GoMap.mem_keys_of_get _ _ _ hg
      · intro kv hkv
        have hall := (List.findSome?_eq_none_iff.1 hfacts) kv hkv
        split_ifs at hall with ha hb
        by_contra hc
        exact hb hc

/-- A passing `IsValid` passed each of its three parts. -/
theorem VoteproofV0.IsValid_none_parts (val : Validators)
    (enum : List (Hash × Nat) → List (Hash × Nat)) (vp : VoteproofV0) (b : NetworkID)
    (h : vp.IsValid val enum b = Run.ret none) :
    vp.isValidFields val b = none ∧ vp.isValidFacts val b = none ∧
    ¬ ((vp.votes.length : Int) < wrapInt64 vp.threshold.threshold) ∧
    vp.isValidCheckMajority val enum = Run.ret none := by
  unfold VoteproofV0.IsValid at h
  split at h
  · simp at h
  · rename_i hfields
    split at h
    · simp at h
    · rename_i hfacts
      have hres := (VoteproofV0.isValidFields_none val vp b hfields).2.1
      split_ifs at h with hlt hny
      · simp at h
      · exfalso
        simp only [ne_eq, not_not] at hny
        rw [hny] at hres
        rcases hres with h1 | h1 <;> cases h1
      · exact ⟨hfields, hfacts, hlt, h⟩

/-- C4: if `IsValid` returns nil on a voteproof (whose maps, being Go maps, hold each
key once), then the voteproof has as many ballots as votes, the ballots and the votes
have the same node addresses, the fact hash of every vote is a key of `facts`, every
key of `facts` is the fact hash of some vote, and every fact of `facts` hashes to its
key. -/
theorem IsValid_nil_implies_consistent_maps (val : Validators)
    (enum : List (Hash × Nat) → List (Hash × Nat)) (vp : VoteproofV0) (b : NetworkID)
    (hwf : vp.WellFormed) (hvalid : vp.IsValid val enum b = Run.ret none) :
    vp.ballots.length = vp.votes.length ∧
    (∀ a, a ∈ GoMap.keys vp.ballots ↔ a ∈ GoMap.keys vp.votes) ∧
    (∀ a nf, (a, nf) ∈ vp.votes → nf.fact ∈ GoMap.keys vp.facts) ∧
    (∀ k, k ∈ GoMap.keys vp.facts → ∃ a nf, (a, nf) ∈ vp.votes ∧ nf.fact = k) ∧
    (∀ k f, (k, f) ∈ vp.facts → val.factHash f = k) := by
  obtain ⟨hfields, hfacts, -, -⟩ := VoteproofV0.IsValid_none_parts val enum vp b hvalid
  obtain ⟨-, -, -, -, -, -, hlen, hsub⟩ := VoteproofV0.isValidFields_none val vp b hfields
  obtain ⟨hvotes, hcard, hhash⟩ := VoteproofV0.isValidFacts_none val vp b hfacts
  obtain ⟨hnf, hnb, hnv⟩ := hwf
  have hkeys := foldl_set_keys (fun _ _ => true) vp.votes [] (by simp [GoMap.keys])
  refine ⟨hlen, ?_, ?_, ?_, ?_⟩
  · intro a
    apply mem_iff_of_nodup_subset_length _ _ hnb
    · intro x hx
      obtain ⟨kv, hkv, rfl⟩ := List.mem_map.1 hx
      exact hsub kv hkv
    · simp [GoMap.keys, hlen]
  · intro a nf hmem
    exact hvotes (a, nf) hmem
  · intro k hk
    have hiff := mem_iff_of_nodup_subset_length (GoMap.keys vp.factHashes) (GoMap.keys vp.facts)
      hkeys.1 ?_ ?_ k
    · have hk2 := hiff.2 hk
      rcases (hkeys.2 k).1 hk2 with hnil | ⟨nf, hnf2, hx⟩
      · simp [GoMap.keys] at hnil
      · exact ⟨nf.1, nf.2, hnf2, hx⟩
    · intro x hx
      rcases (hkeys.2 x).1 hx with hnil | ⟨nf, hnf2, hx2⟩
      · simp [GoMap.keys] at hnil
      · exact hx2 ▸ hvotes nf hnf2
    · have : (GoMap.keys vp.factHashes).length = vp.factHashes.length := by simp [GoMap.keys]
      have h2 : (GoMap.keys vp.facts).length = vp.facts.length := by simp [GoMap.keys]
      omega
  · intro k f hmem
    exact hhash (k, f) hmem

/-- Witness of C4 at a voteproof of two votes for one fact. -/
theorem IsValid_nil_implies_consistent_maps_witness :
    (sampleVoteproof 3 0 Stage.INIT (some (Fact.INITBallotFact 3 0 40))).WellFormed ∧
    (sampleVoteproof 3 0 Stage.INIT (some (Fact.INITBallotFact 3 0 40))).IsValid
      sampleValidators id [] = Run.ret none ∧
    (sampleVoteproof 3 0 Stage.INIT (some (Fact.INITBallotFact 3 0 40))).ballots.length =
      (sampleVoteproof 3 0 Stage.INIT (some (Fact.INITBallotFact 3 0 40))).votes.length :=
  ⟨by simp [VoteproofV0.WellFormed, GoMap.keys, sampleVoteproof], by decide,
   (IsValid_nil_implies_consistent_maps sampleValidators id
      (sampleVoteproof 3 0 Stage.INIT (some (Fact.INITBallotFact 3 0 40))) []
      (by simp [VoteproofV0.WellFormed, GoMap.keys, sampleVoteproof]) (by decide)).1⟩

theorem GoMap.get_of_mem_nodup {K V : Type} [DecidableEq K] (m : List (K × V)) (k : K) (v : V)
    (hd : (GoMap.keys m).Nodup) (h : (k, v) ∈ m) : GoMap.get m k = some v := by
  induction m with
  | nil => cases h
  | cons kv rest ih =>
    obtain ⟨k', v'⟩ := kv
    simp only [GoMap.keys, List.map_cons, List.nodup_cons] at hd
    rcases List.mem_cons.1 h with heq | hmem
    · cases heq
      simp [GoMap.get]
    · have hne : ¬ k' = k := by
        intro hk
        subst hk
        exact hd.1 (List.mem_map.2 ⟨(k', v), hmem, rfl⟩)
      simp only [GoMap.get, hne, if_false]
      exact ih hd.2 hmem

/-- The entry of a fact hash in the map of counts is its number of votes. -/
theorem foldl_counts_get (vs : List (Address × VoteproofNodeFact)) (acc : List (Hash × Nat))
    (h : Hash) :
    (GoMap.get (vs.foldl
      (fun acc nf => GoMap.set acc nf.2.fact ((GoMap.get acc nf.2.fact).getD 0 + 1)) acc) h).getD 0
      = (GoMap.get acc h).getD 0 + vs.countP (fun nf => decide (nf.2.fact = h)) := by
  induction vs generalizing acc with
  | nil => simp
  | cons nf rest ih =>
    simp only [List.foldl_cons, List.countP_cons]
    rw [ih, GoMap.get_set]
    by_cases hx : nf.2.fact = h
    · simp [hx]
      omega
    · simp [hx]

/-- The map `counts` holds each voted fact hash once, with its number of votes. -/
theorem VoteproofV0.counts_spec (vp : VoteproofV0) :
    (GoMap.keys vp.counts).Nodup ∧
    (∀ x, x ∈ GoMap.keys vp.counts ↔ ∃ nf ∈ vp.votes, nf.2.fact = x) ∧
    (∀ h c, (h, c) ∈ vp.counts → c = vp.voteCount h) := by
  have hkeys := foldl_set_keys (fun acc nf => (GoMap.get acc nf.fact).getD 0 + 1) vp.votes []
    (by simp [GoMap.keys])
  refine ⟨hkeys.1, ?_, ?_⟩
  · intro x
    have := hkeys.2 x
    simpa [GoMap.keys] using this
  · intro h c hmem
    have hget := GoMap.get_of_mem_nodup _ h c hkeys.1 hmem
    have hcount := foldl_counts_get vp.votes [] h
    have hget2 : GoMap.get vp.counts h = some c := hget
    unfold VoteproofV0.voteCount
    have hc2 : (GoMap.get vp.counts h).getD 0 = c := by rw [hget2]; rfl
    rw [← hc2]
    simpa [GoMap.get] using hcount

/-- An entry of `byCount` comes from an enumerated entry of `counts`. -/
theorem foldl_byCount_get (l : List (Hash × Nat)) (acc : List (Nat × Hash)) (c : Nat) (h : Hash)
    (hget : GoMap.get (l.foldl (fun acc hc => GoMap.set acc hc.2 hc.1) acc) c = some h) :
    GoMap.get acc c = some h ∨ (h, c) ∈ l := by
  induction l generalizing acc with
  | nil => exact Or.inl hget
  | cons hc rest ih =>
    simp only [List.foldl_cons] at hget
    rcases ih _ hget with h1 | h1
    · rw [GoMap.get_set] at h1
      by_cases hx : hc.2 = c
      · simp only [hx, if_true, Option.some.injEq] at h1
        right
        have : hc = (h, c) := by
          cases hc
          simp_all
        rw [this]
        exact List.mem_cons_self _ _
      · simp only [hx, if_false] at h1
        exact Or.inl h1
    · exact Or.inr (List.mem_cons_of_mem _ h1)

/-- An index returned by `FindMajority` is the first count that reaches the threshold. -/
theorem FindMajority_index (total threshold : Nat) (counts : List Nat)
    (h1 : FindMajority total threshold counts ≠ -1)
    (h2 : FindMajority total threshold counts ≠ -2) :
    FindMajority total threshold counts =
      (counts.findIdx (fun c => decide (c ≥ threshold)) : Nat) := by
  unfold FindMajority at h1 h2 ⊢
  simp only at h1 h2 ⊢
  split_ifs at h1 h2 ⊢ with ha hb
  · exact absurd rfl h1
  · exact absurd rfl h2
  · rfl

/-- What a passing `isValidCheckMajority` establishes about the outcome of
`FindMajority` on the enumerated counts. -/
theorem VoteproofV0.isValidCheckMajority_none (val : Validators)
    (enum : List (Hash × Nat) → List (Hash × Nat)) (vp : VoteproofV0)
    (h : vp.isValidCheckMajority val enum = Run.ret none) :
    vp.result = classifyMajority (FindMajority vp.threshold.total vp.threshold.threshold
      ((enum vp.counts).map Prod.snd)) ∧
    (vp.result ≠ VoteproofResultType.Majority → vp.majority = none) ∧
    (vp.result = VoteproofResultType.Majority →
      vp.majority = none ∨
      ∃ i : Nat, ∃ hh f m, i < ((enum vp.counts).map Prod.snd).length ∧
        (FindMajority vp.threshold.total vp.threshold.threshold
          ((enum vp.counts).map Prod.snd) = (i : Int)) ∧
        GoMap.get (byCountOf (enum vp.counts)) (((enum vp.counts).map Prod.snd).getD i 0)
          = some hh ∧
        GoMap.get vp.facts hh = some f ∧ vp.majority = some m ∧ val.factHash m = hh) := by
  unfold VoteproofV0.isValidCheckMajority at h
  simp only at h
  generalize hidx : FindMajority vp.threshold.total vp.threshold.threshold
    ((enum vp.counts).map Prod.snd) = idx at h ⊢
  by_cases h1 : idx = -1
  · simp only [h1, if_true, Option.bind_none] at h
    by_cases hr : vp.result = VoteproofResultType.NotYet
    · by_cases hm : vp.majority = none
      · refine ⟨by simp [classifyMajority, h1, hr], fun _ => hm, fun _ => Or.inl hm⟩
      · simp [hr, hm] at h
    · simp [hr] at h
  · by_cases h2 : idx = -2
    · have hne : ¬ ((-2 : Int) = -1) := by decide
      simp only [h2, hne, if_true, if_false, Option.bind_none] at h
      by_cases hr : vp.result = VoteproofResultType.Draw
      · by_cases hm : vp.majority = none
        · refine ⟨by simp [classifyMajority, h2, hr], fun _ => hm, fun _ => Or.inl hm⟩
        · simp [hr, hm] at h
      · simp [hr] at h
    · simp only [h1, h2, if_false] at h
      by_cases hrange : idx < 0 ∨ idx ≥ ((List.map Prod.snd (enum vp.counts)).length : Int)
      · rw [if_pos hrange] at h
        cases h
      · rw [if_neg hrange] at h
        by_cases hr : vp.result = VoteproofResultType.Majority
        · refine ⟨by simp [classifyMajority, h1, h2, hr], fun hne => absurd hr hne, fun _ => ?_⟩
          rw [if_neg (not_not.2 hr)] at h
          by_cases hm : vp.majority = none
          · exact Or.inl hm
          · right
            obtain ⟨m, hm2⟩ := Option.ne_none_iff_exists'.1 hm
            generalize hfh : GoMap.get (byCountOf (enum vp.counts))
                ((List.map Prod.snd (enum vp.counts)).getD idx.toNat 0) = fh at h
            cases fh with
            | none =>
              simp only [Option.bind_none, ne_eq, hm, not_false_eq_true, if_true] at h
              cases h
            | some hh =>
              simp only [Option.some_bind] at h
              generalize hfact : GoMap.get vp.facts hh = fact at h
              cases fact with
              | none =>
                simp only [ne_eq, hm, not_false_eq_true, if_true] at h
                cases h
              | some f =>
                simp only [hm2] at h
                by_cases hhash : val.factHash m = hh
                · exact ⟨idx.toNat, hh, f, m, by omega, by omega, hfh, hfact, hm2, hhash⟩
                · rw [if_pos hhash] at h
                  cases h
        · rw [if_pos hr] at h
          cases h

/-- C5: if `IsValid` returns nil on a voteproof then its result is the classification
of `FindMajority(threshold.Total, threshold.Threshold, counts...)` on the numbers of
votes of the distinct voted facts (in the order `hs` in which the map of counts was
enumerated); when the result is Majority, the hash of the majority fact is the key of a
fact of `facts` that hashes to it and has at least `threshold.Threshold` votes; when the
result is Draw the majority is nil. -/
theorem IsValid_nil_implies_result_is_computed_majority (val : Validators)
    (enum : List (Hash × Nat) → List (Hash × Nat)) (vp : VoteproofV0) (b : NetworkID)
    (henum : ∀ l, (enum l).Perm l) (hvalid : vp.IsValid val enum b = Run.ret none) :
    ∃ hs : List Hash, hs.Nodup ∧ (∀ h, h ∈ hs ↔ ∃ nf ∈ vp.votes, nf.2.fact = h) ∧
      vp.result = classifyMajority (FindMajority vp.threshold.total vp.threshold.threshold
        (hs.map vp.voteCount)) ∧
      (vp.result = VoteproofResultType.Majority →
        ∃ m k f, vp.majority = some m ∧ (k, f) ∈ vp.facts ∧ val.factHash f = k ∧
          val.factHash m = k ∧ vp.threshold.threshold ≤ vp.voteCount k) ∧
      (vp.result = VoteproofResultType.Draw → vp.majority = none) := by
  obtain ⟨hfields, hfacts, -, hcm⟩ := VoteproofV0.IsValid_none_parts val enum vp b hvalid
  obtain ⟨-, -, hmajnone, -⟩ := VoteproofV0.isValidFields_none val vp b hfields
  obtain ⟨-, -, hhash⟩ := VoteproofV0.isValidFacts_none val vp b hfacts
  obtain ⟨hres, hnotmaj, hmaj⟩ := VoteproofV0.isValidCheckMajority_none val enum vp hcm
  obtain ⟨hnodup, hkeys, hcount⟩ := vp.counts_spec
  have hperm := henum vp.counts
  have hset : (enum vp.counts).map Prod.snd
      = ((enum vp.counts).map Prod.fst).map vp.voteCount := by
    rw [List.map_map]
    apply List.map_congr_left
    intro x hx
    exact hcount x.1 x.2 (hperm.mem_iff.1 hx)
  refine ⟨(enum vp.counts).map Prod.fst, ?_, ?_, ?_, ?_, ?_⟩
  · exact (hperm.map Prod.fst).nodup_iff.2 hnodup
  · intro h
    rw [(hperm.map Prod.fst).mem_iff]
    exact hkeys h
  · rw [← hset]
    exact hres
  · intro hM
    rcases hmaj hM with hnone | ⟨i, hh, f, m, hi, hidx, hby, hfact, hm, hmh⟩
    · have := hmajnone hnone
      rw [hM] at this
      cases this
    · refine ⟨m, hh, f, hm, GoMap.get_some_mem _ _ _ hfact,
        hhash (hh, f) (GoMap.get_some_mem _ _ _ hfact), hmh, ?_⟩
      have hentry : (hh, ((enum vp.counts).map Prod.snd).getD i 0) ∈ enum vp.counts := by
        rcases foldl_byCount_get _ [] _ _ hby with hnil | hmem
        · simp [GoMap.get] at hnil
        · exact hmem
      have hvc := hcount _ _ (hperm.mem_iff.1 hentry)
      rw [← hvc, List.getD_eq_getElem _ _ hi]
      have hne1 : FindMajority vp.threshold.total vp.threshold.threshold
          ((enum vp.counts).map Prod.snd) ≠ -1 := by
        rw [hidx]
        omega
      have hne2 : FindMajority vp.threshold.total vp.threshold.threshold
          ((enum vp.counts).map Prod.snd) ≠ -2 := by
        rw [hidx]
        omega
      have hfind := FindMajority_index _ _ _ hne1 hne2
      rw [hidx] at hfind
      have hi2 : i = List.findIdx (fun c => decide (c ≥ vp.threshold.threshold))
          ((enum vp.counts).map Prod.snd) := by exact_mod_cast hfind
      have hlt : List.findIdx (fun c => decide (c ≥ vp.threshold.threshold))
          ((enum vp.counts).map Prod.snd) < ((enum vp.counts).map Prod.snd).length := by
        rw [← hi2]
        exact hi
      have hget := @List.findIdx_getElem _ (fun c => decide (c ≥ vp.threshold.threshold))
        ((enum vp.counts).map Prod.snd) hlt
      simp only [ge_iff_le, decide_eq_true_eq] at hget
      have hidxeq : ((enum vp.counts).map Prod.snd)[i] = ((enum vp.counts).map Prod.snd)[
          List.findIdx (fun c => decide (c ≥ vp.threshold.threshold))
            ((enum vp.counts).map Prod.snd)] := by
        congr 1
      rw [hidxeq]
      exact hget
  · intro hD
    apply hnotmaj
    rw [hD]
    decide

/-- Witness of C5 at a voteproof of two votes for one fact, threshold 2 of 2. -/
theorem IsValid_nil_implies_result_is_computed_majority_witness :
    ∃ hs : List Hash, hs.Nodup ∧
      (∀ h, h ∈ hs ↔ ∃ nf ∈ (sampleVoteproof 3 0 Stage.INIT
        (some (Fact.INITBallotFact 3 0 40))).votes, nf.2.fact = h) ∧
      (sampleVoteproof 3 0 Stage.INIT (some (Fact.INITBallotFact 3 0 40))).result =
        classifyMajority (FindMajority 2 2 (hs.map
          (sampleVoteproof 3 0 Stage.INIT (some (Fact.INITBallotFact 3 0 40))).voteCount)) := by
  obtain ⟨hs, h1, h2, h3, -⟩ := IsValid_nil_implies_result_is_computed_majority
    sampleValidators id (sampleVoteproof 3 0 Stage.INIT (some (Fact.INITBallotFact 3 0 40))) []
    (fun l => List.Perm.refl l) (by decide)
  exact ⟨hs, h1, h2, h3⟩

/-! ### Ballotbox -/

/-- A vote on a finished `VoteRecords` returns the cached voteproof, closed. -/
theorem VoteRecords.vote_on_finished_records (vrs : VoteRecords) (blt : Ballot) (now : Time)
    (vp : VoteproofV0) (vrs1 : VoteRecords) (adm : Bool)
    (hfin : vrs.voteproof.result ≠ VoteproofResultType.NotYet)
    (h : vrs.Vote blt now = Except.ok (vp, vrs1, adm)) :
    vp = { vrs.voteproof with closed := true } ∧ vrs1.voteproof = vp ∧
      vrs1.ballots = vrs.ballots ∧ adm = false := by
  unfold VoteRecords.Vote at h
  rw [if_pos hfin] at h
  simp only [Except.ok.injEq, Prod.mk.injEq] at h
  obtain ⟨h1, h2, h3⟩ := h
  subst h1 h2 h3
  exact ⟨rfl, rfl, rfl, rfl⟩

/-- A vote on an unfinished `VoteRecords` caches the voteproof it returns, and a
finished voteproof that it returns is not closed. -/
theorem VoteRecords.vote_on_unfinished_records (vrs : VoteRecords) (blt : Ballot) (now : Time)
    (vp : VoteproofV0) (vrs1 : VoteRecords) (adm : Bool)
    (hfin : vrs.voteproof.result = VoteproofResultType.NotYet)
    (h : vrs.Vote blt now = Except.ok (vp, vrs1, adm)) :
    vrs1.voteproof = vp ∧ (vp.result ≠ VoteproofResultType.NotYet → vp.closed = false) := by
  unfold VoteRecords.Vote at h
  split_ifs at h with hr hs
  · exact absurd hfin hr
  · cases hg : GoMap.get vrs.ballots blt.node with
    | some b =>
      simp only [hg, Except.ok.injEq, Prod.mk.injEq] at h
      obtain ⟨h1, h2, h3⟩ := h
      subst h1 h2 h3
      exact ⟨rfl, fun hne => absurd hfin hne⟩
    | none =>
      simp only [hg, Except.ok.injEq, Prod.mk.injEq] at h
      obtain ⟨h1, h2, h3⟩ := h
      subst h1 h2 h3
      exact ⟨rfl, fun _ => rfl⟩

/-- A successful `Ballotbox.Vote` votes in the records of the key of the ballot and
stores them under that key. -/
theorem Ballotbox.Vote_ok (bb : Ballotbox) (blt : Ballot) (now : Time) (vp : VoteproofV0)
    (bb1 : Ballotbox) (h : bb.Vote blt now = Except.ok (vp, bb1)) :
    ∃ vrs vrs1 adm, vrs.Vote blt now = Except.ok (vp, vrs1, adm) ∧
      (GoMap.get bb.vrs blt.key = some vrs ∨
        (GoMap.get bb.vrs blt.key = none ∧
          ∃ t, bb.threshold = some t ∧ vrs = NewVoteRecords blt.key bb.suffrages t)) ∧
      bb1.vrs = GoMap.set bb.vrs blt.key vrs1 ∧
      bb1.suffrages = bb.suffrages ∧ bb1.threshold = bb.threshold := by
  unfold Ballotbox.Vote at h
  split_ifs at h with hcan
  simp only at h
  split at h
  · cases h
  · rename_i vrs hload
    split at h
    · cases h
    · rename_i vp' vrs1 adm hv
      simp only [Except.ok.injEq, Prod.mk.injEq] at h
      obtain ⟨h1, h2⟩ := h
      subst h1 h2
      refine ⟨vrs, vrs1, adm, hv, ?_, rfl, rfl, rfl⟩
      cases hg : GoMap.get bb.vrs blt.key with
      | some v =>
        simp only [hg, Except.ok.injEq] at hload
        exact Or.inl (by rw [hload])
      | none =>
        simp only [hg] at hload
        cases ht : bb.threshold with
        | none => simp [ht] at hload
        | some t =>
          simp only [ht, Except.ok.injEq] at hload
          exact Or.inr ⟨rfl, t, rfl, hload.symm⟩

/-- A successful vote leaves the records of every other key as they were. -/
theorem Ballotbox.Vote_other_key (bb : Ballotbox) (blt : Ballot) (now : Time)
    (vp : VoteproofV0) (bb1 : Ballotbox) (k : VoteKey)
    (h : bb.Vote blt now = Except.ok (vp, bb1)) (hk : blt.key ≠ k) :
    GoMap.get bb1.vrs k = GoMap.get bb.vrs k := by
  obtain ⟨vrs, vrs1, adm, -, -, hset, -, -⟩ := Ballotbox.Vote_ok bb blt now vp bb1 h
  rw [hset, GoMap.get_set, if_neg hk]

/-- Once the records of a key are finished, a successful vote on that key returns the
same result, majority and finishing time, closed, and the records stay finished. -/
theorem Ballotbox.Vote_finished (bb : Ballotbox) (blt : Ballot) (now : Time)
    (vp : VoteproofV0) (bb1 : Ballotbox) (r : VoteproofResultType) (m : Option Fact) (f : Time)
    (hfin : bb.FinishedAt blt.key r m f) (h : bb.Vote blt now = Except.ok (vp, bb1)) :
    (vp.result = r ∧ vp.majority = m ∧ vp.finishedAt = f ∧ vp.closed = true) ∧
      bb1.FinishedAt blt.key r m f := by
  obtain ⟨vrs, vrs1, adm, hv, hload, hset, -, -⟩ := Ballotbox.Vote_ok bb blt now vp bb1 h
  obtain ⟨vrs0, hget, hr, hne, hm, hf⟩ := hfin
  rcases hload with hsome | ⟨hnone, -⟩
  · rw [hget] at hsome
    cases hsome
    obtain ⟨hvp, hcache, -, -⟩ := VoteRecords.vote_on_finished_records vrs blt now vp vrs1 adm
      (by rw [hr]; exact hne) hv
    have hres : vp.result = r ∧ vp.majority = m ∧ vp.finishedAt = f ∧ vp.closed = true := by
      rw [hvp]
      exact ⟨hr, hm, hf, rfl⟩
    refine ⟨hres, vrs1, ?_, ?_, hne, ?_, ?_⟩
    · rw [hset, GoMap.get_set, if_pos rfl]
    · rw [hcache]; exact hres.1
    · rw [hcache]; exact hres.2.1
    · rw [hcache]; exact hres.2.2.1
  · rw [hget] at hnone
    cases hnone

/-- While the records of a key are unfinished, a successful vote on that key caches
the voteproof it returns, and a finished voteproof that it returns is not closed. -/
theorem Ballotbox.Vote_unfinished (bb : Ballotbox) (blt : Ballot) (now : Time)
    (vp : VoteproofV0) (bb1 : Ballotbox)
    (hun : bb.UnfinishedAt blt.key) (h : bb.Vote blt now = Except.ok (vp, bb1)) :
    (∃ vrs1, GoMap.get bb1.vrs blt.key = some vrs1 ∧ vrs1.voteproof = vp) ∧
      (vp.result ≠ VoteproofResultType.NotYet → vp.closed = false) := by
  obtain ⟨vrs, vrs1, adm, hv, hload, hset, -, -⟩ := Ballotbox.Vote_ok bb blt now vp bb1 h
  have hvrs : vrs.voteproof.result = VoteproofResultType.NotYet := by
    rcases hload with hsome | ⟨-, t, -, hnew⟩
    · exact hun vrs hsome
    · rw [hnew]
      rfl
  obtain ⟨hcache, hclosed⟩ := VoteRecords.vote_on_unfinished_records vrs blt now vp vrs1 adm hvrs hv
  refine ⟨⟨vrs1, ?_, hcache⟩, hclosed⟩
  rw [hset, GoMap.get_set, if_pos rfl]

/-- From finished records of a key on, every successful vote on that key returns the
same result, majority and finishing time, closed. -/
theorem Ballotbox.voteAll_finished (calls : List (Ballot × Time)) (bb : Ballotbox)
    (k : VoteKey) (r : VoteproofResultType) (m : Option Fact) (f : Time)
    (hfin : bb.FinishedAt k r m f) :
    ∀ e ∈ (bb.voteAll calls).1, e.1.key = k → ∀ v, e.2 = Except.ok v →
      v.result = r ∧ v.majority = m ∧ v.finishedAt = f ∧ v.closed = true := by
  induction calls generalizing bb with
  | nil =>
    intro e he
    simp [Ballotbox.voteAll] at he
  | cons c rest ih =>
    obtain ⟨blt, now⟩ := c
    intro e he hk v hv
    unfold Ballotbox.voteAll at he
    cases hvote : bb.Vote blt now with
    | error err =>
      simp only [hvote, List.mem_cons] at he
      rcases he with heq | hmem
      · subst heq
        cases hv
      · exact ih bb hfin e hmem hk v hv
    | ok res =>
      obtain ⟨vp, bb1⟩ := res
      simp only [hvote, List.mem_cons] at he
      by_cases hkey : blt.key = k
      · subst hkey
        obtain ⟨hres, hfin1⟩ := Ballotbox.Vote_finished bb blt now vp bb1 r m f hfin hvote
        rcases he with heq | hmem
        · subst heq
          simp only [Except.ok.injEq] at hv
          subst hv
          exact hres
        · exact ih bb1 hfin1 e hmem hk v hv
      · have hsame := Ballotbox.Vote_other_key bb blt now vp bb1 k hvote hkey
        have hfin1 : bb1.FinishedAt k r m f := by
          obtain ⟨vrs0, hget, hrest⟩ := hfin
          exact ⟨vrs0, by rw [hsame]; exact hget, hrest⟩
        rcases he with heq | hmem
        · subst heq
          exact absurd hk hkey
        · exact ih bb1 hfin1 e hmem hk v hv

/-- As long as no successful vote on a key returns a finished voteproof, the records
of that key stay unfinished. -/
theorem Ballotbox.voteAll_unfinished (calls : List (Ballot × Time)) (bb : Ballotbox)
    (k : VoteKey) (hun : bb.UnfinishedAt k)
    (hnone : ∀ e ∈ (bb.voteAll calls).1, e.1.key = k → ∀ v, e.2 = Except.ok v →
      v.result = VoteproofResultType.NotYet) :
    (bb.voteAll calls).2.UnfinishedAt k := by
  induction calls generalizing bb with
  | nil => exact hun
  | cons c rest ih =>
    obtain ⟨blt, now⟩ := c
    unfold Ballotbox.voteAll at hnone ⊢
    cases hvote : bb.Vote blt now with
    | error err =>
      simp only [hvote] at hnone ⊢
      exact ih bb hun (fun e he => hnone e (List.mem_cons_of_mem _ he))
    | ok res =>
      obtain ⟨vp, bb1⟩ := res
      simp only [hvote] at hnone ⊢
      apply ih bb1 _ (fun e he => hnone e (List.mem_cons_of_mem _ he))
      by_cases hkey : blt.key = k
      · subst hkey
        obtain ⟨⟨vrs1, hget, hcache⟩, -⟩ := Ballotbox.Vote_unfinished bb blt now vp bb1 hun hvote
        intro vrs hvrs
        rw [hget] at hvrs
        cases hvrs
        rw [hcache]
        exact hnone (blt, Except.ok vp) (List.mem_cons_self _ _) rfl vp rfl
      · have hsame := Ballotbox.Vote_other_key bb blt now vp bb1 k hvote hkey
        intro vrs hvrs
        rw [hsame] at hvrs
        exact hun vrs hvrs

/-- A vote keeps the suffrage snapshot of a `VoteRecords`. -/
theorem VoteRecords.Vote_suffrages (vrs : VoteRecords) (blt : Ballot) (now : Time)
    (vp : VoteproofV0) (vrs1 : VoteRecords) (adm : Bool)
    (h : vrs.Vote blt now = Except.ok (vp, vrs1, adm)) : vrs1.suffrages = vrs.suffrages := by
  unfold VoteRecords.Vote at h
  split_ifs at h with hs hr
  · simp only [Except.ok.injEq, Prod.mk.injEq] at h
    obtain ⟨-, h2, -⟩ := h
    subst h2
    rfl
  · cases hg : GoMap.get vrs.ballots blt.node with
    | some b =>
      simp only [hg, Except.ok.injEq, Prod.mk.injEq] at h
      obtain ⟨-, h2, -⟩ := h
      subst h2
      rfl
    | none =>
      simp only [hg, Except.ok.injEq, Prod.mk.injEq] at h
      obtain ⟨-, h2, -⟩ := h
      subst h2
      rfl

/-- A vote of a member of the suffrage snapshot of a `VoteRecords` returns a
voteproof. -/
theorem VoteRecords.vote_of_member_returns (vrs : VoteRecords) (blt : Ballot) (now : Time)
    (hin : blt.node ∈ vrs.suffrages) : ∃ r, vrs.Vote blt now = Except.ok r := by
  unfold VoteRecords.Vote
  rw [if_neg (not_not.2 hin)]
  split_ifs with hr
  · exact ⟨_, rfl⟩
  · cases hg : GoMap.get vrs.ballots blt.node with
    | some b => exact ⟨_, rfl⟩
    | none => exact ⟨_, rfl⟩

/-- Only ballots of a stage that can vote are voted. -/
theorem Ballotbox.Vote_canVote (bb : Ballotbox) (blt : Ballot) (now : Time) (vp : VoteproofV0)
    (bb1 : Ballotbox) (h : bb.Vote blt now = Except.ok (vp, bb1)) :
    blt.stage.CanVote = true := by
  unfold Ballotbox.Vote at h
  split_ifs at h with hcan
  simpa using hcan

/-- A successful vote keeps the suffrage snapshots. -/
theorem Ballotbox.Vote_snapshot (S : List Address) (bb : Ballotbox) (blt : Ballot) (now : Time)
    (vp : VoteproofV0) (bb1 : Ballotbox) (hinv : bb.SnapshotOf S)
    (h : bb.Vote blt now = Except.ok (vp, bb1)) : bb1.SnapshotOf S := by
  obtain ⟨vrs, vrs1, adm, hv, hload, hset, hsuf, -⟩ := Ballotbox.Vote_ok bb blt now vp bb1 h
  refine ⟨by rw [hsuf]; exact hinv.1, ?_⟩
  intro k vrs2 hget
  rw [hset, GoMap.get_set] at hget
  by_cases hk : blt.key = k
  · rw [if_pos hk] at hget
    cases hget
    rw [VoteRecords.Vote_suffrages vrs blt now vp vrs1 adm hv]
    rcases hload with hsome | ⟨-, t, -, hnew⟩
    · exact hinv.2 _ _ hsome
    · rw [hnew]
      exact hinv.1
  · rw [if_neg hk] at hget
    exact hinv.2 k vrs2 hget

/-- Any sequence of votes keeps the suffrage snapshots. -/
theorem Ballotbox.voteAll_snapshot (S : List Address) (calls : List (Ballot × Time))
    (bb : Ballotbox) (hinv : bb.SnapshotOf S) : (bb.voteAll calls).2.SnapshotOf S := by
  induction calls generalizing bb with
  | nil => exact hinv
  | cons c rest ih =>
    obtain ⟨blt, now⟩ := c
    unfold Ballotbox.voteAll
    cases hvote : bb.Vote blt now with
    | error err => exact ih bb hinv
    | ok res =>
      obtain ⟨vp, bb1⟩ := res
      exact ih bb1 (Ballotbox.Vote_snapshot S bb blt now vp bb1 hinv hvote)

/-- On a key that has records, a vote of a member of the suffrage with a stage that
can vote returns a voteproof. -/
theorem Ballotbox.Vote_member (S : List Address) (bb : Ballotbox) (blt : Ballot) (now : Time)
    (hinv : bb.SnapshotOf S) (hrec : ∃ vrs, GoMap.get bb.vrs blt.key = some vrs)
    (hin : blt.node ∈ S) (hcan : blt.stage.CanVote = true) :
    ∃ vp bb1, bb.Vote blt now = Except.ok (vp, bb1) := by
  obtain ⟨vrs, hget⟩ := hrec
  have hin2 : blt.node ∈ vrs.suffrages := by
    rw [hinv.2 _ _ hget]
    exact hin
  obtain ⟨⟨vp, vrs1, adm⟩, hv⟩ := VoteRecords.vote_of_member_returns vrs blt now hin2
  unfold Ballotbox.Vote
  simp only [hcan, Bool.not_true, Bool.false_eq_true, if_false, hget, hv]
  exact ⟨_, _, rfl⟩

/-- Once a key has records, every later vote on that key of a member of the suffrage
returns a voteproof. -/
theorem Ballotbox.voteAll_members_succeed (S : List Address) (calls : List (Ballot × Time))
    (bb : Ballotbox) (k : VoteKey) (hinv : bb.SnapshotOf S)
    (hrec : ∃ vrs, GoMap.get bb.vrs k = some vrs) (hcan : k.2.2.CanVote = true) :
    ∀ e ∈ (bb.voteAll calls).1, e.1.key = k → e.1.node ∈ S → ∃ v, e.2 = Except.ok v := by
  induction calls generalizing bb with
  | nil =>
    intro e he
    simp [Ballotbox.voteAll] at he
  | cons c rest ih =>
    obtain ⟨blt, now⟩ := c
    intro e he hk hin
    unfold Ballotbox.voteAll at he
    cases hvote : bb.Vote blt now with
    | error err =>
      simp only [hvote, List.mem_cons] at he
      rcases he with heq | hmem
      · subst heq
        exfalso
        have hk2 : blt.key = k := hk
        have hcan2 : blt.stage.CanVote = true := by
          rw [← hk2] at hcan
          exact hcan
        obtain ⟨vp, bb1, hok⟩ := Ballotbox.Vote_member S bb blt now hinv
          (by rw [hk2]; exact hrec) hin hcan2
        rw [hok] at hvote
        cases hvote
      · exact ih bb hinv hrec e hmem hk hin
    | ok res =>
      obtain ⟨vp, bb1⟩ := res
      simp only [hvote, List.mem_cons] at he
      rcases he with heq | hmem
      · subst heq
        exact ⟨vp, rfl⟩
      · have hinv1 := Ballotbox.Vote_snapshot S bb blt now vp bb1 hinv hvote
        have hrec1 : ∃ vrs, GoMap.get bb1.vrs k = some vrs := by
          by_cases hkey : blt.key = k
          · obtain ⟨vrs, vrs1, adm, -, -, hset, -, -⟩ := Ballotbox.Vote_ok bb blt now vp bb1 hvote
            exact ⟨vrs1, by rw [hset, GoMap.get_set, if_pos hkey]⟩
          · rw [Ballotbox.Vote_other_key bb blt now vp bb1 k hvote hkey]
            exact hrec
        exact ih bb1 hinv1 hrec1 e hmem hk hin

/-- On a key whose records are finished, a vote with a stage that can vote returns a
voteproof, whoever votes. -/
theorem Ballotbox.Vote_on_finished_returns (bb : Ballotbox) (blt : Ballot) (now : Time)
    (r : VoteproofResultType) (m : Option Fact) (f : Time)
    (hfin : bb.FinishedAt blt.key r m f) (hcan : blt.stage.CanVote = true) :
    ∃ vp bb1, bb.Vote blt now = Except.ok (vp, bb1) := by
  obtain ⟨vrs, hget, hr, hne, -, -⟩ := hfin
  have hres : vrs.voteproof.result ≠ VoteproofResultType.NotYet := by
    rw [hr]
    exact hne
  unfold Ballotbox.Vote
  simp only [hcan, Bool.not_true, Bool.false_eq_true, if_false, hget, VoteRecords.Vote, hres,
    ne_eq, not_false_eq_true, if_true]
  exact ⟨_, _, rfl⟩

/-- From finished records of a key on, every vote on that key returns a voteproof. -/
theorem Ballotbox.voteAll_on_finished_return (calls : List (Ballot × Time)) (bb : Ballotbox)
    (k : VoteKey) (r : VoteproofResultType) (m : Option Fact) (f : Time)
    (hfin : bb.FinishedAt k r m f) (hcan : k.2.2.CanVote = true) :
    ∀ e ∈ (bb.voteAll calls).1, e.1.key = k → ∃ v, e.2 = Except.ok v := by
  induction calls generalizing bb with
  | nil =>
    intro e he
    simp [Ballotbox.voteAll] at he
  | cons c rest ih =>
    obtain ⟨blt, now⟩ := c
    intro e he hk
    unfold Ballotbox.voteAll at he
    cases hvote : bb.Vote blt now with
    | error err =>
      simp only [hvote, List.mem_cons] at he
      rcases he with heq | hmem
      · subst heq
        exfalso
        have hk2 : blt.key = k := hk
        have hcan2 : blt.stage.CanVote = true := by
          rw [← hk2] at hcan
          exact hcan
        obtain ⟨vp, bb1, hok⟩ := Ballotbox.Vote_on_finished_returns bb blt now r m f
          (by rw [hk2]; exact hfin) hcan2
        rw [hok] at hvote
        cases hvote
      · exact ih bb hfin e hmem hk
    | ok res =>
      obtain ⟨vp, bb1⟩ := res
      simp only [hvote, List.mem_cons] at he
      rcases he with heq | hmem
      · subst heq
        exact ⟨vp, rfl⟩
      · have hfin1 : bb1.FinishedAt k r m f := by
          by_cases hkey : blt.key = k
          · subst hkey
            exact (Ballotbox.Vote_finished bb blt now vp bb1 r m f hfin hvote).2
          · have hsame := Ballotbox.Vote_other_key bb blt now vp bb1 k hvote hkey
            obtain ⟨vrs0, hget, hrest⟩ := hfin
            exact ⟨vrs0, by rw [hsame]; exact hget, hrest⟩
        exact ih bb1 hfin1 e hmem hk

/-- C6: in a sequence of `Vote` calls on a fresh ballotbox, let `vp` be the first
voteproof returned for a key `(height, round, stage)` whose result is Majority or
Draw (the calls `pre` before it returned no finished voteproof for that key). Then
`vp` is not closed, and every later call on that key, whoever votes, returns a
voteproof that has the same result, the same majority fact and the same `finishedAt`,
and is closed. -/
theorem Vote_first_finished_open_then_closed
    (suffrages : List Address) (threshold : Option Threshold)
    (pre : List (Ballot × Time)) (blt : Ballot) (now : Time) (post : List (Ballot × Time))
    (vp : VoteproofV0) (bb1 : Ballotbox)
    (hpre : ∀ e ∈ ((NewBallotbox suffrages threshold).voteAll pre).1, e.1.key = blt.key →
      ∀ v, e.2 = Except.ok v → v.result = VoteproofResultType.NotYet)
    (hvote : ((NewBallotbox suffrages threshold).voteAll pre).2.Vote blt now
      = Except.ok (vp, bb1))
    (hfin : vp.result = VoteproofResultType.Majority ∨ vp.result = VoteproofResultType.Draw) :
    vp.closed = false ∧
    ∀ e ∈ (bb1.voteAll post).1, e.1.key = blt.key →
      ∃ v, e.2 = Except.ok v ∧
        v.result = vp.result ∧ v.majority = vp.majority ∧ v.finishedAt = vp.finishedAt ∧
          v.closed = true := by
  have hne : vp.result ≠ VoteproofResultType.NotYet := by
    rcases hfin with h | h <;> rw [h] <;> decide
  have hun0 : (NewBallotbox suffrages threshold).UnfinishedAt blt.key := by
    intro vrs hvrs
    simp [NewBallotbox, GoMap.get] at hvrs
  have hun := Ballotbox.voteAll_unfinished pre _ blt.key hun0 hpre
  obtain ⟨⟨vrs1, hget, hcache⟩, hclosed⟩ := Ballotbox.Vote_unfinished _ blt now vp bb1 hun hvote
  have hcan := Ballotbox.Vote_canVote _ blt now vp bb1 hvote
  have hfin1 : bb1.FinishedAt blt.key vp.result vp.majority vp.finishedAt :=
    ⟨vrs1, hget, by rw [hcache], hne, by rw [hcache], by rw [hcache]⟩
  refine ⟨hclosed hne, ?_⟩
  intro e he hk
  obtain ⟨v, hv⟩ := Ballotbox.voteAll_on_finished_return post bb1 blt.key _ _ _ hfin1 hcan e he hk
  exact ⟨v, hv, Ballotbox.voteAll_finished post bb1 blt.key _ _ _ hfin1 e he hk v hv⟩

/-- The boolean check `allNotYetOn` decides that no outcome for a key is finished. -/
theorem allNotYetOn_spec (k : VoteKey) (l : List (Ballot × Except BallotboxError VoteproofV0))
    (h : allNotYetOn k l = true) :
    ∀ e ∈ l, e.1.key = k → ∀ v, e.2 = Except.ok v → v.result = VoteproofResultType.NotYet := by
  intro e he hk v hv
  have := (List.all_eq_true.1 h) e he
  rw [hv] at this
  simp only [decide_eq_true_eq] at this
  exact this hk

/-- Witness of C6: two votes for the same previous block out of three nodes
(threshold 2), then a vote of the third node and a vote of the node 9, which is not in
the suffrage: both return the finished voteproof, closed. -/
theorem Vote_first_finished_open_then_closed_witness :
    sampleFirstFinished.1.result = VoteproofResultType.Majority ∧
    sampleFirstFinished.1.closed = false ∧
    ∀ e ∈ (sampleFirstFinished.2.voteAll
        [(sampleINITBallot 3 10 0 9, 9), (sampleINITBallot 9 10 0 5, 10)]).1,
      e.1.key = (sampleINITBallot 2 10 0 5).key →
      ∃ v, e.2 = Except.ok v ∧
        v.result = sampleFirstFinished.1.result ∧ v.majority = sampleFirstFinished.1.majority ∧
          v.finishedAt = sampleFirstFinished.1.finishedAt ∧ v.closed = true :=
  ⟨by decide,
    Vote_first_finished_open_then_closed [1, 2, 3] (some (NewThreshold 3 66))
      [(sampleINITBallot 1 10 0 5, 7)] (sampleINITBallot 2 10 0 5) 8
      [(sampleINITBallot 3 10 0 9, 9), (sampleINITBallot 9 10 0 5, 10)]
      sampleFirstFinished.1 sampleFirstFinished.2
      (allNotYetOn_spec _ _ (by decide)) rfl (Or.inl (by decide))⟩

/-- A vote keeps the ballots of a `VoteRecords` at one per node. -/
theorem VoteRecords.Vote_nodup (vrs : VoteRecords) (blt : Ballot) (now : Time)
    (vp : VoteproofV0) (vrs1 : VoteRecords) (adm : Bool)
    (hd : (GoMap.keys vrs.ballots).Nodup)
    (h : vrs.Vote blt now = Except.ok (vp, vrs1, adm)) : (GoMap.keys vrs1.ballots).Nodup := by
  unfold VoteRecords.Vote at h
  split_ifs at h with hs hr
  · simp only [Except.ok.injEq, Prod.mk.injEq] at h
    obtain ⟨-, h2, -⟩ := h
    subst h2
    exact hd
  · cases hg : GoMap.get vrs.ballots blt.node with
    | some b =>
      simp only [hg, Except.ok.injEq, Prod.mk.injEq] at h
      obtain ⟨-, h2, -⟩ := h
      subst h2
      exact hd
    | none =>
      simp only [hg, Except.ok.injEq, Prod.mk.injEq] at h
      obtain ⟨-, h2, -⟩ := h
      subst h2
      have hnot := (GoMap.get_eq_none_iff _ _).1 hg
      simp only [GoMap.keys, List.map_append, List.map_cons, List.map_nil]
      refine List.Nodup.append hd (List.nodup_singleton _) ?_
      intro x hx hx2
      rw [List.mem_singleton] at hx2
      subst hx2
      exact hnot hx

/-- A vote of a node that has already voted in a `VoteRecords` leaves the recorded
ballots as they are and returns the votes and the result of the cached voteproof. -/
theorem VoteRecords.Vote_duplicate (vrs : VoteRecords) (blt : Ballot) (now : Time)
    (vp : VoteproofV0) (vrs1 : VoteRecords) (adm : Bool)
    (hdup : blt.node ∈ GoMap.keys vrs.ballots)
    (h : vrs.Vote blt now = Except.ok (vp, vrs1, adm)) :
    vrs1.ballots = vrs.ballots ∧ vp.votes = vrs.voteproof.votes ∧
      vp.result = vrs.voteproof.result ∧ adm = false := by
  unfold VoteRecords.Vote at h
  split_ifs at h with hs hr
  · simp only [Except.ok.injEq, Prod.mk.injEq] at h
    obtain ⟨h1, h2, h3⟩ := h
    subst h1 h2 h3
    exact ⟨rfl, rfl, rfl, rfl⟩
  · cases hg : GoMap.get vrs.ballots blt.node with
    | some b =>
      simp only [hg, Except.ok.injEq, Prod.mk.injEq] at h
      obtain ⟨h1, h2, h3⟩ := h
      subst h1 h2 h3
      exact ⟨rfl, rfl, rfl, rfl⟩
    | none => exact absurd hdup ((GoMap.get_eq_none_iff _ _).1 hg)

/-- A successful `Ballotbox.Vote` keeps every `VoteRecords` at one ballot per node. -/
theorem Ballotbox.Vote_oneBallotPerNode (bb : Ballotbox) (blt : Ballot) (now : Time)
    (vp : VoteproofV0) (bb1 : Ballotbox) (hinv : bb.OneBallotPerNode)
    (h : bb.Vote blt now = Except.ok (vp, bb1)) : bb1.OneBallotPerNode := by
  obtain ⟨vrs, vrs1, adm, hv, hload, hset, -, -⟩ := Ballotbox.Vote_ok bb blt now vp bb1 h
  intro k vrs2 hget
  rw [hset, GoMap.get_set] at hget
  by_cases hk : blt.key = k
  · rw [if_pos hk] at hget
    cases hget
    apply VoteRecords.Vote_nodup vrs blt now vp vrs1 adm _ hv
    rcases hload with hsome | ⟨-, t, -, hnew⟩
    · exact hinv _ _ hsome
    · rw [hnew]
      simp [NewVoteRecords, GoMap.keys]
  · rw [if_neg hk] at hget
    exact hinv k vrs2 hget

/-- Any sequence of votes keeps every `VoteRecords` at one ballot per node. -/
theorem Ballotbox.voteAll_oneBallotPerNode (calls : List (Ballot × Time)) (bb : Ballotbox)
    (hinv : bb.OneBallotPerNode) : (bb.voteAll calls).2.OneBallotPerNode := by
  induction calls generalizing bb with
  | nil => exact hinv
  | cons c rest ih =>
    obtain ⟨blt, now⟩ := c
    unfold Ballotbox.voteAll
    cases hvote : bb.Vote blt now with
    | error err => exact ih bb hinv
    | ok res =>
      obtain ⟨vp, bb1⟩ := res
      exact ih bb1 (Ballotbox.Vote_oneBallotPerNode bb blt now vp bb1 hinv hvote)

/-- In `SingleVoter` records, a vote of the node succeeds, returns a voteproof that is
not yet finished, and leaves `SingleVoter` records. -/
theorem VoteRecords.vote_on_singleVoter_records (node : Address) (vrs : VoteRecords) (blt : Ballot)
    (now : Time) (hs : vrs.SingleVoter node) (hnode : blt.node = node) :
    ∃ vp vrs1 adm, vrs.Vote blt now = Except.ok (vp, vrs1, adm) ∧
      vp.result = VoteproofResultType.NotYet ∧ vrs1.SingleVoter node := by
  obtain ⟨hsuf, hthr, hres, hall⟩ := hs
  unfold VoteRecords.Vote
  have hin : blt.node ∈ vrs.suffrages := by rw [hnode]; exact hsuf
  rw [if_neg (not_not.2 hin), if_neg (not_not.2 hres)]
  cases hg : GoMap.get vrs.ballots blt.node with
  | some b => exact ⟨_, _, _, rfl, hres, hsuf, hthr, hres, hall⟩
  | none =>
    have hnot := (GoMap.get_eq_none_iff _ _).1 hg
    have hempty : vrs.ballots = [] := by
      cases hb : vrs.ballots with
      | nil => rfl
      | cons nb rest =>
        exfalso
        apply hnot
        have := hall nb (by rw [hb]; exact List.mem_cons_self _ _)
        rw [hb, hnode, ← this]
        simp [GoMap.keys]
    refine ⟨_, _, _, rfl, ?_, hsuf, hthr, ?_, ?_⟩
    · simp only [VoteRecords.recompute, hempty, hthr, List.nil_append, tallyFacts,
        List.foldl_cons, List.foldl_nil, GoMap.get, List.map_cons, List.map_nil,
        List.countP_cons, List.countP_nil, decide_True, if_true]
      decide
    · simp only [VoteRecords.recompute, hempty, hthr, List.nil_append, tallyFacts,
        List.foldl_cons, List.foldl_nil, GoMap.get, List.map_cons, List.map_nil,
        List.countP_cons, List.countP_nil, decide_True, if_true]
      decide
    · intro nb hnb
      simp only [hempty, List.nil_append, List.mem_singleton] at hnb
      rw [hnb]
      exact hnode

/-- In a `SingleVoter` ballotbox, a vote of the node with a stage that can vote
succeeds, returns a voteproof that is not yet finished, and leaves a `SingleVoter`
ballotbox. -/
theorem Ballotbox.Vote_singleVoter (node : Address) (bb : Ballotbox) (blt : Ballot)
    (now : Time) (hs : bb.SingleVoter node) (hnode : blt.node = node)
    (hcan : blt.stage.CanVote = true) :
    ∃ vp bb1, bb.Vote blt now = Except.ok (vp, bb1) ∧
      vp.result = VoteproofResultType.NotYet ∧ bb1.SingleVoter node := by
  obtain ⟨hsuf, hthr, hall⟩ := hs
  have hloaded : ∃ vrs, vrs.SingleVoter node ∧
      (match GoMap.get bb.vrs blt.key with
        | some vrs => Except.ok vrs
        | none =>
          match bb.threshold with
          | none => Except.error BallotboxError.ThresholdUnavailable
          | some t => Except.ok (NewVoteRecords blt.key bb.suffrages t)) = Except.ok vrs := by
    cases hg : GoMap.get bb.vrs blt.key with
    | some vrs => exact ⟨vrs, hall _ _ hg, rfl⟩
    | none =>
      refine ⟨NewVoteRecords blt.key bb.suffrages (NewThreshold 50 100), ?_, by simp [hthr]⟩
      refine ⟨hsuf, rfl, rfl, ?_⟩
      intro nb hnb
      simp [NewVoteRecords] at hnb
  obtain ⟨vrs, hsv, hload⟩ := hloaded
  obtain ⟨vp, vrs1, adm, hv, hres, hsv1⟩ := VoteRecords.vote_on_singleVoter_records node vrs blt now hsv hnode
  unfold Ballotbox.Vote
  simp only [hcan, Bool.not_true, Bool.false_eq_true, if_false, hload, hv]
  refine ⟨_, _, rfl, hres, hsuf, hthr, ?_⟩
  intro k vrs2 hget
  simp only [GoMap.get_set] at hget
  by_cases hk : blt.key = k
  · rw [if_pos hk] at hget
    cases hget
    exact hsv1
  · rw [if_neg hk] at hget
    exact hall k vrs2 hget

/-- In a `SingleVoter` ballotbox, every vote of a sequence of votes of the node
returns a voteproof that is not yet finished. -/
theorem Ballotbox.voteAll_singleVoter (node : Address) (calls : List (Ballot × Time))
    (bb : Ballotbox) (hs : bb.SingleVoter node)
    (hcalls : ∀ c ∈ calls, c.1.node = node ∧ c.1.stage.CanVote = true) :
    ∀ e ∈ (bb.voteAll calls).1, ∃ v, e.2 = Except.ok v ∧
      v.result = VoteproofResultType.NotYet := by
  induction calls generalizing bb with
  | nil =>
    intro e he
    simp [Ballotbox.voteAll] at he
  | cons c rest ih =>
    obtain ⟨blt, now⟩ := c
    obtain ⟨hnode, hcan⟩ := hcalls (blt, now) (List.mem_cons_self _ _)
    obtain ⟨vp, bb1, hvote, hres, hs1⟩ := Ballotbox.Vote_singleVoter node bb blt now hs hnode hcan
    intro e he
    unfold Ballotbox.voteAll at he
    simp only [hvote, List.mem_cons] at he
    rcases he with heq | hmem
    · subst heq
      exact ⟨vp, rfl, hres⟩
    · exact ih bb1 hs1 (fun c hc => hcalls c (List.mem_cons_of_mem _ hc)) e hmem

/-- C7: after any sequence of `Vote` calls on a fresh ballotbox, every `VoteRecords`
holds at most one ballot per node address; a further ballot of a node that has already
voted on a key leaves the ballots recorded for that key as they are and returns the
votes and the result of the cached voteproof; and with total 50 and ratio 100, every
vote of any sequence of votes of a single node of the suffrage returns a voteproof with
result NotYet. -/
theorem Vote_records_one_ballot_per_node :
    (∀ (suffrages : List Address) (threshold : Option Threshold)
        (calls : List (Ballot × Time)) (k : VoteKey) (vrs : VoteRecords),
      GoMap.get ((NewBallotbox suffrages threshold).voteAll calls).2.vrs k = some vrs →
      (GoMap.keys vrs.ballots).Nodup) ∧
    (∀ (bb : Ballotbox) (blt : Ballot) (now : Time) (vp : VoteproofV0) (bb1 : Ballotbox)
        (vrs : VoteRecords),
      GoMap.get bb.vrs blt.key = some vrs → blt.node ∈ GoMap.keys vrs.ballots →
      bb.Vote blt now = Except.ok (vp, bb1) →
      ∃ vrs1, GoMap.get bb1.vrs blt.key = some vrs1 ∧ vrs1.ballots = vrs.ballots ∧
        vp.votes = vrs.voteproof.votes ∧ vp.result = vrs.voteproof.result) ∧
    (∀ (suffrages : List Address) (node : Address) (calls : List (Ballot × Time)),
      node ∈ suffrages →
      (∀ c ∈ calls, c.1.node = node ∧ c.1.stage.CanVote = true) →
      ∀ e ∈ ((NewBallotbox suffrages (some (NewThreshold 50 100))).voteAll calls).1,
        ∃ v, e.2 = Except.ok v ∧ v.result = VoteproofResultType.NotYet) := by
  refine ⟨?_, ?_, ?_⟩
  · intro suffrages threshold calls k vrs hget
    have hinv : (NewBallotbox suffrages threshold).OneBallotPerNode := by
      intro k vrs h
      simp [NewBallotbox, GoMap.get] at h
    exact Ballotbox.voteAll_oneBallotPerNode calls _ hinv k vrs hget
  · intro bb blt now vp bb1 vrs hget hdup hvote
    obtain ⟨vrs0, vrs1, adm, hv, hload, hset, -, -⟩ := Ballotbox.Vote_ok bb blt now vp bb1 hvote
    rcases hload with hsome | ⟨hnone, -⟩
    · rw [hget] at hsome
      cases hsome
      obtain ⟨h1, h2, h3, -⟩ := VoteRecords.Vote_duplicate vrs blt now vp vrs1 adm hdup hv
      exact ⟨vrs1, by rw [hset, GoMap.get_set, if_pos rfl], h1, h2, h3⟩
    · rw [hget] at hnone
      cases hnone
  · intro suffrages node calls hnode hcalls
    apply Ballotbox.voteAll_singleVoter node calls _ _ hcalls
    refine ⟨hnode, rfl, ?_⟩
    intro k vrs h
    simp [NewBallotbox, GoMap.get] at h

/-- Witness of C7: three ballots of node 1 for three different previous blocks, with
total 50 and ratio 100. -/
theorem Vote_records_one_ballot_per_node_witness :
    ∀ e ∈ ((NewBallotbox [1] (some (NewThreshold 50 100))).voteAll
        [(sampleINITBallot 1 10 0 5, 7), (sampleINITBallot 1 10 0 6, 8),
          (sampleINITBallot 1 10 0 9, 9)]).1,
      ∃ v, e.2 = Except.ok v ∧ v.result = VoteproofResultType.NotYet :=
  Vote_records_one_ballot_per_node.2.2 [1] 1
    [(sampleINITBallot 1 10 0 5, 7), (sampleINITBallot 1 10 0 6, 8),
      (sampleINITBallot 1 10 0 9, 9)]
    (by decide) (by decide)

/-! ### The supervisor -/

/-- C9: when the target state of a state-change context differs from the state of the
active handler and has a registered handler `hT`, a successful `activateHandler` makes
exactly these calls on handlers, in this order: `Deactivate` on the previous active
handler if there is one, then `Activate` on `hT`, both returning nil; and `hT` is the
active handler afterwards. -/
theorem activateHandler_success_deactivates_then_activates
    (hb : HandlerBehaviour) (css css1 : ConsensusStates) (ctx : StateChangeContext)
    (hT : StateHandler)
    (hdiff : ∀ prev, css.activeHandler = some prev → prev.state ≠ ctx.toState)
    (hreg : GoMap.get css.states ctx.toState = some (some hT))
    (hok : css.activateHandler hb ctx = (none, css1)) :
    css1.calls = css.calls ++
      (match css.activeHandler with
        | some prev => [Call.Deactivate prev ctx none]
        | none => []) ++ [Call.Activate hT ctx none] ∧
    css1.activeHandler = some hT ∧
    css1.states = css.states ∧ css1.lastManifest = css.lastManifest ∧
    css1.lastINITVoteproof = css.lastINITVoteproof ∧
    css1.lastACCEPTVoteproof = css.lastACCEPTVoteproof := by
  unfold ConsensusStates.activateHandler at hok
  cases hprev : css.activeHandler with
  | none =>
    simp only [hprev, Bool.false_eq_true, if_false, hreg] at hok
    cases hact : hb.Activate css.calls hT ctx with
    | some err => simp [hact] at hok
    | none =>
      simp only [hact, Prod.mk.injEq, true_and] at hok
      subst hok
      simp
  | some prev =>
    have hne := hdiff prev hprev
    simp only [hprev, hne, decide_False, Bool.false_eq_true, if_false, hreg] at hok
    cases hde : hb.Deactivate css.calls prev ctx with
    | some err => simp [hde] at hok
    | none =>
      simp only [hde] at hok
      cases hact : hb.Activate (css.calls ++ [Call.Deactivate prev ctx none]) hT ctx with
      | some err => simp [hact] at hok
      | none =>
        simp only [hact, Prod.mk.injEq, true_and] at hok
        subst hok
        simp

/-- Witness of C9: the switch from the active Consensus handler to Syncing. -/
theorem activateHandler_success_deactivates_then_activates_witness :
    (sampleConsensusStates.activateHandler sampleHandlers
        (NewStateChangeContext State.Consensus State.Syncing none none)).2.calls =
      [Call.Deactivate sampleConsensusHandler
          (NewStateChangeContext State.Consensus State.Syncing none none) none,
        Call.Activate sampleSyncingHandler
          (NewStateChangeContext State.Consensus State.Syncing none none) none] ∧
    (sampleConsensusStates.activateHandler sampleHandlers
        (NewStateChangeContext State.Consensus State.Syncing none none)).2.activeHandler =
      some sampleSyncingHandler :=
  have h := activateHandler_success_deactivates_then_activates sampleHandlers
    sampleConsensusStates
    (sampleConsensusStates.activateHandler sampleHandlers
      (NewStateChangeContext State.Consensus State.Syncing none none)).2
    (NewStateChangeContext State.Consensus State.Syncing none none) sampleSyncingHandler
    (by intro prev hprev; cases hprev; decide) rfl rfl
  ⟨h.1, h.2.1⟩

/-- In the int64 range, with the local height at least `NilHeight`, a voteproof above
the next height has a positive height difference. -/
theorem heightDiff_pos_of_higher (vpc : VoteproofConsensusStateChecker)
    (h1 : vpc.voteproof.height < 2 ^ 63) (h2 : -1 ≤ vpc.localHeight)
    (h3 : vpc.localHeight + 1 < vpc.voteproof.height) : 0 < vpc.heightDiff := by
  unfold VoteproofConsensusStateChecker.heightDiff
  rw [wrapInt64_of_range (vpc.localHeight + 1) (by omega) (by omega)]
  rw [wrapInt64_of_range _ (by omega) (by omega)]
  omega

/-- With a positive height difference the checks of `newVoteproof` end with the
state-change error to Syncing. -/
theorem Check_of_higher (vpc : VoteproofConsensusStateChecker) (hpos : 0 < vpc.heightDiff) :
    Checker.Check [fun _ => Run.ret vpc.CheckHeight, fun _ => vpc.CheckINITVoteproof] =
      Run.ret (some (Error.StateToBeChangeError State.Syncing vpc.voteproof none
        Msg.higherHeight)) := by
  simp [Checker.Check, VoteproofConsensusStateChecker.CheckHeight, hpos]

/-- Handing a voteproof over to an active handler: the handler is called once and its
answer returned. -/
theorem recordAndHandOver_active (hb : HandlerBehaviour) (css : ConsensusStates)
    (V : VoteproofV0) (h : StateHandler) (hact : css.activeHandler = some h) :
    (css.recordAndHandOver hb V).1 = hb.NewVoteproof css.calls h V ∧
    (css.recordAndHandOver hb V).2.calls =
      css.calls ++ [Call.NewVoteproof h V (hb.NewVoteproof css.calls h V)] ∧
    (css.recordAndHandOver hb V).2.activeHandler = some h := by
  unfold ConsensusStates.recordAndHandOver
  cases hs : V.stage <;> simp [hact]

/-- The four ways in which `activateHandler` ends when the target state has a
registered handler `hT`: the target is already active; the previous handler refuses
to deactivate; `hT` refuses to activate; or the switch succeeds. -/
theorem activateHandler_outcome (hb : HandlerBehaviour) (css : ConsensusStates)
    (ctx : StateChangeContext) (hT : StateHandler)
    (hreg : GoMap.get css.states ctx.toState = some (some hT)) :
    (∃ prev, css.activeHandler = some prev ∧ prev.state = ctx.toState ∧
      css.activateHandler hb ctx = (none, css)) ∨
    (∃ e css1 prev err, css.activateHandler hb ctx = (some e, css1) ∧
      css1.calls = css.calls ++ [Call.Deactivate prev ctx (some err)]) ∨
    (∃ e css1 err, css.activateHandler hb ctx = (some e, css1) ∧
      css1.calls = css.calls ++
        (match css.activeHandler with
          | some prev => [Call.Deactivate prev ctx none]
          | none => []) ++ [Call.Activate hT ctx (some err)]) ∨
    (∃ css1, css.activateHandler hb ctx = (none, css1) ∧
      css1.calls = css.calls ++
        (match css.activeHandler with
          | some prev => [Call.Deactivate prev ctx none]
          | none => []) ++ [Call.Activate hT ctx none] ∧
      css1.activeHandler = some hT) := by
  unfold ConsensusStates.activateHandler
  cases hprev : css.activeHandler with
  | none =>
    simp only [Bool.false_eq_true, if_false, hreg]
    cases hact : hb.Activate css.calls hT ctx with
    | some err =>
      right; right; left
      exact ⟨_, _, err, rfl, by simp⟩
    | none =>
      right; right; right
      exact ⟨_, rfl, by simp, rfl⟩
  | some prev =>
    by_cases hst : prev.state = ctx.toState
    · left
      exact ⟨prev, rfl, hst, by simp [hst]⟩
    · simp only [hst, decide_False, Bool.false_eq_true, if_false, hreg]
      cases hde : hb.Deactivate css.calls prev ctx with
      | some err =>
        right; left
        exact ⟨_, _, prev, err, rfl, rfl⟩
      | none =>
        simp only []
        cases hact : hb.Activate (css.calls ++ [Call.Deactivate prev ctx none]) hT ctx with
        | some err =>
          right; right; left
          exact ⟨_, _, err, rfl, by simp⟩
        | none =>
          right; right; right
          exact ⟨_, rfl, by simp, rfl⟩

/-- Above the next height, `newVoteproof` asks for the switch to Syncing and, unless
the switch fails, records the voteproof and hands it over. -/
theorem newVoteproof_of_higher (hb : HandlerBehaviour) (fromState : State)
    (css : ConsensusStates) (V : VoteproofV0) (lm : Option Manifest)
    (hlm : css.lastManifest = Except.ok lm)
    (hpos : 0 < (⟨lm, css.lastINITVoteproof, V⟩ : VoteproofConsensusStateChecker).heightDiff) :
    css.newVoteproof hb fromState V =
      match css.activateHandler hb (StateToBeChangeContext fromState State.Syncing V none) with
      | (some err0, css1) => Run.ret (some err0, css1)
      | (none, css1) => Run.ret (css1.recordAndHandOver hb V) := by
  unfold ConsensusStates.newVoteproof
  simp only [hlm]
  rw [Check_of_higher _ hpos]
  rfl

/-- C8: for a voteproof `V` above the height that follows the last manifest, with a
Syncing handler `hS` registered, `newVoteproof(V)` returns. When no handler is active
and `hS` answers nil to `Activate`, or when a handler of another state is active,
answers nil to `Deactivate`, and `hS` then answers nil to `Activate`, the calls made on
handlers are exactly `Deactivate` on the previously active handler (if any), `Activate`
on `hS` and `NewVoteproof(V)` on `hS`; the active handler afterwards is `hS`, and what
is returned is what `NewVoteproof(V)` of `hS` answers. When the active handler is
already in the state Syncing no handler is activated: it stays active and answers
`NewVoteproof(V)`. -/
theorem newVoteproof_higher_height_activates_syncing
    (hb : HandlerBehaviour) (fromState : State) (css : ConsensusStates) (V : VoteproofV0)
    (m : Manifest) (hS : StateHandler)
    (hlm : css.lastManifest = Except.ok (some m))
    (hm : -1 ≤ m.height) (hV : V.height < 2 ^ 63) (hgt : m.height + 1 < V.height)
    (hreg : GoMap.get css.states State.Syncing = some (some hS)) :
    let ctx := StateToBeChangeContext fromState State.Syncing V none
    (∃ out css1, css.newVoteproof hb fromState V = Run.ret (out, css1)) ∧
    (css.activeHandler = none → hb.Activate css.calls hS ctx = none →
      ∃ out css1, css.newVoteproof hb fromState V = Run.ret (out, css1) ∧
        css1.activeHandler = some hS ∧
        css1.calls = css.calls ++ [Call.Activate hS ctx none, Call.NewVoteproof hS V out] ∧
        out = hb.NewVoteproof (css.calls ++ [Call.Activate hS ctx none]) hS V) ∧
    (∀ prev, css.activeHandler = some prev → prev.state ≠ State.Syncing →
      hb.Deactivate css.calls prev ctx = none →
      hb.Activate (css.calls ++ [Call.Deactivate prev ctx none]) hS ctx = none →
      ∃ out css1, css.newVoteproof hb fromState V = Run.ret (out, css1) ∧
        css1.activeHandler = some hS ∧
        css1.calls = css.calls ++ [Call.Deactivate prev ctx none, Call.Activate hS ctx none,
          Call.NewVoteproof hS V out] ∧
        out = hb.NewVoteproof
          (css.calls ++ [Call.Deactivate prev ctx none, Call.Activate hS ctx none]) hS V) ∧
    (∀ prev, css.activeHandler = some prev → prev.state = State.Syncing →
      ∃ out css1, css.newVoteproof hb fromState V = Run.ret (out, css1) ∧
        css1.activeHandler = some prev ∧
        css1.calls = css.calls ++ [Call.NewVoteproof prev V out] ∧
        out = hb.NewVoteproof css.calls prev V) := by
  intro ctx
  have hpos : 0 < (⟨some m, css.lastINITVoteproof, V⟩ :
      VoteproofConsensusStateChecker).heightDiff :=
    heightDiff_pos_of_higher _ hV hm hgt
  have hrun := newVoteproof_of_higher hb fromState css V (some m) hlm hpos
  have hreg2 : GoMap.get css.states ctx.toState = some (some hS) := hreg
  refine ⟨?_, ?_, ?_, ?_⟩
  · rw [hrun]
    cases hact : css.activateHandler hb (StateToBeChangeContext fromState State.Syncing V none)
      with
    | mk e css1 =>
      cases e with
      | some err => exact ⟨_, _, rfl⟩
      | none => exact ⟨_, _, rfl⟩
  · intro hnone hactivate
    have hact : css.activateHandler hb ctx =
        (none, { css with calls := css.calls ++ [Call.Activate hS ctx none],
                          activeHandler := some hS }) := by
      unfold ConsensusStates.activateHandler
      simp [hnone, hreg2, hactivate]
    obtain ⟨h1, h2, h3⟩ := recordAndHandOver_active hb
      { css with calls := css.calls ++ [Call.Activate hS ctx none], activeHandler := some hS }
      V hS rfl
    refine ⟨_, _, ?_, h3, ?_, h1⟩
    · rw [hrun]
      show (match css.activateHandler hb ctx with
        | (some err0, css1) => Run.ret (some err0, css1)
        | (none, css1) => Run.ret (css1.recordAndHandOver hb V)) = _
      rw [hact]
    · rw [h2, h1]
      simp
  · intro prev hprev hdiff hdeactivate hactivate
    have hdiff2 : ¬ prev.state = ctx.toState := hdiff
    have hact : css.activateHandler hb ctx =
        (none, { css with
          calls := css.calls ++ [Call.Deactivate prev ctx none] ++ [Call.Activate hS ctx none],
          activeHandler := some hS }) := by
      unfold ConsensusStates.activateHandler
      simp [hprev, hdiff2, hreg2, hdeactivate, hactivate]
    obtain ⟨h1, h2, h3⟩ := recordAndHandOver_active hb
      { css with
        calls := css.calls ++ [Call.Deactivate prev ctx none] ++ [Call.Activate hS ctx none],
        activeHandler := some hS } V hS rfl
    refine ⟨(ConsensusStates.recordAndHandOver hb
      { css with
        calls := css.calls ++ [Call.Deactivate prev ctx none] ++ [Call.Activate hS ctx none],
        activeHandler := some hS } V).1, _, ?_, h3, ?_, ?_⟩
    · rw [hrun]
      show (match css.activateHandler hb ctx with
        | (some err0, css1) => Run.ret (some err0, css1)
        | (none, css1) => Run.ret (css1.recordAndHandOver hb V)) = _
      rw [hact]
    · rw [h2, h1]
      simp
    · rw [h1]
      simp

  · intro prev hprev hsame
    have hsame2 : prev.state = ctx.toState := hsame
    have hact : css.activateHandler hb ctx = (none, css) := by
      unfold ConsensusStates.activateHandler
      simp [hprev, hsame2]
    obtain ⟨h1, h2, h3⟩ := recordAndHandOver_active hb css V prev hprev
    refine ⟨(css.recordAndHandOver hb V).1, _, ?_, h3, ?_, h1⟩
    · rw [hrun]
      show (match css.activateHandler hb ctx with
        | (some err0, css1) => Run.ret (some err0, css1)
        | (none, css1) => Run.ret (css1.recordAndHandOver hb V)) = _
      rw [hact]
    · rw [h2, h1]

/-- Witness of C8: an INIT voteproof of height 5 over a manifest of height 2, with the
Consensus handler active and a Syncing handler registered, the handlers answering nil:
the Consensus handler is deactivated, the Syncing handler is activated, becomes the
active handler and is handed the voteproof, and its answer (nil) is returned. -/
theorem newVoteproof_higher_height_activates_syncing_witness :
    sampleConsensusStates.newVoteproof sampleHandlers State.Consensus
        (sampleVoteproof 5 2 Stage.INIT (some (Fact.INITBallotFact 5 2 7))) =
      Run.ret (none,
        { sampleConsensusStates with
          activeHandler := some sampleSyncingHandler,
          lastINITVoteproof :=
            some (sampleVoteproof 5 2 Stage.INIT (some (Fact.INITBallotFact 5 2 7))),
          calls :=
            [Call.Deactivate sampleConsensusHandler
              (StateToBeChangeContext State.Consensus State.Syncing
                (sampleVoteproof 5 2 Stage.INIT (some (Fact.INITBallotFact 5 2 7))) none) none,
             Call.Activate sampleSyncingHandler
              (StateToBeChangeContext State.Consensus State.Syncing
                (sampleVoteproof 5 2 Stage.INIT (some (Fact.INITBallotFact 5 2 7))) none) none,
             Call.NewVoteproof sampleSyncingHandler
              (sampleVoteproof 5 2 Stage.INIT (some (Fact.INITBallotFact 5 2 7))) none] }) ∧
    ∃ out css1,
      sampleConsensusStates.newVoteproof sampleHandlers State.Consensus
        (sampleVoteproof 5 2 Stage.INIT (some (Fact.INITBallotFact 5 2 7))) =
        Run.ret (out, css1) ∧
      css1.activeHandler = some sampleSyncingHandler ∧
      css1.calls = sampleConsensusStates.calls ++
        [Call.Deactivate sampleConsensusHandler
          (StateToBeChangeContext State.Consensus State.Syncing
            (sampleVoteproof 5 2 Stage.INIT (some (Fact.INITBallotFact 5 2 7))) none) none,
         Call.Activate sampleSyncingHandler
          (StateToBeChangeContext State.Consensus State.Syncing
            (sampleVoteproof 5 2 Stage.INIT (some (Fact.INITBallotFact 5 2 7))) none) none,
         Call.NewVoteproof sampleSyncingHandler
          (sampleVoteproof 5 2 Stage.INIT (some (Fact.INITBallotFact 5 2 7))) out] ∧
      out = sampleHandlers.NewVoteproof
        (sampleConsensusStates.calls ++
          [Call.Deactivate sampleConsensusHandler
            (StateToBeChangeContext State.Consensus State.Syncing
              (sampleVoteproof 5 2 Stage.INIT (some (Fact.INITBallotFact 5 2 7))) none) none,
           Call.Activate sampleSyncingHandler
            (StateToBeChangeContext State.Consensus State.Syncing
              (sampleVoteproof 5 2 Stage.INIT (some (Fact.INITBallotFact 5 2 7))) none) none])
        sampleSyncingHandler
        (sampleVoteproof 5 2 Stage.INIT (some (Fact.INITBallotFact 5 2 7))) :=
  ⟨rfl,
    (newVoteproof_higher_height_activates_syncing sampleHandlers State.Consensus
      sampleConsensusStates (sampleVoteproof 5 2 Stage.INIT (some (Fact.INITBallotFact 5 2 7)))
      sampleManifest sampleSyncingHandler rfl (by decide) (by decide) (by decide) rfl).2.2.1
      sampleConsensusHandler rfl (by decide) rfl rfl⟩

/-- C10, counterexample: `CheckACCEPTVoteproof` refuses the finished ACCEPT voteproof
of round 1 at the height after the last manifest when the last INIT voteproof has
round 0, but `newVoteproof` does not run that check: it returns nil, records the
voteproof as the last ACCEPT voteproof and hands it to the active handler. -/
theorem newVoteproof_skips_CheckACCEPTVoteproof :
    (⟨some sampleManifest, sampleConsensusStates.lastINITVoteproof,
        sampleVoteproof 3 1 Stage.ACCEPT (some (Fact.ACCEPTBallotFact 3 1 1 8))⟩ :
        VoteproofConsensusStateChecker).CheckACCEPTVoteproof =
      Run.ret (false, some (Error.Errorf Msg.differentRound)) ∧
    sampleConsensusStates.newVoteproof sampleHandlers State.Consensus
        (sampleVoteproof 3 1 Stage.ACCEPT (some (Fact.ACCEPTBallotFact 3 1 1 8))) =
      Run.ret (none,
        { sampleConsensusStates with
          lastACCEPTVoteproof :=
            some (sampleVoteproof 3 1 Stage.ACCEPT (some (Fact.ACCEPTBallotFact 3 1 1 8))),
          calls :=
            [Call.NewVoteproof sampleConsensusHandler
              (sampleVoteproof 3 1 Stage.ACCEPT (some (Fact.ACCEPTBallotFact 3 1 1 8)))
              none] }) :=
  ⟨rfl, rfl⟩

/-- At the height that follows the last manifest the height difference is zero. -/
theorem heightDiff_zero_of_next (vpc : VoteproofConsensusStateChecker)
    (h1 : -1 ≤ vpc.localHeight) (h2 : vpc.localHeight + 1 < 2 ^ 63)
    (h3 : vpc.voteproof.height = vpc.localHeight + 1) : vpc.heightDiff = 0 := by
  unfold VoteproofConsensusStateChecker.heightDiff
  rw [wrapInt64_of_range (vpc.localHeight + 1) (by omega) (by omega)]
  rw [wrapInt64_of_range _ (by omega) (by omega)]
  omega

/-- C10, amended: the voteproof pipeline of the supervisor does not apply the ACCEPT
check of the admission rules. For every ACCEPT voteproof `V` (finished or not) with
`V.Height = lastManifest.Height + 1` and `V.Round` different from the round of the last
INIT voteproof, `CheckACCEPTVoteproof` returns the error of a different round, but
`newVoteproof(V)`, which runs `CheckHeight` and `CheckINITVoteproof` only, records `V`
as the last ACCEPT voteproof, passes `V` to `NewVoteproof` of the active handler, and
returns what that returns (nil when no handler is active). -/
theorem newVoteproof_admits_ACCEPT_of_other_round (hb : HandlerBehaviour) (fromState : State)
    (css : ConsensusStates) (V : VoteproofV0) (m : Manifest) (last : VoteproofV0)
    (hlm : css.lastManifest = Except.ok (some m))
    (hm : -1 ≤ m.height) (hm2 : m.height + 1 < 2 ^ 63)
    (hheight : V.height = m.height + 1) (hstage : V.stage = Stage.ACCEPT)
    (hlast : css.lastINITVoteproof = some last) (hround : last.round ≠ V.round) :
    (⟨some m, css.lastINITVoteproof, V⟩ : VoteproofConsensusStateChecker).CheckACCEPTVoteproof
      = Run.ret (false, some (Error.Errorf Msg.differentRound)) ∧
    ∃ out css1, css.newVoteproof hb fromState V = Run.ret (out, css1) ∧
      css1.lastACCEPTVoteproof = some V ∧
      css1.lastINITVoteproof = css.lastINITVoteproof ∧
      css1.activeHandler = css.activeHandler ∧
      (css.activeHandler = none → out = none ∧ css1.calls = css.calls) ∧
      (∀ h, css.activeHandler = some h →
        out = hb.NewVoteproof css.calls h V ∧
        css1.calls = css.calls ++ [Call.NewVoteproof h V out]) := by
  refine ⟨?_, ?_⟩
  · simp [VoteproofConsensusStateChecker.CheckACCEPTVoteproof, hstage, hlast, hround]
  · have hzero : (⟨some m, css.lastINITVoteproof, V⟩ :
        VoteproofConsensusStateChecker).heightDiff = 0 :=
      heightDiff_zero_of_next _ hm hm2 hheight
    have hcheck : Checker.Check
        [fun _ => Run.ret (⟨some m, css.lastINITVoteproof, V⟩ :
            VoteproofConsensusStateChecker).CheckHeight,
          fun _ => (⟨some m, css.lastINITVoteproof, V⟩ :
            VoteproofConsensusStateChecker).CheckINITVoteproof] = Run.ret none := by
      simp [Checker.Check, VoteproofConsensusStateChecker.CheckHeight, hzero,
        VoteproofConsensusStateChecker.CheckINITVoteproof, hstage]
    have hrun : css.newVoteproof hb fromState V = Run.ret (css.recordAndHandOver hb V) := by
      unfold ConsensusStates.newVoteproof
      simp only [hlm]
      rw [hcheck]
    refine ⟨(css.recordAndHandOver hb V).1, (css.recordAndHandOver hb V).2, hrun, ?_, ?_, ?_,
      ?_, ?_⟩
    · unfold ConsensusStates.recordAndHandOver
      cases hact : css.activeHandler <;> simp [hstage, hact]
    · unfold ConsensusStates.recordAndHandOver
      cases hact : css.activeHandler <;> simp [hstage, hact]
    · unfold ConsensusStates.recordAndHandOver
      cases hact : css.activeHandler <;> simp [hstage, hact]
    · intro hact
      unfold ConsensusStates.recordAndHandOver
      simp [hstage, hact]
    · intro h hact
      unfold ConsensusStates.recordAndHandOver
      simp [hstage, hact]

/-- Witness of the amended C10: the ACCEPT voteproof of round 1 at height 3, over a
manifest of height 2 and a last INIT voteproof of round 0, with the Consensus handler
active: it is recorded and handed to the Consensus handler. -/
theorem newVoteproof_admits_ACCEPT_of_other_round_witness :
    ∃ out css1,
      sampleConsensusStates.newVoteproof sampleHandlers State.Consensus
        (sampleVoteproof 3 1 Stage.ACCEPT (some (Fact.ACCEPTBallotFact 3 1 1 8))) =
        Run.ret (out, css1) ∧
      css1.lastACCEPTVoteproof =
        some (sampleVoteproof 3 1 Stage.ACCEPT (some (Fact.ACCEPTBallotFact 3 1 1 8))) ∧
      css1.calls = sampleConsensusStates.calls ++
        [Call.NewVoteproof sampleConsensusHandler
          (sampleVoteproof 3 1 Stage.ACCEPT (some (Fact.ACCEPTBallotFact 3 1 1 8))) out] := by
  obtain ⟨out, css1, h1, h2, -, -, -, h3⟩ :=
    (newVoteproof_admits_ACCEPT_of_other_round sampleHandlers State.Consensus
      sampleConsensusStates
      (sampleVoteproof 3 1 Stage.ACCEPT (some (Fact.ACCEPTBallotFact 3 1 1 8)))
      sampleManifest (sampleVoteproof 3 0 Stage.INIT (some (Fact.INITBallotFact 3 0 7)))
      rfl (by decide) (by decide) (by decide) rfl rfl (by decide)).2
  exact ⟨out, css1, h1, h2, (h3 sampleConsensusHandler rfl).2⟩

/-! ### The supervisor: ballots, seals and start -/

/-- C11: `vote` returns the error of `Ballotbox.Vote` when it fails; when the voteproof
returned is finished and not closed it is pushed into `newVoteproof`, whose outcome is
the outcome of `vote`; and when the voteproof is unfinished or closed, `vote` returns
nil and leaves the supervisor (the last INIT voteproof, the last ACCEPT voteproof, the
active handler and the calls made on handlers) as it was. -/
theorem vote_pushes_finished_open_voteproof (hb : HandlerBehaviour) (fromState : State)
    (css : ConsensusStates) (bb : Ballotbox) (blt : Ballot) (now : Time) :
    (∀ err, bb.Vote blt now = Except.error err →
      css.vote hb fromState bb blt now = Run.ret (some (Error.Ballotbox err), css, bb)) ∧
    (∀ vp bb1, bb.Vote blt now = Except.ok (vp, bb1) →
      ((vp.result ≠ VoteproofResultType.NotYet ∧ vp.closed = false) →
        css.vote hb fromState bb blt now =
          (css.newVoteproof hb fromState vp).bind fun r => Run.ret (r.1, r.2, bb1)) ∧
      (¬ (vp.result ≠ VoteproofResultType.NotYet ∧ vp.closed = false) →
        css.vote hb fromState bb blt now = Run.ret (none, css, bb1))) := by
  refine ⟨?_, ?_⟩
  · intro err hv
    simp [ConsensusStates.vote, hv]
  · intro vp bb1 hv
    refine ⟨?_, ?_⟩
    · rintro ⟨hfin, hopen⟩
      simp [ConsensusStates.vote, hv, VoteproofV0.IsFinished, VoteproofV0.IsClosed, hfin, hopen]
    · intro hnot
      by_cases hfin : vp.result = VoteproofResultType.NotYet
      · simp [ConsensusStates.vote, hv, VoteproofV0.IsFinished, hfin]
      · have hclosed : vp.closed = true := by
          cases hc : vp.closed with
          | true => rfl
          | false => exact absurd ⟨hfin, hc⟩ hnot
        simp [ConsensusStates.vote, hv, VoteproofV0.IsFinished, VoteproofV0.IsClosed, hfin,
          hclosed]

/-- Witness of C11: the first ballot of three nodes gives an unfinished voteproof, and
`vote` returns nil leaving the supervisor as it was; the second ballot for the same
block gives a finished voteproof, which is pushed into `newVoteproof`; and the ballot
of a node outside the suffrage is refused with the error of the ballotbox. -/
theorem vote_pushes_finished_open_voteproof_witness :
    sampleConsensusStates.vote sampleHandlers State.Consensus sampleBallotbox
        (sampleINITBallot 1 10 0 5) 7 =
      Run.ret (none, sampleConsensusStates, sampleFirstVote.2) ∧
    sampleConsensusStates.vote sampleHandlers State.Consensus
        (sampleBallotbox.voteAll [(sampleINITBallot 1 10 0 5, 7)]).2
        (sampleINITBallot 2 10 0 5) 8 =
      (sampleConsensusStates.newVoteproof sampleHandlers State.Consensus
        sampleFirstFinished.1).bind (fun r => Run.ret (r.1, r.2, sampleFirstFinished.2)) ∧
    sampleConsensusStates.vote sampleHandlers State.Consensus sampleBallotbox
        (sampleINITBallot 9 10 0 5) 7 =
      Run.ret (some (Error.Ballotbox BallotboxError.NotInSuffrage), sampleConsensusStates,
        sampleBallotbox) :=
  ⟨((vote_pushes_finished_open_voteproof sampleHandlers State.Consensus sampleConsensusStates
      sampleBallotbox (sampleINITBallot 1 10 0 5) 7).2
      sampleFirstVote.1 sampleFirstVote.2 rfl).2 (by decide),
   ((vote_pushes_finished_open_voteproof sampleHandlers State.Consensus sampleConsensusStates
      (sampleBallotbox.voteAll [(sampleINITBallot 1 10 0 5, 7)]).2
      (sampleINITBallot 2 10 0 5) 8).2
      sampleFirstFinished.1 sampleFirstFinished.2 rfl).1 (by decide),
   (vote_pushes_finished_open_voteproof sampleHandlers State.Consensus sampleConsensusStates
      sampleBallotbox (sampleINITBallot 9 10 0 5) 7).1 BallotboxError.NotInSuffrage rfl⟩

/-- In the int64 range, a voteproof below the height that follows the local height
has a negative height difference. -/
theorem heightDiff_neg_of_lower (vpc : VoteproofConsensusStateChecker)
    (h1 : -1 ≤ vpc.voteproof.height) (h2 : vpc.localHeight + 1 < 2 ^ 63)
    (h3 : vpc.voteproof.height < vpc.localHeight + 1) : vpc.heightDiff < 0 := by
  unfold VoteproofConsensusStateChecker.heightDiff
  rw [wrapInt64_of_range (vpc.localHeight + 1) (by omega) (by omega)]
  rw [wrapInt64_of_range _ (by omega) (by omega)]
  omega

/-- With a negative height difference the checks of `newVoteproof` end with
`IgnoreVoteproofError`. -/
theorem Check_of_lower (vpc : VoteproofConsensusStateChecker) (hneg : vpc.heightDiff < 0) :
    Checker.Check [fun _ => Run.ret vpc.CheckHeight, fun _ => vpc.CheckINITVoteproof] =
      Run.ret (some Error.IgnoreVoteproofError) := by
  have hnot : ¬ 0 < vpc.heightDiff := by omega
  simp [Checker.Check, VoteproofConsensusStateChecker.CheckHeight, hnot, hneg]

/-- C12: for a voteproof `V` below the height that follows the last manifest (heights
from `NilHeight` upwards, `lastManifest.Height + 1` representable), `newVoteproof(V)`
returns nil and leaves the supervisor as it was: the last INIT voteproof, the last
ACCEPT voteproof and the active handler are unchanged and no call is made on a
handler. -/
theorem newVoteproof_lower_height_is_ignored (hb : HandlerBehaviour) (fromState : State)
    (css : ConsensusStates) (V : VoteproofV0) (m : Manifest)
    (hlm : css.lastManifest = Except.ok (some m))
    (hV : -1 ≤ V.height) (hm : m.height + 1 < 2 ^ 63) (hlt : V.height < m.height + 1) :
    ∃ css1, css.newVoteproof hb fromState V = Run.ret (none, css1) ∧
      css1.lastINITVoteproof = css.lastINITVoteproof ∧
      css1.lastACCEPTVoteproof = css.lastACCEPTVoteproof ∧
      css1.activeHandler = css.activeHandler ∧ css1.calls = css.calls := by
  have hneg : (⟨some m, css.lastINITVoteproof, V⟩ :
      VoteproofConsensusStateChecker).heightDiff < 0 :=
    heightDiff_neg_of_lower _ hV hm hlt
  refine ⟨css, ?_, rfl, rfl, rfl, rfl⟩
  unfold ConsensusStates.newVoteproof
  simp only [hlm]
  rw [Check_of_lower _ hneg]
  rfl

/-- Witness of C12: an INIT voteproof of height 1 over a manifest of height 2. -/
theorem newVoteproof_lower_height_is_ignored_witness :
    ∃ css1, sampleConsensusStates.newVoteproof sampleHandlers State.Consensus
        (sampleVoteproof 1 0 Stage.INIT (some (Fact.INITBallotFact 1 0 7))) =
        Run.ret (none, css1) ∧
      css1.lastINITVoteproof = sampleConsensusStates.lastINITVoteproof ∧
      css1.lastACCEPTVoteproof = sampleConsensusStates.lastACCEPTVoteproof ∧
      css1.activeHandler = sampleConsensusStates.activeHandler ∧
      css1.calls = sampleConsensusStates.calls :=
  newVoteproof_lower_height_is_ignored sampleHandlers State.Consensus sampleConsensusStates
    (sampleVoteproof 1 0 Stage.INIT (some (Fact.INITBallotFact 1 0 7))) sampleManifest rfl
    (by decide) (by decide) (by decide)

/-- C13 (what the code does): when `Storage().NewSeals` reports the seal as duplicated,
`NewSeal` stops there, without validating the seal, voting or handing it over, but it
returns the `DuplicatedError` instead of nil. -/
theorem NewSeal_returns_DuplicatedError :
    sampleConsensusStates.NewSeal sampleHandlers sampleDuplicatedSealEnv State.Consensus
        sampleBallotbox (Seal.ballot (sampleINITBallot 2 10 0 5) 2) 7 =
      Run.ret (some Error.DuplicatedError, sampleConsensusStates, sampleBallotbox) :=
  rfl

/-- C15: a request for the state of the active handler is a no-op: `activateHandler`
returns nil and leaves the supervisor, with its log of calls, as it was. Hence, when
the handler `hT` registered for the target state reports that state, a successful
request followed by the same request makes `Deactivate` on the previous handler (if
any) and `Activate` on `hT` once, the second request adding no call. -/
theorem activateHandler_same_state_is_noop (hb : HandlerBehaviour) (css : ConsensusStates)
    (ctx : StateChangeContext) :
    (∀ h, css.activeHandler = some h → h.state = ctx.toState →
      css.activateHandler hb ctx = (none, css)) ∧
    (∀ hT css1, (∀ prev, css.activeHandler = some prev → prev.state ≠ ctx.toState) →
      GoMap.get css.states ctx.toState = some (some hT) → hT.state = ctx.toState →
      css.activateHandler hb ctx = (none, css1) →
      css1.activateHandler hb ctx = (none, css1) ∧
      css1.calls = css.calls ++
        (match css.activeHandler with
          | some prev => [Call.Deactivate prev ctx none]
          | none => []) ++ [Call.Activate hT ctx none]) := by
  refine ⟨?_, ?_⟩
  · intro h hact hst
    simp [ConsensusStates.activateHandler, hact, hst]
  · intro hT css1 hdiff hreg hst hok
    rcases activateHandler_outcome hb css ctx hT hreg with
      ⟨prev, hprev, hsame, -⟩ | ⟨e, css2, prev, err, hrun, -⟩ |
      ⟨e, css2, err, hrun, -⟩ | ⟨css2, hrun, hcalls, hactive⟩
    · exact absurd hsame (hdiff prev hprev)
    · rw [hrun] at hok
      cases hok
    · rw [hrun] at hok
      cases hok
    · rw [hrun] at hok
      cases hok
      refine ⟨?_, hcalls⟩
      simp [ConsensusStates.activateHandler, hactive, hst]

/-- Witness of C15: with the Consensus handler active, a request for Consensus changes
nothing; and after the switch to Syncing a second request for Syncing changes
nothing. -/
theorem activateHandler_same_state_is_noop_witness :
    sampleConsensusStates.activateHandler sampleHandlers
        (NewStateChangeContext State.Joining State.Consensus none none) =
      (none, sampleConsensusStates) ∧
    (sampleConsensusStates.activateHandler sampleHandlers
        (NewStateChangeContext State.Consensus State.Syncing none none)).2.activateHandler
        sampleHandlers (NewStateChangeContext State.Consensus State.Syncing none none) =
      (none, (sampleConsensusStates.activateHandler sampleHandlers
        (NewStateChangeContext State.Consensus State.Syncing none none)).2) :=
  ⟨(activateHandler_same_state_is_noop sampleHandlers sampleConsensusStates
      (NewStateChangeContext State.Joining State.Consensus none none)).1
      sampleConsensusHandler rfl rfl,
   ((activateHandler_same_state_is_noop sampleHandlers sampleConsensusStates
      (NewStateChangeContext State.Consensus State.Syncing none none)).2
      sampleSyncingHandler
      (sampleConsensusStates.activateHandler sampleHandlers
        (NewStateChangeContext State.Consensus State.Syncing none none)).2
      (by intro prev hprev; cases hprev; decide) rfl rfl rfl).1⟩

/-- The loop of `Start` gives both channels to every handler that is registered. -/
theorem registerChannels_mem (states : List (State × Option StateHandler)) (st : State)
    (h : StateHandler) (hmem : (st, some h) ∈ states) :
    Call.SetStateChan h ∈ registerChannels states ∧
      Call.SetSealChan h ∈ registerChannels states := by
  induction states with
  | nil => cases hmem
  | cons sh rest ih =>
    obtain ⟨st', oh⟩ := sh
    rcases List.mem_cons.1 hmem with heq | hrest
    · cases heq
      simp [registerChannels]
    · cases oh with
      | none =>
        simp only [registerChannels]
        exact ih hrest
      | some h' =>
        simp only [registerChannels, List.mem_cons]
        exact ⟨Or.inr (Or.inr (ih hrest).1), Or.inr (Or.inr (ih hrest).2)⟩

/-- C14: on a supervisor built by `NewConsensusStates`, in whatever order the map of
handlers is ranged over, when `Start()` returns nil a Booting handler `hB` is
registered and is the active handler; the calls made on handlers are the hand-over of
the state channel and the seal channel to the registered handlers, in the order of the
range, followed by `Activate` on `hB` with the context from Stopped to Booting
(returning nil), so that every registered handler has been given both channels; when no
Booting handler is registered `Start()` returns an error and no handler is active. -/
theorem Start_activates_booting (hb : HandlerBehaviour)
    (enum : List (State × Option StateHandler) → List (State × Option StateHandler))
    (henum : ∀ l, (enum l).Perm l) (daemonStart : Option Error)
    (lastManifest : Except Error (Option Manifest))
    (lastINITVoteproof lastACCEPTVoteproof : Option VoteproofV0)
    (booting joining consensus syncing broken : Option StateHandler) :
    let css := NewConsensusStates lastManifest lastINITVoteproof lastACCEPTVoteproof
      booting joining consensus syncing broken
    let ctx := NewStateChangeContext State.Stopped State.Booting none none
    (∀ css1, css.Start hb enum daemonStart = (none, css1) →
      ∃ hB, booting = some hB ∧ css1.activeHandler = some hB ∧
        css1.calls = registerChannels (enum css.states) ++ [Call.Activate hB ctx none] ∧
        ∀ st h, (st, some h) ∈ css.states →
          Call.SetStateChan h ∈ css1.calls ∧ Call.SetSealChan h ∈ css1.calls) ∧
    (booting = none →
      ∃ err, (css.Start hb enum daemonStart).1 = some err ∧
        (css.Start hb enum daemonStart).2.activeHandler = none) := by
  intro css ctx
  have hget : ∀ b, GoMap.get (NewConsensusStates.states b joining consensus syncing broken)
      State.Booting = some b := by
    intro b
    simp [NewConsensusStates.states, GoMap.get]
  refine ⟨?_, ?_⟩
  · intro css1 hstart
    cases hd : daemonStart with
    | some err => simp [ConsensusStates.Start, hd] at hstart
    | none =>
      cases hboot : booting with
      | none =>
        simp [ConsensusStates.Start, hd, ConsensusStates.activateHandler, hget, hboot,
          NewStateChangeContext, css, NewConsensusStates] at hstart
      | some hB =>
        cases hact : hb.Activate (registerChannels (enum css.states)) hB ctx with
        | some err =>
          simp only [css, ctx, NewConsensusStates, NewStateChangeContext, hboot] at hact
          simp [ConsensusStates.Start, hd, ConsensusStates.activateHandler, hget, hboot,
            NewStateChangeContext, css, NewConsensusStates, hact] at hstart
        | none =>
          simp only [css, ctx, NewConsensusStates, NewStateChangeContext, hboot] at hact
          simp [ConsensusStates.Start, hd, ConsensusStates.activateHandler, hget, hboot,
            NewStateChangeContext, css, NewConsensusStates, hact] at hstart
          subst hstart
          refine ⟨hB, rfl, rfl, ?_, ?_⟩
          · simp [css, ctx, NewConsensusStates, NewStateChangeContext, hboot]
          · intro st h hmem
            have := registerChannels_mem (enum css.states) st h
              ((henum css.states).mem_iff.2 hmem)
            simp only [css, NewConsensusStates, hboot] at this
            simp only [List.nil_append, List.mem_append]
            exact ⟨Or.inl this.1, Or.inl this.2⟩
  · intro hboot
    cases hd : daemonStart with
    | some err =>
      exact ⟨err, by simp [ConsensusStates.Start], by
        simp [ConsensusStates.Start, css, NewConsensusStates]⟩
    | none =>
      refine ⟨Error.stateHandlerNotRegistered State.Booting, ?_, ?_⟩
      · simp [ConsensusStates.Start, ConsensusStates.activateHandler, hget, hboot,
          NewStateChangeContext, css, NewConsensusStates]
      · simp [ConsensusStates.Start, ConsensusStates.activateHandler, hget, hboot,
          NewStateChangeContext, css, NewConsensusStates]

/-- Witness of C14: a supervisor with a Booting and a Syncing handler, the map of
handlers being ranged over from Broken to Booting, starts into Booting: the Syncing
handler is given the channels before the Booting handler; a supervisor with no Booting
handler fails to start. -/
theorem Start_activates_booting_witness :
    ((NewConsensusStates (Except.ok (some sampleManifest)) none none
      (some sampleBootingHandler) none none (some sampleSyncingHandler) none).Start
      sampleHandlers List.reverse none) =
      (none,
        { NewConsensusStates (Except.ok (some sampleManifest)) none none
            (some sampleBootingHandler) none none (some sampleSyncingHandler) none with
          activeHandler := some sampleBootingHandler,
          calls := [Call.SetStateChan sampleSyncingHandler, Call.SetSealChan sampleSyncingHandler,
            Call.SetStateChan sampleBootingHandler, Call.SetSealChan sampleBootingHandler,
            Call.Activate sampleBootingHandler
              (NewStateChangeContext State.Stopped State.Booting none none) none] }) ∧
    (∃ hB, some sampleBootingHandler = some hB ∧
      ((NewConsensusStates (Except.ok (some sampleManifest)) none none
        (some sampleBootingHandler) none none (some sampleSyncingHandler) none).Start
        sampleHandlers List.reverse none).2.activeHandler = some hB ∧
      ((NewConsensusStates (Except.ok (some sampleManifest)) none none
        (some sampleBootingHandler) none none (some sampleSyncingHandler) none).Start
        sampleHandlers List.reverse none).2.calls =
        registerChannels (List.reverse (NewConsensusStates (Except.ok (some sampleManifest))
          none none (some sampleBootingHandler) none none (some sampleSyncingHandler)
          none).states) ++
          [Call.Activate hB (NewStateChangeContext State.Stopped State.Booting none none)
            none]) ∧
    (∃ err, ((NewConsensusStates (Except.ok (some sampleManifest)) none none
        none none none (some sampleSyncingHandler) none).Start sampleHandlers List.reverse
        none).1 = some err ∧
      ((NewConsensusStates (Except.ok (some sampleManifest)) none none
        none none none (some sampleSyncingHandler) none).Start
        sampleHandlers List.reverse none).2.activeHandler = none) := by
  have h := Start_activates_booting sampleHandlers List.reverse (fun l => List.reverse_perm l)
    none (Except.ok (some sampleManifest))
    none none (some sampleBootingHandler) none none (some sampleSyncingHandler) none
  have h2 := Start_activates_booting sampleHandlers List.reverse (fun l => List.reverse_perm l)
    none (Except.ok (some sampleManifest))
    none none none none none (some sampleSyncingHandler) none
  obtain ⟨hB, hb1, hb2, hb3, -⟩ := h.1 _ rfl
  exact ⟨rfl, ⟨hB, hb1, hb2, hb3⟩, h2.2 rfl⟩

/-! ### Ballotbox: `Clean` and `LatestBallot` -/

/-- C16: after `Clean(h)` no `VoteRecords` with a height up to `h` remains, every
`VoteRecords` with a greater height that was present is still present, nothing else
is present, and no error is returned. -/
theorem Clean_drops_records_up_to_height (bb : Ballotbox) (h : Int) :
    (bb.Clean h).1 = none ∧
    (∀ kv ∈ (bb.Clean h).2.vrs, h < kv.2.height) ∧
    (∀ kv ∈ bb.vrs, h < kv.2.height → kv ∈ (bb.Clean h).2.vrs) ∧
    (∀ kv ∈ (bb.Clean h).2.vrs, kv ∈ bb.vrs) := by
  refine ⟨rfl, ?_, ?_, ?_⟩
  · intro kv hkv
    simp only [Ballotbox.Clean, List.mem_filter, Bool.not_eq_true', decide_eq_false_iff_not,
      not_le] at hkv
    exact hkv.2
  · intro kv hkv hgt
    simp only [Ballotbox.Clean, List.mem_filter, Bool.not_eq_true', decide_eq_false_iff_not,
      not_le]
    exact ⟨hkv, hgt⟩
  · intro kv hkv
    simp only [Ballotbox.Clean, List.mem_filter] at hkv
    exact hkv.1

/-- Witness of C16: after votes at heights 10 and 9, `Clean(9)` leaves the records of
height 10 only. -/
theorem Clean_drops_records_up_to_height_witness :
    (∀ kv ∈ (sampleTwoHeights.Clean 9).2.vrs, 9 < kv.2.height) ∧
    GoMap.keys sampleTwoHeights.vrs = [(10, 0, Stage.INIT), (9, 0, Stage.INIT)] ∧
    GoMap.keys (sampleTwoHeights.Clean 9).2.vrs = [(10, 0, Stage.INIT)] :=
  ⟨(Clean_drops_records_up_to_height sampleTwoHeights 9).2.1, by decide, by decide⟩

/-- A successful `Ballotbox.Vote`, with what it does to the latest ballot. -/
theorem Ballotbox.Vote_latest (bb : Ballotbox) (blt : Ballot) (now : Time) (vp : VoteproofV0)
    (bb1 : Ballotbox) (h : bb.Vote blt now = Except.ok (vp, bb1)) :
    ∃ vrs vrs1 adm, vrs.Vote blt now = Except.ok (vp, vrs1, adm) ∧
      (GoMap.get bb.vrs blt.key = some vrs ∨
        (GoMap.get bb.vrs blt.key = none ∧
          ∃ t, bb.threshold = some t ∧ vrs = NewVoteRecords blt.key bb.suffrages t)) ∧
      bb1.vrs = GoMap.set bb.vrs blt.key vrs1 ∧
      bb1.latestBallot =
        if (adm && blt.isLaterThan bb.latestBallot) = true then some blt
        else bb.latestBallot := by
  unfold Ballotbox.Vote at h
  split_ifs at h with hcan
  simp only at h
  split at h
  · cases h
  · rename_i vrs hload
    split at h
    · cases h
    · rename_i vp1 vrs1 adm hv
      simp only [Except.ok.injEq, Prod.mk.injEq] at h
      obtain ⟨h1, h2⟩ := h
      subst h1 h2
      refine ⟨vrs, vrs1, adm, hv, ?_, rfl, rfl⟩
      cases hg : GoMap.get bb.vrs blt.key with
      | some v =>
        simp only [hg, Except.ok.injEq] at hload
        exact Or.inl (by rw [hload])
      | none =>
        simp only [hg] at hload
        cases ht : bb.threshold with
        | none => simp [ht] at hload
        | some t =>
          simp only [ht, Except.ok.injEq] at hload
          exact Or.inr ⟨rfl, t, rfl, hload.symm⟩

/-- The first ballot voted in new records is admitted. -/
theorem VoteRecords.Vote_new_admitted (k : VoteKey) (S : List Address) (t : Threshold)
    (blt : Ballot) (now : Time) (vp : VoteproofV0) (vrs1 : VoteRecords) (adm : Bool)
    (h : (NewVoteRecords k S t).Vote blt now = Except.ok (vp, vrs1, adm)) : adm = true := by
  unfold VoteRecords.Vote at h
  split_ifs at h with hr hs
  · simp [NewVoteRecords] at hr
  · simp only [NewVoteRecords, GoMap.get, Except.ok.injEq, Prod.mk.injEq] at h
    exact h.2.2.symm

/-- The test `isLaterThan` against a present latest ballot. -/
theorem Ballot.isLaterThan_some (blt l : Ballot) :
    blt.isLaterThan (some l) = true ↔
      (l.height < blt.height ∨ (l.height = blt.height ∧ l.round < blt.round)) := by
  simp [Ballot.isLaterThan]

/-- What is at most `l` in the order by height and round is not above what is
above `l`. -/
theorem not_later_of_le_of_later (lh bh kh : Int) (lr br kr : Nat)
    (hle : ¬ (lh < kh ∨ (lh = kh ∧ lr < kr))) (hlater : lh < bh ∨ (lh = bh ∧ lr < br)) :
    ¬ (bh < kh ∨ (bh = kh ∧ br < kr)) := by
  omega

/-- A successful vote keeps every key that has records at or below the latest
ballot. -/
theorem Ballotbox.Vote_keysBelowLatest (bb : Ballotbox) (blt : Ballot) (now : Time)
    (vp : VoteproofV0) (bb1 : Ballotbox) (hinv : bb.KeysBelowLatest)
    (h : bb.Vote blt now = Except.ok (vp, bb1)) : bb1.KeysBelowLatest := by
  obtain ⟨vrs, vrs1, adm, hv, hload, hset, hlatest⟩ := Ballotbox.Vote_latest bb blt now vp bb1 h
  intro k vrs2 hget
  rw [hset, GoMap.get_set] at hget
  by_cases hup : (adm && blt.isLaterThan bb.latestBallot) = true
  · rw [if_pos hup] at hlatest
    refine ⟨blt, hlatest, ?_⟩
    by_cases hk : blt.key = k
    · subst hk
      simp [Ballot.key]
    · rw [if_neg hk] at hget
      obtain ⟨l, hl, hle⟩ := hinv k vrs2 hget
      have hlater : blt.isLaterThan (some l) = true := by
        rw [← hl]
        simp only [Bool.and_eq_true] at hup
        exact hup.2
      rw [Ballot.isLaterThan_some] at hlater
      exact not_later_of_le_of_later _ _ _ _ _ _ hle hlater
  · rw [if_neg hup] at hlatest
    by_cases hk : blt.key = k
    · subst hk
      rcases hload with hsome | ⟨-, t, -, hnew⟩
      · obtain ⟨l, hl, hle⟩ := hinv _ _ hsome
        exact ⟨l, by rw [hlatest]; exact hl, hle⟩
      · rw [hnew] at hv
        have hadm := VoteRecords.Vote_new_admitted _ _ _ blt now vp vrs1 adm hv
        rw [hadm, Bool.true_and] at hup
        cases hl : bb.latestBallot with
        | none => simp [hl, Ballot.isLaterThan] at hup
        | some l =>
          refine ⟨l, by rw [hlatest]; exact hl, ?_⟩
          rw [hl, Ballot.isLaterThan_some] at hup
          simpa [Ballot.key] using hup
    · rw [if_neg hk] at hget
      obtain ⟨l, hl, hle⟩ := hinv k vrs2 hget
      exact ⟨l, by rw [hlatest]; exact hl, hle⟩

/-- A successful vote of a ballot later than the latest one makes it the latest. -/
theorem Ballotbox.Vote_later_becomes_latest (bb : Ballotbox) (blt : Ballot) (now : Time)
    (vp : VoteproofV0) (bb1 : Ballotbox) (hinv : bb.KeysBelowLatest)
    (h : bb.Vote blt now = Except.ok (vp, bb1))
    (hlater : blt.isLaterThan bb.latestBallot = true) : bb1.latestBallot = some blt := by
  obtain ⟨vrs, vrs1, adm, hv, hload, hset, hlatest⟩ := Ballotbox.Vote_latest bb blt now vp bb1 h
  have hadm : adm = true := by
    rcases hload with hsome | ⟨-, t, -, hnew⟩
    · exfalso
      obtain ⟨l, hl, hle⟩ := hinv _ _ hsome
      rw [hl, Ballot.isLaterThan_some] at hlater
      simp only [Ballot.key] at hle
      exact hle hlater
    · rw [hnew] at hv
      exact VoteRecords.Vote_new_admitted _ _ _ blt now vp vrs1 adm hv
  rw [hlatest, hadm, hlater]
  rfl

/-- A successful vote of a ballot that is not later than the latest one leaves the
latest ballot as it was. -/
theorem Ballotbox.Vote_not_later_keeps_latest (bb : Ballotbox) (blt : Ballot) (now : Time)
    (vp : VoteproofV0) (bb1 : Ballotbox) (h : bb.Vote blt now = Except.ok (vp, bb1))
    (hnot : blt.isLaterThan bb.latestBallot = false) : bb1.latestBallot = bb.latestBallot := by
  obtain ⟨vrs, vrs1, adm, hv, hload, hset, hlatest⟩ := Ballotbox.Vote_latest bb blt now vp bb1 h
  rw [hlatest, hnot]
  simp

/-- Below `l` and `l` below `b` gives below `b`, in the order by height and round. -/
theorem later_trans (xh lh bh : Int) (xr lr br : Nat)
    (h1 : xh < lh ∨ (xh = lh ∧ xr < lr)) (h2 : lh < bh ∨ (lh = bh ∧ lr < br)) :
    xh < bh ∨ (xh = bh ∧ xr < br) := by
  omega

/-- At most `l` and `l` below `b` gives below `b`, in the order by height and round. -/
theorem later_of_not_later (xh lh bh : Int) (xr lr br : Nat)
    (h1 : ¬ (lh < xh ∨ (lh = xh ∧ lr < xr))) (h2 : lh < bh ∨ (lh = bh ∧ lr < br)) :
    xh < bh ∨ (xh = bh ∧ xr < br) := by
  omega

/-- A successful vote keeps the latest ballot the earliest maximal ballot of the
ballots voted. -/
theorem Ballotbox.Vote_latestIs (bb : Ballotbox) (blt : Ballot) (now : Time)
    (vp : VoteproofV0) (bb1 : Ballotbox) (history : List Ballot)
    (hinv : bb.KeysBelowLatest) (hlatest : bb.LatestIs history)
    (h : bb.Vote blt now = Except.ok (vp, bb1)) : bb1.LatestIs (history ++ [blt]) := by
  cases hlater : blt.isLaterThan bb.latestBallot with
  | true =>
    have hnew := Ballotbox.Vote_later_becomes_latest bb blt now vp bb1 hinv h hlater
    unfold Ballotbox.LatestIs
    rw [hnew]
    refine ⟨history, [], rfl, ?_, ?_⟩
    · intro b hb
      unfold Ballotbox.LatestIs at hlatest
      cases hl : bb.latestBallot with
      | none =>
        rw [hl] at hlatest
        rw [hlatest] at hb
        cases hb
      | some l =>
        rw [hl] at hlatest hlater
        obtain ⟨pre, post, hhist, hpre, hpost⟩ := hlatest
        rw [Ballot.isLaterThan_some] at hlater ⊢
        rw [hhist] at hb
        rcases List.mem_append.1 hb with hp | hp
        · have := (Ballot.isLaterThan_some l b).1 (hpre b hp)
          exact later_trans _ _ _ _ _ _ this hlater
        · rcases List.mem_cons.1 hp with heq | hq
          · rw [heq]
            exact hlater
          · have hnl : ¬ (b.isLaterThan (some l) = true) := by
              rw [hpost b hq]
              simp
            rw [Ballot.isLaterThan_some] at hnl
            exact later_of_not_later _ _ _ _ _ _ hnl hlater
    · intro b hb
      cases hb
  | false =>
    have hsame := Ballotbox.Vote_not_later_keeps_latest bb blt now vp bb1 h hlater
    unfold Ballotbox.LatestIs at hlatest ⊢
    rw [hsame]
    cases hl : bb.latestBallot with
    | none => simp [hl, Ballot.isLaterThan] at hlater
    | some l =>
      rw [hl] at hlatest hlater
      obtain ⟨pre, post, hhist, hpre, hpost⟩ := hlatest
      refine ⟨pre, post ++ [blt], by rw [hhist]; simp, hpre, ?_⟩
      intro b hb
      rcases List.mem_append.1 hb with hp | hp
      · exact hpost b hp
      · rw [List.mem_singleton] at hp
        rw [hp]
        exact hlater

/-- Any sequence of votes keeps the keys below the latest ballot, and the latest
ballot the earliest maximal ballot of the ballots voted. -/
theorem Ballotbox.voteAll_latestIs (calls : List (Ballot × Time)) (bb : Ballotbox)
    (history : List Ballot) (hinv : bb.KeysBelowLatest) (hlatest : bb.LatestIs history) :
    (bb.voteAll calls).2.KeysBelowLatest ∧
      (bb.voteAll calls).2.LatestIs (history ++ successfulBallots (bb.voteAll calls).1) := by
  induction calls generalizing bb history with
  | nil => simpa [Ballotbox.voteAll, successfulBallots] using ⟨hinv, hlatest⟩
  | cons c rest ih =>
    obtain ⟨blt, now⟩ := c
    unfold Ballotbox.voteAll
    cases hvote : bb.Vote blt now with
    | error err =>
      simp only [successfulBallots]
      exact ih bb history hinv hlatest
    | ok res =>
      obtain ⟨vp, bb1⟩ := res
      simp only [successfulBallots]
      have h1 := Ballotbox.Vote_keysBelowLatest bb blt now vp bb1 hinv hvote
      have h2 := Ballotbox.Vote_latestIs bb blt now vp bb1 history hinv hlatest hvote
      have := ih bb1 (history ++ [blt]) h1 h2
      simpa using this

/-- C17: after any sequence of `Vote` calls on a fresh ballotbox, `LatestBallot()` is
the earliest of the successfully voted ballots whose height and round are maximal (and
nil when no ballot was voted); a further successful vote of a ballot whose height and
round are not strictly greater than those of the latest ballot leaves `LatestBallot()`
as it was, and one that is strictly greater becomes the latest. -/
theorem LatestBallot_is_earliest_maximal (suffrages : List Address)
    (threshold : Option Threshold) (calls : List (Ballot × Time)) :
    let run := (NewBallotbox suffrages threshold).voteAll calls
    (run.2.LatestBallot = none → successfulBallots run.1 = []) ∧
    (∀ l, run.2.LatestBallot = some l → EarliestMaximal (successfulBallots run.1) l) ∧
    (∀ blt now vp bb1, run.2.Vote blt now = Except.ok (vp, bb1) →
      (blt.isLaterThan run.2.LatestBallot = false → bb1.LatestBallot = run.2.LatestBallot) ∧
      (blt.isLaterThan run.2.LatestBallot = true → bb1.LatestBallot = some blt)) := by
  intro run
  have hinv0 : (NewBallotbox suffrages threshold).KeysBelowLatest := by
    intro k vrs h
    simp [NewBallotbox, GoMap.get] at h
  have hlatest0 : (NewBallotbox suffrages threshold).LatestIs [] := by
    simp [Ballotbox.LatestIs, NewBallotbox]
  obtain ⟨hinv, hlatest⟩ := Ballotbox.voteAll_latestIs calls _ [] hinv0 hlatest0
  simp only [List.nil_append] at hlatest
  refine ⟨?_, ?_, ?_⟩
  · intro hnone
    unfold Ballotbox.LatestIs at hlatest
    unfold Ballotbox.LatestBallot at hnone
    rw [hnone] at hlatest
    exact hlatest
  · intro l hl
    unfold Ballotbox.LatestIs at hlatest
    unfold Ballotbox.LatestBallot at hl
    rw [hl] at hlatest
    exact hlatest
  · intro blt now vp bb1 hvote
    exact ⟨Ballotbox.Vote_not_later_keeps_latest _ blt now vp bb1 hvote,
      Ballotbox.Vote_later_becomes_latest _ blt now vp bb1 hinv hvote⟩

/-- Witness of C17: the ballots (10,0), (10,1), (11,0), (10,1) of one node: the latest
ballot is the one at (11,0), the third of the four. -/
theorem LatestBallot_is_earliest_maximal_witness :
    ((NewBallotbox [1] (some (NewThreshold 3 66))).voteAll
        [(sampleINITBallot 1 10 0 5, 1), (sampleINITBallot 1 10 1 6, 2),
          (sampleINITBallot 1 11 0 7, 3), (sampleINITBallot 1 10 1 8, 4)]).2.LatestBallot =
      some (sampleINITBallot 1 11 0 7) ∧
    EarliestMaximal
      (successfulBallots ((NewBallotbox [1] (some (NewThreshold 3 66))).voteAll
        [(sampleINITBallot 1 10 0 5, 1), (sampleINITBallot 1 10 1 6, 2),
          (sampleINITBallot 1 11 0 7, 3), (sampleINITBallot 1 10 1 8, 4)]).1)
      (sampleINITBallot 1 11 0 7) :=
  ⟨by decide,
   (LatestBallot_is_earliest_maximal [1] (some (NewThreshold 3 66))
      [(sampleINITBallot 1 10 0 5, 1), (sampleINITBallot 1 10 1 6, 2),
        (sampleINITBallot 1 11 0 7, 3), (sampleINITBallot 1 10 1 8, 4)]).2.1
      (sampleINITBallot 1 11 0 7) (by decide)⟩

/-! ### The Booting state -/

/-- C18, counterexample: with no blocks found (`NotFound`) and one syncable channel,
`Enter` does not select Syncing when the database cannot be cleaned: it returns the
error of the cleaning. -/
theorem Enter_no_blocks_fails_when_clean_fails :
    sampleBootingCleanFails.checkBlock = some Error.NotFoundError ∧
    1 ≤ sampleBootingCleanFails.syncableChannels ∧
    (BootingState.Enter sampleBootingCleanFails).1 =
      Except.error (Error.Errorf (Msg.other 1)) ∧
    ¬ ∃ f, (BootingState.Enter sampleBootingCleanFails).1 = Except.ok f := by
  refine ⟨rfl, by decide, rfl, ?_⟩
  rintro ⟨f, hf⟩
  have h : (BootingState.Enter sampleBootingCleanFails).1 =
      Except.error (Error.Errorf (Msg.other 1)) := rfl
  rw [h] at hf
  cases hf

/-- C18, amended: once `BaseState.Enter` has succeeded with a callback, `Enter` selects
Joining when the block check succeeds and the local address is inside the suffrage;
Syncing when the block check succeeds and the local address is outside; Syncing when
no blocks are found (`NotFound`), the database and the block data are cleaned without
error and there is a syncable channel; and it returns an error, selecting no state,
when no blocks are found and the cleaning fails or there is no syncable channel, and
when the block check fails with an error other than `NotFound`. -/
theorem Enter_selects_next_state (env : BootingEnv) (i : Option (Option Error))
    (hbase : env.baseEnter = Except.ok i) :
    let callback : SwitchCallback := BootingState.callbackOf i
    (env.checkBlock = none → env.isInside = true →
      (BootingState.Enter env).1 = Except.ok { callback := callback, next := State.Joining }) ∧
    (env.checkBlock = none → env.isInside = false →
      (BootingState.Enter env).1 = Except.ok { callback := callback, next := State.Syncing }) ∧
    (∀ err, env.checkBlock = some err → err.isNotFound = true →
      (blockdataClean env).1 = none → 1 ≤ env.syncableChannels →
      (BootingState.Enter env).1 = Except.ok { callback := callback, next := State.Syncing }) ∧
    (∀ err, env.checkBlock = some err → err.isNotFound = true →
      (blockdataClean env).1 = none → env.syncableChannels = 0 →
      (BootingState.Enter env).1 = Except.error (Error.Errorf Msg.emptyBlocksNoChannels)) ∧
    (∀ err err1, env.checkBlock = some err → err.isNotFound = true →
      (blockdataClean env).1 = some err1 →
      (BootingState.Enter env).1 = Except.error err1) ∧
    (∀ err, env.checkBlock = some err → err.isNotFound = false →
      (BootingState.Enter env).1 = Except.error err) := by
  intro callback
  refine ⟨?_, ?_, ?_, ?_, ?_, ?_⟩
  · intro hc hin
    simp [BootingState.Enter, hbase, hc, hin, callback]
  · intro hc hin
    simp [BootingState.Enter, hbase, hc, hin, callback]
  · intro err hc hnf hclean hch
    have hnot : ¬ env.syncableChannels < 1 := by omega
    cases hcl : blockdataClean env with
    | mk e effects =>
      rw [hcl] at hclean
      simp only at hclean
      subst hclean
      simp [BootingState.Enter, hbase, hc, hnf, hcl, BootingState.enterSyncing, hnot, callback]
  · intro err hc hnf hclean hch
    cases hcl : blockdataClean env with
    | mk e effects =>
      rw [hcl] at hclean
      simp only at hclean
      subst hclean
      simp [BootingState.Enter, hbase, hc, hnf, hcl, BootingState.enterSyncing, hch]
  · intro err err1 hc hnf hclean
    cases hcl : blockdataClean env with
    | mk e effects =>
      rw [hcl] at hclean
      simp only at hclean
      subst hclean
      simp [BootingState.Enter, hbase, hc, hnf, hcl]
  · intro err hc hnf
    simp [BootingState.Enter, hbase, hc, hnf]

/-- Witness of the amended C18: with no blocks found, a clean database and block data
and one syncable channel, `Enter` selects Syncing, and the function it returns
requests Syncing when it is run. -/
theorem Enter_selects_next_state_witness :
    (BootingState.Enter sampleBootingNoBlocks).1 =
      Except.ok { callback := SwitchCallback.EmptySwitchFunc, next := State.Syncing } ∧
    SwitchFunc.run none (fun _ => none)
        { callback := SwitchCallback.EmptySwitchFunc, next := State.Syncing } =
      (none, some State.Syncing) :=
  ⟨(Enter_selects_next_state sampleBootingNoBlocks none rfl).2.2.1 Error.NotFoundError rfl rfl
      rfl (by decide), rfl⟩

/-! ### The ACCEPT ballot -/

/-- A sequence of two steps returns only when both steps return. -/
theorem Run.bind_eq_ret {α β : Type} (r : Run α) (f : α → Run β) (y : β)
    (h : r.bind f = Run.ret y) : ∃ x, r = Run.ret x ∧ f x = Run.ret y := by
  cases r with
  | ret x => exact ⟨x, rfl, h⟩
  | nilDereference => simp [Run.bind] at h
  | indexOutOfRange => simp [Run.bind] at h

/-- The bytes of a fact exist only when neither hash is nil, and are the concatenation
of the three parts. -/
theorem factBytes_eq_ret (env : SignEnv) (abf : ACCEPTBallotFactV0) (e : Bytes)
    (h : abf.Bytes env = Run.ret e) :
    ∃ p n, abf.proposal = some p ∧ abf.newBlock = some n ∧
      e = env.baseFactBytes abf.base ++ env.hashBytes p ++ env.hashBytes n := by
  unfold ACCEPTBallotFactV0.Bytes at h
  obtain ⟨pb, hp, h⟩ := Run.bind_eq_ret _ _ _ h
  obtain ⟨nb, hn, h⟩ := Run.bind_eq_ret _ _ _ h
  cases hpp : abf.proposal with
  | none => rw [hpp] at hp; simp [hashBytesOf] at hp
  | some p =>
    cases hnn : abf.newBlock with
    | none => rw [hnn] at hn; simp [hashBytesOf] at hn
    | some n =>
      rw [hpp] at hp
      rw [hnn] at hn
      simp only [hashBytesOf, Run.ret.injEq] at hp hn
      simp only [Run.ret.injEq] at h
      exact ⟨p, n, rfl, rfl, by rw [← h, hp, hn]⟩

/-- The bytes of a voteproof interface exist only when it is not nil. -/
theorem voteproofBytesOf_eq_ret (v : Option VoteproofV0) (e : Bytes)
    (h : voteproofBytesOf v = Run.ret e) : ∃ vp, v = some vp ∧ e = vp.Bytes := by
  cases v with
  | none => simp [voteproofBytesOf] at h
  | some vp =>
    simp only [voteproofBytesOf, Run.ret.injEq] at h
    exact ⟨vp, rfl, h.symm⟩

/-- The ballot that a successful `Sign` leaves behind, field by field. -/
theorem Sign_success (env : SignEnv) (ab ab1 : ACCEPTBallotV0) (pk : Nat)
    (b : NetworkID) (hs : ab.Sign env pk b = Run.ret (none, ab1)) :
    ∃ p n vp sig factSig,
      ab.fact.proposal = some p ∧ ab.fact.newBlock = some n ∧ ab.voteproof = some vp ∧
      env.Sign pk (env.hashBytes (env.NewSHA256
        (env.baseFactBytes ab.fact.base ++ env.hashBytes p ++ env.hashBytes n
          ++ vp.Bytes ++ b)) ++ b) = Except.ok sig ∧
      env.Sign pk (env.hashBytes (env.NewSHA256
        (env.baseFactBytes ab.fact.base ++ env.hashBytes p ++ env.hashBytes n)) ++ b)
        = Except.ok factSig ∧
      ab1.bodyHash = some (env.NewSHA256
        (env.baseFactBytes ab.fact.base ++ env.hashBytes p ++ env.hashBytes n
          ++ vp.Bytes ++ b)) ∧
      ab1.factHash = some (env.NewSHA256
        (env.baseFactBytes ab.fact.base ++ env.hashBytes p ++ env.hashBytes n)) ∧
      ab1.base.signature = some sig ∧ ab1.factSignature = some factSig ∧
      ab1.base.signer = some (env.Publickey pk) ∧ ab1.base.signedAt = env.Now ∧
      ab1.fact = ab.fact ∧ ab1.base.node = ab.base.node ∧ ab1.voteproof = ab.voteproof := by
  unfold ACCEPTBallotV0.Sign at hs
  cases hr : env.IsReadyToSign ab.base b with
  | some err => rw [hr] at hs; simp at hs
  | none =>
    rw [hr] at hs
    simp only at hs
    obtain ⟨r, hg, hs⟩ := Run.bind_eq_ret _ _ _ hs
    cases r with
    | error err => simp at hs
    | ok bodyHash =>
      simp only at hs
      unfold ACCEPTBallotV0.GenerateBodyHash at hg
      cases hv : ab.fact.IsValid env b with
      | some err => rw [hv] at hg; simp at hg
      | none =>
        rw [hv] at hg
        simp only at hg
        obtain ⟨f, hf, hg⟩ := Run.bind_eq_ret _ _ _ hg
        obtain ⟨v, hvb, hg⟩ := Run.bind_eq_ret _ _ _ hg
        obtain ⟨p, n, hp, hn, hfe⟩ := factBytes_eq_ret env _ _ hf
        obtain ⟨vp, hvp, hve⟩ := voteproofBytesOf_eq_ret _ _ hvb
        simp only [Run.ret.injEq, Except.ok.injEq] at hg
        cases hsig : env.Sign pk (env.hashBytes bodyHash ++ b) with
        | error err => rw [hsig] at hs; simp at hs
        | ok sig =>
          rw [hsig] at hs
          simp only at hs
          obtain ⟨factHash, hfh, hs⟩ := Run.bind_eq_ret _ _ _ hs
          unfold ACCEPTBallotFactV0.Hash at hfh
          rw [hf] at hfh
          simp only [Run.bind, Run.ret.injEq] at hfh
          cases hfs : env.Sign pk (env.hashBytes factHash ++ b) with
          | error err => rw [hfs] at hs; simp at hs
          | ok factSig =>
            rw [hfs] at hs
            simp only at hs
            obtain ⟨g, _, hs⟩ := Run.bind_eq_ret _ _ _ hs
            cases g with
            | error err => simp at hs
            | ok h =>
              simp only [Run.ret.injEq, Prod.mk.injEq, true_and] at hs
              subst hs
              subst hfe
              subst hve
              subst hg
              subst hfh
              exact ⟨p, n, vp, sig, factSig, hp, hn, hvp, hsig, hfs, rfl, rfl, rfl, rfl, rfl,
                rfl, rfl, rfl, rfl⟩

/-- C19: when `Sign` succeeds on an ACCEPT ballot whose reference voteproof is not nil,
with the private key `pk` and the network id `b`, then with
`fact.Bytes() = base.Bytes() ++ proposal.Bytes() ++ newBlock.Bytes()` the body hash is
`SHA256(fact.Bytes() ++ voteproof.Bytes() ++ b)`, the signature is
`pk.Sign(bodyHash.Bytes() ++ b)`, the fact hash is `SHA256(fact.Bytes())`, the fact
signature is `pk.Sign(factHash.Bytes() ++ b)`, the signer is `pk.Publickey()`, and the
fact (height, round, proposal, new block), the node address and the voteproof are
unchanged. -/
theorem Sign_fixes_hashes_and_signatures (env : SignEnv) (ab ab1 : ACCEPTBallotV0) (pk : Nat)
    (b : NetworkID) (vp : VoteproofV0) (hvp : ab.voteproof = some vp)
    (hs : ab.Sign env pk b = Run.ret (none, ab1)) :
    ∃ p n factBytes bodyHash factHash sig factSig,
      ab.fact.proposal = some p ∧ ab.fact.newBlock = some n ∧
      ab.fact.Bytes env = Run.ret factBytes ∧
      factBytes = env.baseFactBytes ab.fact.base ++ env.hashBytes p ++ env.hashBytes n ∧
      bodyHash = env.NewSHA256 (factBytes ++ vp.Bytes ++ b) ∧
      ab1.bodyHash = some bodyHash ∧
      env.Sign pk (env.hashBytes bodyHash ++ b) = Except.ok sig ∧
      ab1.base.signature = some sig ∧
      factHash = env.NewSHA256 factBytes ∧
      ab1.factHash = some factHash ∧
      env.Sign pk (env.hashBytes factHash ++ b) = Except.ok factSig ∧
      ab1.factSignature = some factSig ∧
      ab1.base.signer = some (env.Publickey pk) ∧
      ab1.fact.base.height = ab.fact.base.height ∧ ab1.fact.base.round = ab.fact.base.round ∧
      ab1.fact.proposal = ab.fact.proposal ∧ ab1.fact.newBlock = ab.fact.newBlock ∧
      ab1.base.node = ab.base.node ∧ ab1.voteproof = some vp := by
  obtain ⟨p, n, vp1, sig, factSig, hp, hn, hvp1, hsig, hfs, hbh, hfh, hsg, hfsg, hsr, _, hf,
    hnode, hv⟩ := Sign_success env ab ab1 pk b hs
  have hvv : vp1 = vp := by
    rw [hvp1] at hvp
    exact Option.some.inj hvp
  subst hvv
  refine ⟨p, n, _, _, _, sig, factSig, hp, hn, ?_, rfl, rfl, hbh, hsig, hsg, rfl, hfh, hfs,
    hfsg, hsr, by rw [hf], by rw [hf], by rw [hf], by rw [hf], hnode, by rw [hv, hvp1]⟩
  simp [ACCEPTBallotFactV0.Bytes, hashBytesOf, Run.bind, hp, hn]

/-- Witness of C19: the sample ballot, signed with the key 7 for the network id `[9]`.
The fact bytes are `[3, 0, 11, 12]`, the body hash is 40 and the fact hash is 30. -/
theorem Sign_fixes_hashes_and_signatures_witness :
    sampleUnsignedACCEPT.Sign sampleSignEnv 7 [9] = Run.ret (none, sampleSignedACCEPT) ∧
    sampleSignedACCEPT.bodyHash = some 40 ∧
    sampleSignedACCEPT.base.signature = some [7, 40, 9] ∧
    sampleSignedACCEPT.factHash = some 30 ∧
    sampleSignedACCEPT.factSignature = some [7, 30, 9] ∧
    sampleSignedACCEPT.base.signer = some 107 ∧
    (∃ p n factBytes bodyHash factHash sig factSig,
      sampleUnsignedACCEPT.fact.proposal = some p ∧
      sampleUnsignedACCEPT.fact.newBlock = some n ∧
      sampleUnsignedACCEPT.fact.Bytes sampleSignEnv = Run.ret factBytes ∧
      factBytes = sampleSignEnv.baseFactBytes sampleUnsignedACCEPT.fact.base
        ++ sampleSignEnv.hashBytes p ++ sampleSignEnv.hashBytes n ∧
      bodyHash = sampleSignEnv.NewSHA256
        (factBytes ++ (sampleVoteproof 3 0 Stage.INIT none).Bytes ++ [9]) ∧
      sampleSignedACCEPT.bodyHash = some bodyHash ∧
      sampleSignEnv.Sign 7 (sampleSignEnv.hashBytes bodyHash ++ [9]) = Except.ok sig ∧
      sampleSignedACCEPT.base.signature = some sig ∧
      factHash = sampleSignEnv.NewSHA256 factBytes ∧
      sampleSignedACCEPT.factHash = some factHash ∧
      sampleSignEnv.Sign 7 (sampleSignEnv.hashBytes factHash ++ [9]) = Except.ok factSig ∧
      sampleSignedACCEPT.factSignature = some factSig ∧
      sampleSignedACCEPT.base.signer = some (sampleSignEnv.Publickey 7) ∧
      sampleSignedACCEPT.fact.base.height = sampleUnsignedACCEPT.fact.base.height ∧
      sampleSignedACCEPT.fact.base.round = sampleUnsignedACCEPT.fact.base.round ∧
      sampleSignedACCEPT.fact.proposal = sampleUnsignedACCEPT.fact.proposal ∧
      sampleSignedACCEPT.fact.newBlock = sampleUnsignedACCEPT.fact.newBlock ∧
      sampleSignedACCEPT.base.node = sampleUnsignedACCEPT.base.node ∧
      sampleSignedACCEPT.voteproof = some (sampleVoteproof 3 0 Stage.INIT none)) :=
  ⟨rfl, rfl, rfl, rfl, rfl, rfl,
    Sign_fixes_hashes_and_signatures sampleSignEnv sampleUnsignedACCEPT sampleSignedACCEPT 7 [9]
      (sampleVoteproof 3 0 Stage.INIT none) rfl rfl⟩

/-- An addition of `int64` that stays below `2 ^ 63` is the addition of integers. -/
theorem wrapInt64_succ (h : Int) (hlo : -2 ^ 63 ≤ h) (hhi : h + 1 < 2 ^ 63) :
    wrapInt64 (h + 1) = h + 1 := by
  unfold wrapInt64
  omega

/-- C20: with a last block `L`, when signing the ballot succeeds,
`NewACCEPTBallotV0FromLocalstate` returns that ballot without error, and the ballot has
stage ACCEPT, height `L.Height() + 1` (in `int64`, which is the sum of the integers when
that is below `2 ^ 63`), the given round, the proposal and the hash of the processed
block as proposal and new block, the local address as node and the last INIT voteproof
as reference voteproof; with no last block it returns the zero ballot and an error. -/
theorem NewACCEPTBallotV0FromLocalstate_builds_next_height (env : SignEnv)
    (localstate : Localstate) (round : Round) (newBlock : Block) (b : NetworkID) :
    (∀ L ab, localstate.lastBlock = some L →
      (unsignedACCEPTBallot localstate L round newBlock).Sign env localstate.privatekey b
        = Run.ret (none, ab) →
      NewACCEPTBallotV0FromLocalstate env localstate round newBlock b = Run.ret (ab, none) ∧
      ab.Stage = Stage.ACCEPT ∧
      ab.fact.base.height = wrapInt64 (L.height + 1) ∧
      (-2 ^ 63 ≤ L.height → L.height + 1 < 2 ^ 63 → ab.fact.base.height = L.height + 1) ∧
      ab.fact.base.round = round ∧
      ab.fact.proposal = newBlock.proposal ∧
      ab.fact.newBlock = newBlock.hash ∧
      ab.base.node = localstate.address ∧
      ab.voteproof = localstate.lastINITVoteproof) ∧
    (localstate.lastBlock = none →
      NewACCEPTBallotV0FromLocalstate env localstate round newBlock b
        = Run.ret (ACCEPTBallotV0.zero, some (Error.Errorf Msg.lastBlockIsEmpty))) := by
  constructor
  · intro L ab hL hs
    obtain ⟨_, _, _, _, _, _, _, _, _, _, _, _, _, _, _, _, hf, hnode, hv⟩ :=
      Sign_success env _ ab localstate.privatekey b hs
    have hh : ab.fact.base.height = wrapInt64 (L.height + 1) := by rw [hf]; rfl
    refine ⟨?_, rfl, hh, ?_, by rw [hf]; rfl, by rw [hf]; rfl, by rw [hf]; rfl,
      by rw [hnode]; rfl, by rw [hv]; rfl⟩
    · simp [NewACCEPTBallotV0FromLocalstate, hL, hs, Run.bind]
    · intro hlo hhi
      rw [hh]
      exact wrapInt64_succ _ hlo hhi
  · intro hL
    simp [NewACCEPTBallotV0FromLocalstate, hL]

/-- Witness of C20: the sample local state has a last block of height 2; the ballot
returned for round 0 and the processed block has height 3, and it is the signed sample
ballot. -/
theorem NewACCEPTBallotV0FromLocalstate_builds_next_height_witness :
    NewACCEPTBallotV0FromLocalstate sampleSignEnv sampleLocalstate 0 sampleNewBlock [9]
      = Run.ret (sampleSignedACCEPT, none) ∧
    sampleSignedACCEPT.Stage = Stage.ACCEPT ∧
    sampleSignedACCEPT.fact.base.height = 3 ∧
    sampleSignedACCEPT.fact.base.round = 0 ∧
    sampleSignedACCEPT.fact.proposal = some 11 ∧
    sampleSignedACCEPT.fact.newBlock = some 12 ∧
    sampleSignedACCEPT.base.node = some 1 ∧
    sampleSignedACCEPT.voteproof = some (sampleVoteproof 3 0 Stage.INIT none) :=
  have h := (NewACCEPTBallotV0FromLocalstate_builds_next_height sampleSignEnv sampleLocalstate 0
    sampleNewBlock [9]).1 { hash := some 7, height := 2, proposal := some 6 }
    sampleSignedACCEPT rfl rfl
  ⟨h.1, h.2.1, h.2.2.2.1 (by decide) (by decide), h.2.2.2.2.1, h.2.2.2.2.2.1,
    h.2.2.2.2.2.2.1, h.2.2.2.2.2.2.2.1, h.2.2.2.2.2.2.2.2⟩

/-! ### The network policy -/

/-- The search for a negative duration finds none exactly when every duration of the
list is at least zero. -/
theorem firstError_tooNarrow_eq_none (l : List (String × Duration)) :
    firstError l (fun kd => if kd.2 < 0 then some (PolicyError.tooNarrow kd.1 kd.2) else none)
      = none ↔ ∀ kd ∈ l, 0 ≤ kd.2 := by
  induction l with
  | nil => simp [firstError]
  | cons a rest ih =>
    unfold firstError at ih ⊢
    by_cases ha : a.2 < 0
    · simp [List.findSome?, ha]
    · simp only [List.findSome?, ha, if_false, List.mem_cons, forall_eq_or_imp]
      rw [ih]
      constructor
      · intro h
        exact ⟨not_lt.mp ha, h⟩
      · intro h
        exact h.2

/-- When the durations are visited in any order, `IsValid` returns nil exactly when the
seven durations are at least zero, there is at least one acting suffrage node and the
threshold ratio lies in `(0, 100]`. -/
theorem IsValid_policy_none_iff (enum : List (String × Duration) → List (String × Duration))
    (henum : ∀ l, (enum l).Perm l) (po : PolicyOperationBodyV0) :
    po.IsValid enum = none ↔
      (0 ≤ po.timeoutWaitingProposal ∧ 0 ≤ po.intervalBroadcastingINITBallot ∧
        0 ≤ po.intervalBroadcastingProposal ∧ 0 ≤ po.waitBroadcastingACCEPTBallot ∧
        0 ≤ po.intervalBroadcastingACCEPTBallot ∧ 0 ≤ po.timespanValidBallot ∧
        0 ≤ po.timeoutProcessProposal) ∧
      1 ≤ po.numberOfActingSuffrageNodes ∧
      (0 < po.thresholdRatio ∧ po.thresholdRatio ≤ 100) := by
  have hall : (∀ kd ∈ enum po.durations, 0 ≤ kd.2) ↔
      (0 ≤ po.timeoutWaitingProposal ∧ 0 ≤ po.intervalBroadcastingINITBallot ∧
        0 ≤ po.intervalBroadcastingProposal ∧ 0 ≤ po.waitBroadcastingACCEPTBallot ∧
        0 ≤ po.intervalBroadcastingACCEPTBallot ∧ 0 ≤ po.timespanValidBallot ∧
        0 ≤ po.timeoutProcessProposal) := by
    have hmem : ∀ kd, kd ∈ enum po.durations ↔ kd ∈ po.durations :=
      fun kd => (henum po.durations).mem_iff
    simp only [hmem]
    simp [PolicyOperationBodyV0.durations]
  unfold PolicyOperationBodyV0.IsValid
  cases hf : firstError (enum po.durations)
      (fun kd => if kd.2 < 0 then some (PolicyError.tooNarrow kd.1 kd.2) else none) with
  | some err =>
    have hne : ¬ (∀ kd ∈ enum po.durations, 0 ≤ kd.2) := by
      rw [← firstError_tooNarrow_eq_none, hf]
      simp
    rw [hall] at hne
    constructor
    · intro h
      cases h
    · intro h
      exact absurd h.1 hne
  | none =>
    have hd := (firstError_tooNarrow_eq_none _).mp hf
    rw [hall] at hd
    by_cases hn : po.numberOfActingSuffrageNodes < 1
    · simp only [hn, if_true]
      constructor
      · intro h
        cases h
      · intro h
        omega
    · simp only [hn, if_false, ThresholdRatio.IsValid]
      by_cases hr : 0 < po.thresholdRatio ∧ po.thresholdRatio ≤ 100
      · rw [if_pos hr]
        exact ⟨fun _ => ⟨hd, by omega, hr⟩, fun _ => rfl⟩
      · rw [if_neg hr]
        constructor
        · intro h
          cases h
        · intro h
          exact absurd h.2.2 hr

/-- C21: in whatever order the seven durations are examined, `IsValid` returns nil if
and only if each of the seven durations is at least zero, the number of acting suffrage
nodes is at least one and the threshold ratio lies in `(0, 100]`; hence for two orders
of examination it fails for the one exactly when it fails for the other. -/
theorem IsValid_policy_nil_iff_in_any_order
    (enum1 enum2 : List (String × Duration) → List (String × Duration))
    (h1 : ∀ l, (enum1 l).Perm l) (h2 : ∀ l, (enum2 l).Perm l) (po : PolicyOperationBodyV0) :
    (po.IsValid enum1 = none ↔
      (0 ≤ po.timeoutWaitingProposal ∧ 0 ≤ po.intervalBroadcastingINITBallot ∧
        0 ≤ po.intervalBroadcastingProposal ∧ 0 ≤ po.waitBroadcastingACCEPTBallot ∧
        0 ≤ po.intervalBroadcastingACCEPTBallot ∧ 0 ≤ po.timespanValidBallot ∧
        0 ≤ po.timeoutProcessProposal) ∧
      1 ≤ po.numberOfActingSuffrageNodes ∧
      (0 < po.thresholdRatio ∧ po.thresholdRatio ≤ 100)) ∧
    (po.IsValid enum1 = none ↔ po.IsValid enum2 = none) :=
  ⟨IsValid_policy_none_iff enum1 h1 po,
    (IsValid_policy_none_iff enum1 h1 po).trans (IsValid_policy_none_iff enum2 h2 po).symm⟩

/-- Witness of C21: a policy whose first and last durations are negative, examined in
the order of the literal and in the reverse order: the errors name different durations,
and both examinations fail. -/
theorem IsValid_policy_nil_iff_in_any_order_witness :
    sampleNarrowPolicy.IsValid id = some (PolicyError.tooNarrow "TimeoutWaitingProposal" (-1)) ∧
    sampleNarrowPolicy.IsValid List.reverse =
      some (PolicyError.tooNarrow "TimeoutProcessProposal" (-2)) ∧
    (sampleNarrowPolicy.IsValid id = none ↔ sampleNarrowPolicy.IsValid List.reverse = none) :=
  ⟨rfl, rfl,
    (IsValid_policy_nil_iff_in_any_order id List.reverse (fun _ => List.Perm.refl _)
      (fun l => List.reverse_perm l) sampleNarrowPolicy).2⟩

/-- C22: the default policy waits 5 seconds for a proposal, broadcasts INIT ballots and
proposals every second, waits 2 seconds before an ACCEPT ballot and broadcasts it every
second, accepts ballots within 60 seconds and processes a proposal within 30 seconds (a
second being 1000000000 nanoseconds); its threshold ratio is 100 and it has one acting
suffrage node. -/
theorem DefaultPolicy_values :
    DefaultPolicy.timeoutWaitingProposal = 5 * 1000000000 ∧
    DefaultPolicy.intervalBroadcastingINITBallot = 1 * 1000000000 ∧
    DefaultPolicy.intervalBroadcastingProposal = 1 * 1000000000 ∧
    DefaultPolicy.waitBroadcastingACCEPTBallot = 2 * 1000000000 ∧
    DefaultPolicy.intervalBroadcastingACCEPTBallot = 1 * 1000000000 ∧
    DefaultPolicy.timespanValidBallot = 60 * 1000000000 ∧
    DefaultPolicy.timeoutProcessProposal = 30 * 1000000000 ∧
    DefaultPolicy.thresholdRatio = 100 ∧
    DefaultPolicy.numberOfActingSuffrageNodes = 1 := by
  refine ⟨?_, ?_, ?_, ?_, ?_, ?_, ?_, rfl, rfl⟩ <;>
    simp [DefaultPolicy, Second, Minute]

/-! ### The fixed suffrage -/

/-- The keys of the map built by `NewFixedSuffrage` are the addresses of the nodes. -/
theorem foldl_set_nodes_keys (nodes : List Node) (acc : List (Address × Node)) (x : Address) :
    x ∈ GoMap.keys (nodes.foldl (fun ns n => GoMap.set ns n.address n) acc) ↔
      x ∈ GoMap.keys acc ∨ ∃ n ∈ nodes, n.address = x := by
  induction nodes generalizing acc with
  | nil => simp
  | cons n rest ih =>
    simp only [List.foldl_cons]
    rw [ih, GoMap.mem_keys_set]
    constructor
    · rintro ((hx | hx) | ⟨m, hm, hx⟩)
      · exact Or.inr ⟨n, List.mem_cons_self _ _, hx.symm⟩
      · exact Or.inl hx
      · exact Or.inr ⟨m, List.mem_cons_of_mem _ hm, hx⟩
    · rintro (hx | ⟨m, hm, hx⟩)
      · exact Or.inl (Or.inr hx)
      · rcases List.mem_cons.1 hm with heq | hmem
        · subst heq
          exact Or.inl (Or.inl hx.symm)
        · exact Or.inr ⟨m, hmem, hx⟩

/-- C24, counterexample: in the fixed suffrage made of the proposer 9 and the nodes 1
and 2, the address 9 is the proposer and is not acting. -/
theorem IsProposer_outside_nodes_not_acting :
    sampleOutsideProposer.IsProposer 0 0 9 = Run.ret true ∧
    sampleOutsideProposer.IsActing 0 0 9 = false :=
  ⟨rfl, rfl⟩

/-- C24, amended: for every fixed suffrage made by `NewFixedSuffrage` from a proposer
that is one of the given nodes (by address), every height, round and address: an
address that `IsProposer` accepts is accepted by `IsActing`; and `IsProposer` returns
for every address. -/
theorem IsProposer_implies_IsActing (p : Node) (nodes : List Node)
    (hp : ∃ n ∈ nodes, n.address = p.address) (height : Int) (round : Round) (a : Address) :
    (∃ r, (NewFixedSuffrage (some p) nodes).IsProposer height round a = Run.ret r) ∧
    ((NewFixedSuffrage (some p) nodes).IsProposer height round a = Run.ret true →
      (NewFixedSuffrage (some p) nodes).IsActing height round a = true) := by
  refine ⟨⟨decide (p.address = a), rfl⟩, ?_⟩
  intro h
  simp only [FixedSuffrage.IsProposer, NewFixedSuffrage, Run.ret.injEq, decide_eq_true_eq] at h
  subst h
  have hk : p.address ∈ GoMap.keys (nodes.foldl (fun ns n => GoMap.set ns n.address n) []) :=
    (foldl_set_nodes_keys nodes [] p.address).2 (Or.inr hp)
  obtain ⟨v, hv⟩ := GoMap.exists_get_of_mem_keys _ _ hk
  simp [FixedSuffrage.IsActing, NewFixedSuffrage, hv]

/-- Witness of the amended C24: the proposer 2 among the nodes 1 and 2. -/
theorem IsProposer_implies_IsActing_witness :
    (NewFixedSuffrage (some { address := 2, publickey := 2 })
      [{ address := 1, publickey := 1 }, { address := 2, publickey := 2 }]).IsProposer 5 1 2
        = Run.ret true ∧
    (NewFixedSuffrage (some { address := 2, publickey := 2 })
      [{ address := 1, publickey := 1 }, { address := 2, publickey := 2 }]).IsActing 5 1 2
        = true :=
  ⟨rfl, (IsProposer_implies_IsActing { address := 2, publickey := 2 }
    [{ address := 1, publickey := 1 }, { address := 2, publickey := 2 }]
    ⟨{ address := 2, publickey := 2 }, by simp, rfl⟩ 5 1 2).2 rfl⟩

/-! ### Voteproof validity, continued -/

/-- C26 (what the code does): on a voteproof in which the facts of hash 10 and of hash
20 have two votes each, with threshold 2 of 4, `isValidCheckMajority` accepts the
majority fact of hash 10 when the map of counts is ranged over with the hash 10 last,
and rejects it with a hash mismatch when the hash 20 comes last; both orders are
orders of the same map, and `IsValid` differs in the same way. -/
theorem isValidCheckMajority_depends_on_order :
    (List.reverse sampleTiedVoteproof.counts).Perm sampleTiedVoteproof.counts ∧
    sampleTiedVoteproof.isValidCheckMajority sampleValidators id =
      Run.ret (some Invalid.majorityFactHashMismatch) ∧
    sampleTiedVoteproof.isValidCheckMajority sampleValidators List.reverse = Run.ret none ∧
    sampleTiedVoteproof.IsValid sampleValidators id [] =
      Run.ret (some Invalid.majorityFactHashMismatch) ∧
    sampleTiedVoteproof.IsValid sampleValidators List.reverse [] = Run.ret none :=
  ⟨List.reverse_perm _, by decide, by decide, by decide, by decide⟩

/-! ### Voteproof admission without a block -/

/-- C28 (what the code does): with no last manifest, for every INIT voteproof at height
0 whose majority is an INIT ballot fact, `CheckHeight` passes and `CheckINITVoteproof`
then calls `Hash()` on the nil manifest: the run of the two checks, and
`newVoteproof` with it, ends in a nil dereference instead of returning. -/
theorem CheckINITVoteproof_faults_without_manifest (hb : HandlerBehaviour)
    (fromState : State) (css : ConsensusStates) (V : VoteproofV0) (height : Int)
    (round : Round) (previousBlock : Hash)
    (hm : css.lastManifest = Except.ok none) (hheight : V.height = 0)
    (hstage : V.stage = Stage.INIT)
    (hmaj : V.majority = some (Fact.INITBallotFact height round previousBlock)) :
    let vpc : VoteproofConsensusStateChecker :=
      { lastManifest := none, lastINITVoteproof := css.lastINITVoteproof, voteproof := V }
    vpc.CheckHeight = (true, none) ∧
    vpc.CheckINITVoteproof = Run.nilDereference ∧
    Checker.Check [fun _ => Run.ret vpc.CheckHeight, fun _ => vpc.CheckINITVoteproof]
      = Run.nilDereference ∧
    css.newVoteproof hb fromState V = Run.nilDereference := by
  intro vpc
  have h1 : vpc.CheckHeight = (true, none) := by
    simp [VoteproofConsensusStateChecker.CheckHeight,
      VoteproofConsensusStateChecker.heightDiff, VoteproofConsensusStateChecker.localHeight,
      vpc, hheight, NilHeight, wrapInt64]
  have h2 : vpc.CheckINITVoteproof = Run.nilDereference := by
    simp [VoteproofConsensusStateChecker.CheckINITVoteproof, checkBlockWithINITVoteproof, vpc,
      hstage, hmaj]
  have h3 : Checker.Check [fun _ => Run.ret vpc.CheckHeight, fun _ => vpc.CheckINITVoteproof]
      = Run.nilDereference := by
    simp [Checker.Check, h1, h2]
  refine ⟨h1, h2, h3, ?_⟩
  unfold ConsensusStates.newVoteproof
  simp only [hm]
  rw [h3]

/-- Witness of C28: the sample supervisor without a last manifest, given an INIT
voteproof of height 0 for the previous block 40. -/
theorem CheckINITVoteproof_faults_without_manifest_witness :
    ({ sampleConsensusStates with lastManifest := Except.ok none } :
      ConsensusStates).newVoteproof sampleHandlers State.Consensus
        (sampleVoteproof 0 0 Stage.INIT (some (Fact.INITBallotFact 0 0 40)))
      = Run.nilDereference :=
  (CheckINITVoteproof_faults_without_manifest sampleHandlers State.Consensus
    ({ sampleConsensusStates with lastManifest := Except.ok none } : ConsensusStates)
    (sampleVoteproof 0 0 Stage.INIT (some (Fact.INITBallotFact 0 0 40))) 0 0 40
    rfl rfl rfl rfl).2.2.2

/-! ### The supervisor: failed activations -/

/-- C29: when the active handler is not already in the target state, `activateHandler`
fails without any call on a handler if the target state is unknown or has no registered
handler; it fails after the single call `Deactivate` if the previous handler refuses
to deactivate; and it fails after `Activate` (preceded by the successful `Deactivate`
of the previous handler, if any) if the target handler refuses to activate. Whenever
`activateHandler` returns an error, the active handler is the one it was before, the
error is a `FailedToActivateHandler` error, and no call `Activate` that returned nil
was made. -/
theorem activateHandler_failure_keeps_active_handler (hb : HandlerBehaviour)
    (css : ConsensusStates) (ctx : StateChangeContext)
    (hdiff : ∀ prev, css.activeHandler = some prev → prev.state ≠ ctx.toState) :
    (GoMap.get css.states ctx.toState = none →
      css.activateHandler hb ctx = (some (Error.unknownStateFound ctx.toState), css)) ∧
    (GoMap.get css.states ctx.toState = some none →
      css.activateHandler hb ctx = (some (Error.stateHandlerNotRegistered ctx.toState), css)) ∧
    (∀ hT prev e, GoMap.get css.states ctx.toState = some (some hT) →
      css.activeHandler = some prev → hb.Deactivate css.calls prev ctx = some e →
      css.activateHandler hb ctx = (some (Error.failedToDeactivatePrevious e),
        { css with calls := css.calls ++ [Call.Deactivate prev ctx (some e)] })) ∧
    (∀ hT prev e, GoMap.get css.states ctx.toState = some (some hT) →
      css.activeHandler = some prev → hb.Deactivate css.calls prev ctx = none →
      hb.Activate (css.calls ++ [Call.Deactivate prev ctx none]) hT ctx = some e →
      css.activateHandler hb ctx = (some (Error.failedToActivate e),
        { css with calls := css.calls ++ [Call.Deactivate prev ctx none] ++
          [Call.Activate hT ctx (some e)] })) ∧
    (∀ hT e, GoMap.get css.states ctx.toState = some (some hT) →
      css.activeHandler = none → hb.Activate css.calls hT ctx = some e →
      css.activateHandler hb ctx = (some (Error.failedToActivate e),
        { css with calls := css.calls ++ [Call.Activate hT ctx (some e)] })) ∧
    (∀ err css1, css.activateHandler hb ctx = (some err, css1) →
      css1.activeHandler = css.activeHandler ∧ err.isFailedToActivateHandler = true ∧
      ∀ h c, Call.Activate h c none ∈ css1.calls → Call.Activate h c none ∈ css.calls) := by
  refine ⟨?_, ?_, ?_, ?_, ?_, ?_⟩
  · intro hg
    unfold ConsensusStates.activateHandler
    cases hprev : css.activeHandler with
    | none => simp [hg]
    | some prev => simp [hdiff prev hprev, hg]
  · intro hg
    unfold ConsensusStates.activateHandler
    cases hprev : css.activeHandler with
    | none => simp [hg]
    | some prev => simp [hdiff prev hprev, hg]
  · intro hT prev e hg hprev hde
    unfold ConsensusStates.activateHandler
    simp [hprev, hdiff prev hprev, hg, hde]
  · intro hT prev e hg hprev hde hact
    unfold ConsensusStates.activateHandler
    simp [hprev, hdiff prev hprev, hg, hde, hact]
  · intro hT e hg hprev hact
    unfold ConsensusStates.activateHandler
    simp [hprev, hg, hact]
  · intro err css1 hres
    unfold ConsensusStates.activateHandler at hres
    cases hg : GoMap.get css.states ctx.toState with
    | none =>
      cases hprev : css.activeHandler with
      | none =>
        simp only [hprev, hg, Bool.false_eq_true, if_false, Prod.mk.injEq, Option.some.injEq]
          at hres
        obtain ⟨h1, h2⟩ := hres
        subst h1 h2
        exact ⟨hprev, rfl, fun _ _ h => h⟩
      | some prev =>
        simp only [hprev, hdiff prev hprev, decide_False, hg, Bool.false_eq_true, if_false,
          Prod.mk.injEq, Option.some.injEq] at hres
        obtain ⟨h1, h2⟩ := hres
        subst h1 h2
        exact ⟨hprev, rfl, fun _ _ h => h⟩
    | some reg =>
      cases reg with
      | none =>
        cases hprev : css.activeHandler with
        | none =>
          simp only [hprev, hg, Bool.false_eq_true, if_false, Prod.mk.injEq, Option.some.injEq]
            at hres
          obtain ⟨h1, h2⟩ := hres
          subst h1 h2
          exact ⟨hprev, rfl, fun _ _ h => h⟩
        | some prev =>
          simp only [hprev, hdiff prev hprev, decide_False, hg, Bool.false_eq_true, if_false,
            Prod.mk.injEq, Option.some.injEq] at hres
          obtain ⟨h1, h2⟩ := hres
          subst h1 h2
          exact ⟨hprev, rfl, fun _ _ h => h⟩
      | some hT =>
        cases hprev : css.activeHandler with
        | none =>
          simp only [hprev, hg, Bool.false_eq_true, if_false] at hres
          cases hact : hb.Activate css.calls hT ctx with
          | none => simp [hact] at hres
          | some e =>
            simp only [hact, Prod.mk.injEq, Option.some.injEq] at hres
            obtain ⟨h1, h2⟩ := hres
            subst h1 h2
            refine ⟨rfl, rfl, ?_⟩
            intro h c hmem
            simpa using hmem
        | some prev =>
          simp only [hprev, hdiff prev hprev, decide_False, hg, Bool.false_eq_true, if_false]
            at hres
          cases hde : hb.Deactivate css.calls prev ctx with
          | some e =>
            simp only [hde, Prod.mk.injEq, Option.some.injEq] at hres
            obtain ⟨h1, h2⟩ := hres
            subst h1 h2
            refine ⟨rfl, rfl, ?_⟩
            intro h c hmem
            simpa using hmem
          | none =>
            simp only [hde] at hres
            cases hact : hb.Activate (css.calls ++ [Call.Deactivate prev ctx none]) hT ctx with
            | none => simp [hact] at hres
            | some e =>
              simp only [hact, Prod.mk.injEq, Option.some.injEq] at hres
              obtain ⟨h1, h2⟩ := hres
              subst h1 h2
              refine ⟨rfl, rfl, ?_⟩
              intro h c hmem
              simpa using hmem

/-- Witness of C29: the target handler Syncing refuses to activate: the Consensus
handler was deactivated, `Activate` failed, and the active handler is still the
Consensus handler. -/
theorem activateHandler_failure_keeps_active_handler_witness :
    sampleConsensusStates.activateHandler sampleRefusingHandlers
        (NewStateChangeContext State.Consensus State.Syncing none none) =
      (some (Error.failedToActivate (Error.Errorf (Msg.other 1))),
        { sampleConsensusStates with calls :=
          [Call.Deactivate sampleConsensusHandler
            (NewStateChangeContext State.Consensus State.Syncing none none) none,
           Call.Activate sampleSyncingHandler
            (NewStateChangeContext State.Consensus State.Syncing none none)
            (some (Error.Errorf (Msg.other 1)))] }) :=
  (activateHandler_failure_keeps_active_handler sampleRefusingHandlers sampleConsensusStates
    (NewStateChangeContext State.Consensus State.Syncing none none)
    (by intro prev hprev; cases hprev; decide)).2.2.2.1 sampleSyncingHandler
    sampleConsensusHandler (Error.Errorf (Msg.other 1)) rfl rfl rfl rfl

/-! ### The seals extracter -/

/-- The loop of `filterFounds` appends the first occurrences of the hashes that were
not found before, and records their hashes. -/
theorem foldl_filterStep (ops : List Operation) (nops : List Operation) (founds : List Hash) :
    ops.foldl filterStep (nops, founds) =
      (nops ++ firstOccurrences founds ops,
        founds ++ (firstOccurrences founds ops).map Operation.hash) := by
  induction ops generalizing nops founds with
  | nil => simp [firstOccurrences]
  | cons op rest ih =>
    simp only [List.foldl_cons, filterStep]
    by_cases h : op.hash ∈ founds
    · simp only [h, if_true, firstOccurrences]
      exact ih nops founds
    · simp only [h, if_false, firstOccurrences]
      rw [ih]
      simp

/-- What `filterFounds` returns and records. -/
theorem filterFounds_eq (founds : List Hash) (ops : List Operation) :
    SealsExtracter.filterFounds founds ops =
      (firstOccurrences founds ops,
        founds ++ (firstOccurrences founds ops).map Operation.hash) := by
  unfold SealsExtracter.filterFounds
  cases ops with
  | nil => simp [firstOccurrences]
  | cons op rest =>
    have hlen : ¬ (op :: rest).length < 1 := by simp
    rw [if_neg hlen, foldl_filterStep]
    simp

/-- What `filterDuplicated` returns. -/
theorem filterDuplicated_eq (ops : List Operation) :
    SealsExtracter.filterDuplicated ops = firstOccurrences [] ops := by
  unfold SealsExtracter.filterDuplicated
  cases ops with
  | nil => simp [firstOccurrences]
  | cons op rest =>
    have hlen : ¬ (op :: rest).length < 1 := by simp
    rw [if_neg hlen, foldl_filterStep]
    simp

/-- The first occurrences are a subsequence of the operations. -/
theorem firstOccurrences_sublist (seen : List Hash) (ops : List Operation) :
    (firstOccurrences seen ops).Sublist ops := by
  induction ops generalizing seen with
  | nil => simp [firstOccurrences]
  | cons op rest ih =>
    unfold firstOccurrences
    by_cases h : op.hash ∈ seen
    · rw [if_pos h]
      exact (ih seen).cons op
    · rw [if_neg h]
      exact (ih _).cons₂ op

/-- No hash of the first occurrences was seen before. -/
theorem firstOccurrences_not_seen (seen : List Hash) (ops : List Operation) (x : Operation)
    (hx : x ∈ firstOccurrences seen ops) : x.hash ∉ seen := by
  induction ops generalizing seen with
  | nil => simp [firstOccurrences] at hx
  | cons op rest ih =>
    unfold firstOccurrences at hx
    by_cases h : op.hash ∈ seen
    · rw [if_pos h] at hx
      exact ih seen hx
    · rw [if_neg h] at hx
      rcases List.mem_cons.1 hx with heq | hmem
      · subst heq
        exact h
      · have := ih _ hmem
        intro hc
        exact this (List.mem_append_left _ hc)

/-- The hashes of the first occurrences are pairwise different. -/
theorem firstOccurrences_nodup (seen : List Hash) (ops : List Operation) :
    ((firstOccurrences seen ops).map Operation.hash).Nodup := by
  induction ops generalizing seen with
  | nil => simp [firstOccurrences]
  | cons op rest ih =>
    unfold firstOccurrences
    by_cases h : op.hash ∈ seen
    · rw [if_pos h]
      exact ih seen
    · rw [if_neg h]
      simp only [List.map_cons, List.nodup_cons]
      refine ⟨?_, ih _⟩
      intro hmem
      obtain ⟨x, hx, hxh⟩ := List.mem_map.1 hmem
      have := firstOccurrences_not_seen _ _ x hx
      exact this (by rw [hxh]; simp)

/-- Every hash of the operations was seen before or is the hash of a first
occurrence. -/
theorem firstOccurrences_covers (seen : List Hash) (ops : List Operation) (x : Operation)
    (hx : x ∈ ops) : x.hash ∈ seen ∨ x.hash ∈ (firstOccurrences seen ops).map Operation.hash := by
  induction ops generalizing seen with
  | nil => cases hx
  | cons op rest ih =>
    unfold firstOccurrences
    by_cases h : op.hash ∈ seen
    · rw [if_pos h]
      rcases List.mem_cons.1 hx with heq | hmem
      · subst heq
        exact Or.inl h
      · exact ih seen hmem
    · rw [if_neg h]
      rcases List.mem_cons.1 hx with heq | hmem
      · subst heq
        exact Or.inr (by simp)
      · rcases ih (seen ++ [op.hash]) hmem with h1 | h1
        · rcases List.mem_append.1 h1 with h2 | h2
          · exact Or.inl h2
          · simp only [List.mem_singleton] at h2
            exact Or.inr (by simp [h2])
        · exact Or.inr (by simp only [List.map_cons, List.mem_cons]; exact Or.inr h1)

/-- A first occurrence is the first operation of the list that has its hash. -/
theorem firstOccurrences_find (seen : List Hash) (ops : List Operation) (x : Operation)
    (hx : x ∈ firstOccurrences seen ops) :
    ops.find? (fun o => decide (o.hash = x.hash)) = some x := by
  induction ops generalizing seen with
  | nil => simp [firstOccurrences] at hx
  | cons op rest ih =>
    unfold firstOccurrences at hx
    by_cases h : op.hash ∈ seen
    · rw [if_pos h] at hx
      have hns := firstOccurrences_not_seen seen rest x hx
      have hne : ¬ op.hash = x.hash := by
        intro hc
        rw [hc] at h
        exact hns h
      simp only [List.find?_cons, hne, decide_False]
      exact ih seen hx
    · rw [if_neg h] at hx
      rcases List.mem_cons.1 hx with heq | hmem
      · subst heq
        simp
      · have hns := firstOccurrences_not_seen _ rest x hmem
        have hne : ¬ op.hash = x.hash := by
          intro hc
          exact hns (by rw [← hc]; simp)
        simp only [List.find?_cons, hne, decide_False]
        exact ih _ hmem

/-- Operations whose hashes are pairwise different and were not seen before are their
own first occurrences. -/
theorem firstOccurrences_of_nodup (seen : List Hash) (ops : List Operation)
    (hnd : (ops.map Operation.hash).Nodup) (hns : ∀ x ∈ ops, x.hash ∉ seen) :
    firstOccurrences seen ops = ops := by
  induction ops generalizing seen with
  | nil => simp [firstOccurrences]
  | cons op rest ih =>
    unfold firstOccurrences
    have h : op.hash ∉ seen := hns op (List.mem_cons_self _ _)
    rw [if_neg h]
    simp only [List.map_cons, List.nodup_cons] at hnd
    rw [ih _ hnd.2]
    intro x hx hc
    rcases List.mem_append.1 hc with h1 | h1
    · exact hns x (List.mem_cons_of_mem _ hx) h1
    · simp only [List.mem_singleton] at h1
      exact hnd.1 (List.mem_map.2 ⟨x, hx, h1⟩)

/-- C30: `filterDuplicated(ops)` is the subsequence of the first occurrences by hash: no
two operations returned have the same hash, every hash of `ops` is the hash of an
operation returned, the operations returned are a subsequence of `ops`, each being the
first operation of `ops` with its hash, and `filterDuplicated` returns its own result
unchanged; and `fromStorage` returns the operations of a seal read from storage after
`filterDuplicated`. -/
theorem filterDuplicated_is_first_occurrences (ops : List Operation) :
    SealsExtracter.filterDuplicated ops = firstOccurrences [] ops ∧
    ((SealsExtracter.filterDuplicated ops).map Operation.hash).Nodup ∧
    (∀ op ∈ ops, op.hash ∈ (SealsExtracter.filterDuplicated ops).map Operation.hash) ∧
    (SealsExtracter.filterDuplicated ops).Sublist ops ∧
    (∀ op ∈ SealsExtracter.filterDuplicated ops,
      ops.find? (fun o => decide (o.hash = op.hash)) = some op) ∧
    SealsExtracter.filterDuplicated (SealsExtracter.filterDuplicated ops) =
      SealsExtracter.filterDuplicated ops ∧
    (∀ (env : ExtractEnv) (i : Nat) (h : Hash) (sl : StoredSeal),
      env.ctxDone i = none → env.databaseSeal h = Except.ok (some sl) →
      sl.operations = some ops →
      SealsExtracter.fromStorage env i h =
        Except.ok (some (SealsExtracter.filterDuplicated ops))) := by
  refine ⟨filterDuplicated_eq ops, ?_, ?_, ?_, ?_, ?_, ?_⟩
  · rw [filterDuplicated_eq]
    exact firstOccurrences_nodup [] ops
  · intro op hop
    rw [filterDuplicated_eq]
    rcases firstOccurrences_covers [] ops op hop with h | h
    · cases h
    · exact h
  · rw [filterDuplicated_eq]
    exact firstOccurrences_sublist [] ops
  · intro op hop
    rw [filterDuplicated_eq] at hop
    exact firstOccurrences_find [] ops op hop
  · rw [filterDuplicated_eq, filterDuplicated_eq]
    exact firstOccurrences_of_nodup [] _ (firstOccurrences_nodup [] ops) (by simp)
  · intro env i h sl hctx hdb hops
    simp [SealsExtracter.fromStorage, hctx, hdb, hops]

/-- Witness of C30: of three operations with the hashes 1, 2, 1 the first two are
returned, and `fromStorage` returns them for the seal 7 of the sample database. -/
theorem filterDuplicated_is_first_occurrences_witness :
    SealsExtracter.filterDuplicated sampleOperations =
      [{ hash := 1, body := 10 }, { hash := 2, body := 20 }] ∧
    SealsExtracter.fromStorage sampleExtractEnv 0 7 =
      Except.ok (some (SealsExtracter.filterDuplicated sampleOperations)) :=
  ⟨by decide,
    (filterDuplicated_is_first_occurrences sampleOperations).2.2.2.2.2.2 sampleExtractEnv 0 7
      { hash := 7, operations := some sampleOperations } rfl rfl rfl⟩

/-- The loop of `extractFromStorage` stops with the first answer that fails with another
error than `NotFoundError`; without such an answer it ends with the hashes that storage
does not have appended, in list order, to the hashes not found. -/
theorem extractFromStorageLoop_notFounds (env : ExtractEnv) (seals : List Hash) (i : Nat)
    (st : ExtractState) :
    (∀ e, (storageAnswers env i seals).findSome? (fun a => storageFailure a.2) = some e →
      (SealsExtracter.extractFromStorageLoop env i seals st).1 = some e) ∧
    ((storageAnswers env i seals).findSome? (fun a => storageFailure a.2) = none →
      (SealsExtracter.extractFromStorageLoop env i seals st).1 = none ∧
      (SealsExtracter.extractFromStorageLoop env i seals st).2.notFounds =
        st.notFounds ++ missingSeals env i seals) := by
  induction seals generalizing i st with
  | nil =>
    simp [storageAnswers, missingSeals, SealsExtracter.extractFromStorageLoop]
  | cons h rest ih =>
    have hans : storageAnswers env i (h :: rest) =
        (h, SealsExtracter.fromStorage env i h) :: storageAnswers env (i + 1) rest := by
      simp [storageAnswers, List.enumFrom]
    have hmiss : missingSeals env i (h :: rest) =
        (if isStorageMiss (SealsExtracter.fromStorage env i h) then [h] else []) ++
          missingSeals env (i + 1) rest := by
      unfold missingSeals
      rw [hans, List.filter_cons]
      by_cases hm : isStorageMiss (SealsExtracter.fromStorage env i h) = true
      · simp [hm]
      · simp [hm]
    rw [hans, hmiss]
    unfold SealsExtracter.extractFromStorageLoop
    cases hf : SealsExtracter.fromStorage env i h with
    | error err =>
      by_cases hctx : err.isContextDone = true
      · simp [List.findSome?, storageFailure, hctx]
      · simp only [Bool.not_eq_true] at hctx
        by_cases hnf : err.isNotFound = true
        · have h1 := ih (i + 1) { st with notFounds := st.notFounds ++ [h] }
          simp only [List.findSome?, storageFailure, hctx, hnf, isStorageMiss, Bool.not_true,
            Bool.or_self, Bool.false_eq_true, if_false, Bool.not_false, Bool.and_self, if_true]
          refine ⟨h1.1, ?_⟩
          intro hnone
          have h2 := h1.2 hnone
          refine ⟨h2.1, ?_⟩
          rw [h2.2]
          simp
        · simp only [Bool.not_eq_true] at hnf
          simp [List.findSome?, storageFailure, hctx, hnf]
    | ok found =>
      cases found with
      | none =>
        have h1 := ih (i + 1) { st with notFounds := st.notFounds ++ [h] }
        simp only [List.findSome?, storageFailure, isStorageMiss, if_true]
        refine ⟨h1.1, ?_⟩
        intro hnone
        have h2 := h1.2 hnone
        refine ⟨h2.1, ?_⟩
        rw [h2.2]
        simp
      | some ops =>
        have h1 := ih (i + 1)
          { st with
            opsBySeals := GoMap.set st.opsBySeals h (SealsExtracter.filterFounds st.founds ops).1,
            founds := (SealsExtracter.filterFounds st.founds ops).2,
            count := st.count + (SealsExtracter.filterFounds st.founds ops).1.length }
        simp only [List.findSome?, storageFailure, isStorageMiss, Bool.false_eq_true, if_false,
          List.nil_append]
        exact h1

/-- The requests made by `fromChannel` carry the hashes it was given. -/
theorem fromChannel_requests (env : ExtractEnv) (se : SealsExtracter) (notFounds : List Hash) :
    (∀ r ∈ (SealsExtracter.fromChannel env se notFounds).2, r.2 = notFounds) ∧
    (se.localAddress ≠ se.proposer → ∀ ch, env.Node se.proposer = some (some ch) →
      (SealsExtracter.fromChannel env se notFounds).2 = [(ch, notFounds)]) := by
  unfold SealsExtracter.fromChannel
  refine ⟨?_, ?_⟩
  · intro r hr
    split_ifs at hr with hlocal
    · cases hr
    · cases hnode : env.Node se.proposer with
      | none => rw [hnode] at hr; cases hr
      | some c =>
        cases c with
        | none => rw [hnode] at hr; cases hr
        | some ch =>
          rw [hnode] at hr
          simp only at hr
          cases hseals : env.Seals ch notFounds with
          | error err =>
            rw [hseals] at hr
            simp only [List.mem_singleton] at hr
            rw [hr]
          | ok received =>
            rw [hseals] at hr
            simp only at hr
            cases hnew : (env.NewSeals received).filter (fun err => !err.isDuplicated) with
            | some err =>
              rw [hnew] at hr
              simp only [List.mem_singleton] at hr
              rw [hr]
            | none =>
              rw [hnew] at hr
              simp only [List.mem_singleton] at hr
              rw [hr]
  · intro hlocal ch hnode
    rw [if_neg hlocal, hnode]
    simp only
    cases hseals : env.Seals ch notFounds with
    | error err => rfl
    | ok received =>
      simp only
      cases hnew : (env.NewSeals received).filter (fun err => !err.isDuplicated) with
      | some err => rfl
      | none => rfl

/-- The requests made by `extractFromChannel` are those of `fromChannel`. -/
theorem extractFromChannel_requests (env : ExtractEnv) (se : SealsExtracter)
    (seals : List Hash) (st : ExtractState) :
    (SealsExtracter.extractFromChannel env se seals st).2.2 =
      (SealsExtracter.fromChannel env se seals).2 := by
  unfold SealsExtracter.extractFromChannel
  cases env.ctxDoneChannel with
  | some err => rfl
  | none =>
    simp only
    cases (SealsExtracter.fromChannel env se seals).1 with
    | error err => rfl
    | ok m => rfl

/-- The requests made by `Extract` when storage answers every lookup without
another error than `NotFoundError`. -/
theorem Extract_requests (env : ExtractEnv) (se : SealsExtracter)
    (hok : (storageAnswers env 0 se.seals).findSome? (fun a => storageFailure a.2) = none) :
    (SealsExtracter.Extract env se).requests =
      if (missingSeals env 0 se.seals).length > 0 then
        (SealsExtracter.fromChannel env se (missingSeals env 0 se.seals)).2
      else [] := by
  have hloop := (extractFromStorageLoop_notFounds env se.seals 0
    { opsBySeals := [], founds := se.founds, count := 0, notFounds := [] }).2 hok
  simp only [List.nil_append] at hloop
  unfold SealsExtracter.Extract SealsExtracter.extractFromStorage
  cases hres : SealsExtracter.extractFromStorageLoop env 0 se.seals
      { opsBySeals := [], founds := se.founds, count := 0, notFounds := [] } with
  | mk err st =>
    rw [hres] at hloop
    simp only at hloop
    obtain ⟨h1, h2⟩ := hloop
    subst h1
    simp only [h2]
    by_cases hlen : (missingSeals env 0 se.seals).length > 0
    · simp only [hlen, if_true]
      have hreq := extractFromChannel_requests env se (missingSeals env 0 se.seals) st
      cases hch : SealsExtracter.extractFromChannel env se (missingSeals env 0 se.seals) st with
      | mk err1 rest =>
        obtain ⟨st1, requests⟩ := rest
        rw [hch] at hreq
        simp only at hreq
        cases err1 with
        | some e => simp only [hreq]
        | none => simp only [hreq]
    · simp only [hlen, if_false]

/-- An entry for a seal that is not listed does not change the groups. -/
theorem groupsOf_set_of_not_mem (M : List (Hash × List Operation)) (seals : List Hash)
    (h : Hash) (l : List Operation) (hn : h ∉ seals) :
    groupsOf (GoMap.set M h l) seals = groupsOf M seals := by
  unfold groupsOf
  apply List.map_congr_left
  intro x hx
  have hne : ¬ h = x := fun hc => hn (hc ▸ hx)
  rw [GoMap.get_set, if_neg hne]

/-- A first entry for a listed seal adds its operations to the groups. -/
theorem groupsOf_set_perm (M : List (Hash × List Operation)) (seals : List Hash)
    (h : Hash) (l : List Operation) (hnd : seals.Nodup) (hmem : h ∈ seals)
    (hfresh : GoMap.get M h = none) :
    ((groupsOf (GoMap.set M h l) seals).flatten).Perm ((groupsOf M seals).flatten ++ l) := by
  induction seals with
  | nil => cases hmem
  | cons x rest ih =>
    simp only [List.nodup_cons] at hnd
    by_cases hx : x = h
    · subst hx
      have h1 : groupsOf (GoMap.set M x l) (x :: rest) = l :: groupsOf M rest := by
        have h0 : groupsOf (GoMap.set M x l) (x :: rest) =
            (GoMap.get (GoMap.set M x l) x).getD [] :: groupsOf (GoMap.set M x l) rest := rfl
        rw [h0, groupsOf_set_of_not_mem M rest x l hnd.1, GoMap.get_set]
        simp
      have h2 : groupsOf M (x :: rest) = [] :: groupsOf M rest := by
        unfold groupsOf
        simp only [List.map_cons, hfresh, Option.getD_none]
      rw [h1, h2]
      simp only [List.flatten_cons, List.nil_append]
      exact List.perm_append_comm
    · have hmem1 : h ∈ rest := by
        rcases List.mem_cons.1 hmem with hc | hc
        · exact absurd hc.symm hx
        · exact hc
      have hne : ¬ h = x := fun hc => hx hc.symm
      have h1 : groupsOf (GoMap.set M h l) (x :: rest) =
          (GoMap.get M x).getD [] :: groupsOf (GoMap.set M h l) rest := by
        unfold groupsOf
        simp only [List.map_cons, GoMap.get_set, if_neg hne]
      have h2 : groupsOf M (x :: rest) = (GoMap.get M x).getD [] :: groupsOf M rest := by
        unfold groupsOf
        simp only [List.map_cons]
      rw [h1, h2]
      simp only [List.flatten_cons, List.append_assoc]
      exact List.Perm.append_left _ (ih hnd.2 hmem1)

/-- Copying a group into the nil entries that follow the operations copied so far. -/
theorem copyAt_replicate (pre : List (Option Operation)) (k : Nat) (l : List Operation)
    (hk : l.length ≤ k) :
    copyAt (pre ++ List.replicate k none) pre.length l =
      Run.ret ((pre ++ l.map some) ++ List.replicate (k - l.length) none) := by
  unfold copyAt
  have h1 : ¬ pre.length > (pre ++ List.replicate k none).length := by simp
  rw [if_neg h1]
  have h2 : (pre ++ List.replicate k none).length - pre.length = k := by simp
  simp only [h2, List.take_of_length_le hk, List.take_left, Run.ret.injEq]
  rw [List.drop_append_eq_append_drop]
  have h3 : List.drop (pre.length + l.length) pre = [] := List.drop_of_length_le (by omega)
  rw [h3]
  simp [List.drop_replicate]

/-- The last loop of `Extract` fills the nil entries with the groups of the listed
seals, in list order, when there are as many nil entries as operations in the
groups. -/
theorem collect_groups (M : List (Hash × List Operation)) (seals : List Hash)
    (pre : List (Option Operation)) (k : Nat) (hk : k = (groupsOf M seals).flatten.length) :
    SealsExtracter.collect M seals (pre ++ List.replicate k none) pre.length =
      Run.ret (pre ++ (groupsOf M seals).flatten.map some) := by
  induction seals generalizing pre k with
  | nil =>
    simp only [groupsOf, List.map_nil, List.flatten_nil, List.length_nil] at hk
    subst hk
    simp [SealsExtracter.collect, groupsOf]
  | cons h rest ih =>
    have hg : groupsOf M (h :: rest) = (GoMap.get M h).getD [] :: groupsOf M rest := by
      simp [groupsOf]
    rw [hg] at hk ⊢
    simp only [List.flatten_cons, List.length_append] at hk
    unfold SealsExtracter.collect
    cases hget : GoMap.get M h with
    | none =>
      simp only [hget, Option.getD_none, List.length_nil, Nat.zero_add] at hk
      simp only [Option.getD_none, List.flatten_cons, List.nil_append]
      exact ih pre k hk
    | some l =>
      simp only [hget, Option.getD_some] at hk
      simp only [Option.getD_some, List.flatten_cons]
      by_cases hl : l.length > 0
      · have hk2 : k - l.length = (groupsOf M rest).flatten.length := by omega
        rw [if_pos hl, copyAt_replicate pre k l (by omega)]
        simp only [Run.bind]
        have hlen : (pre ++ l.map some).length = pre.length + l.length := by simp
        rw [← hlen, ih (pre ++ l.map some) (k - l.length) hk2]
        simp
      · rw [if_neg hl]
        have hl0 : l = [] := List.length_eq_zero.1 (by omega)
        subst hl0
        simp only [List.length_nil, Nat.zero_add] at hk
        simp only [List.nil_append]
        exact ih pre k hk

/-- One entry of `opsBySeals`, made for a listed seal that had none, keeps the
invariant of `Extract`; the group entered is a subsequence of the operations of the
seal, whose hashes are all found afterwards. -/
theorem ExtractInv_step (seals : List Hash) (c : Nat) (st : ExtractState) (h : Hash)
    (os : List Operation) (hnd : seals.Nodup) (hmem : h ∈ seals)
    (hfresh : GoMap.get st.opsBySeals h = none) (hinv : ExtractInv seals c st) :
    ExtractInv seals c
      { st with
        opsBySeals := GoMap.set st.opsBySeals h (SealsExtracter.filterFounds st.founds os).1,
        founds := (SealsExtracter.filterFounds st.founds os).2,
        count := st.count + (SealsExtracter.filterFounds st.founds os).1.length } ∧
    (SealsExtracter.filterFounds st.founds os).1.Sublist os ∧
    (∀ op ∈ os, op.hash ∈ (SealsExtracter.filterFounds st.founds os).2) ∧
    (∀ x ∈ st.founds, x ∈ (SealsExtracter.filterFounds st.founds os).2) := by
  obtain ⟨h1, h2, h3⟩ := hinv
  rw [filterFounds_eq]
  simp only
  refine ⟨⟨?_, ?_, ?_⟩, firstOccurrences_sublist _ _, ?_, ?_⟩
  · refine List.Nodup.append h1 (firstOccurrences_nodup _ _) ?_
    intro x hx1 hx2
    obtain ⟨op, hop, hxh⟩ := List.mem_map.1 hx2
    exact firstOccurrences_not_seen _ _ op hop (hxh ▸ hx1)
  · have hp := groupsOf_set_perm st.opsBySeals seals h (firstOccurrences st.founds os) hnd hmem
      hfresh
    have hp2 := hp.map Operation.hash
    rw [List.map_append] at hp2
    exact hp2.trans (List.Perm.append_right _ h2)
  · simp only [List.length_append, List.length_map]
    omega
  · intro op hop
    rcases firstOccurrences_covers st.founds os op hop with hc | hc
    · exact List.mem_append_left _ hc
    · exact List.mem_append_right _ hc
  · intro x hx
    exact List.mem_append_left _ hx

/-- The answers to the lookups of a list that starts with `h`. -/
theorem storageAnswers_cons (env : ExtractEnv) (i : Nat) (h : Hash) (rest : List Hash) :
    storageAnswers env i (h :: rest) =
      (h, SealsExtracter.fromStorage env i h) :: storageAnswers env (i + 1) rest := by
  simp [storageAnswers, List.enumFrom]

/-- The missing seals of a list that starts with `h`. -/
theorem missingSeals_cons (env : ExtractEnv) (i : Nat) (h : Hash) (rest : List Hash) :
    missingSeals env i (h :: rest) =
      (if isStorageMiss (SealsExtracter.fromStorage env i h) then [h] else []) ++
        missingSeals env (i + 1) rest := by
  unfold missingSeals
  rw [storageAnswers_cons, List.filter_cons]
  by_cases hm : isStorageMiss (SealsExtracter.fromStorage env i h) = true
  · simp [hm]
  · simp [hm]

/-- The missing seals are listed seals. -/
theorem missingSeals_subset (env : ExtractEnv) (i : Nat) (seals : List Hash) (x : Hash)
    (hx : x ∈ missingSeals env i seals) : x ∈ seals := by
  induction seals generalizing i with
  | nil => simp [missingSeals, storageAnswers] at hx
  | cons h rest ih =>
    rw [missingSeals_cons] at hx
    rcases List.mem_append.1 hx with h1 | h1
    · split_ifs at h1
      · simp only [List.mem_singleton] at h1
        rw [h1]
        exact List.mem_cons_self _ _
      · cases h1
    · exact List.mem_cons_of_mem _ (ih (i + 1) h1)

/-- The loop of `extractFromStorage`, over listed seals that are pairwise different and
have no entry yet, keeps the invariant of `Extract`: when it ends without error, every
seal found in storage has its entry, a subsequence of its operations, whose hashes are
all found; the other entries are as before; and the missing seals have no entry. -/
theorem extractFromStorageLoop_inv (env : ExtractEnv) (seals : List Hash) (c : Nat)
    (hnd : seals.Nodup) (rest : List Hash) (i : Nat) (st st1 : ExtractState)
    (hsub : ∀ h ∈ rest, h ∈ seals) (hrnd : rest.Nodup)
    (hfresh : ∀ k ∈ GoMap.keys st.opsBySeals, k ∉ rest)
    (hinv : ExtractInv seals c st)
    (hloop : SealsExtracter.extractFromStorageLoop env i rest st = (none, st1)) :
    ExtractInv seals c st1 ∧
    (∀ x ∈ st.founds, x ∈ st1.founds) ∧
    (∀ k, k ∉ rest → GoMap.get st1.opsBySeals k = GoMap.get st.opsBySeals k) ∧
    (∀ k ∈ missingSeals env i rest, GoMap.get st1.opsBySeals k = none) ∧
    (∀ a ∈ storageAnswers env i rest, ∀ os, a.2 = Except.ok (some os) →
      (∃ g, GoMap.get st1.opsBySeals a.1 = some g ∧ g.Sublist os) ∧
      ∀ op ∈ os, op.hash ∈ st1.founds) := by
  induction rest generalizing i st with
  | nil =>
    simp only [SealsExtracter.extractFromStorageLoop, Prod.mk.injEq, true_and] at hloop
    subst hloop
    refine ⟨hinv, fun _ h => h, fun _ _ => rfl, ?_, ?_⟩
    · intro k hk
      simp [missingSeals, storageAnswers] at hk
    · intro a ha
      simp [storageAnswers] at ha
  | cons h rest ih =>
    simp only [List.nodup_cons] at hrnd
    have hsub1 : ∀ x ∈ rest, x ∈ seals := fun x hx => hsub x (List.mem_cons_of_mem _ hx)
    have hhfresh : GoMap.get st.opsBySeals h = none := by
      rw [GoMap.get_eq_none_iff]
      intro hk
      exact hfresh h hk (List.mem_cons_self _ _)
    -- the two ways of going on without an entry
    have hskip : SealsExtracter.extractFromStorageLoop env (i + 1) rest
          { st with notFounds := st.notFounds ++ [h] } = (none, st1) →
        isStorageMiss (SealsExtracter.fromStorage env i h) = true →
        (∀ os, SealsExtracter.fromStorage env i h ≠ Except.ok (some os)) →
        ExtractInv seals c st1 ∧
        (∀ x ∈ st.founds, x ∈ st1.founds) ∧
        (∀ k, k ∉ h :: rest → GoMap.get st1.opsBySeals k = GoMap.get st.opsBySeals k) ∧
        (∀ k ∈ missingSeals env i (h :: rest), GoMap.get st1.opsBySeals k = none) ∧
        (∀ a ∈ storageAnswers env i (h :: rest), ∀ os, a.2 = Except.ok (some os) →
          (∃ g, GoMap.get st1.opsBySeals a.1 = some g ∧ g.Sublist os) ∧
          ∀ op ∈ os, op.hash ∈ st1.founds) := by
      intro hl hmiss hnot
      have hfresh1 : ∀ k ∈ GoMap.keys st.opsBySeals, k ∉ rest :=
        fun k hk hc => hfresh k hk (List.mem_cons_of_mem _ hc)
      obtain ⟨r1, r2, r3, r4, r5⟩ := ih (i + 1) { st with notFounds := st.notFounds ++ [h] }
        hsub1 hrnd.2 hfresh1 hinv hl
      refine ⟨r1, r2, ?_, ?_, ?_⟩
      · intro k hk
        exact r3 k (fun hc => hk (List.mem_cons_of_mem _ hc))
      · intro k hk
        rw [missingSeals_cons, if_pos hmiss] at hk
        rcases List.mem_append.1 hk with h1 | h1
        · simp only [List.mem_singleton] at h1
          subst h1
          rw [r3 k hrnd.1]
          exact hhfresh
        · exact r4 k h1
      · intro a ha os hos
        rw [storageAnswers_cons] at ha
        rcases List.mem_cons.1 ha with h1 | h1
        · subst h1
          exact absurd hos (hnot os)
        · exact r5 a h1 os hos
    unfold SealsExtracter.extractFromStorageLoop at hloop
    cases hf : SealsExtracter.fromStorage env i h with
    | error err =>
      rw [hf] at hloop hskip
      simp only at hloop
      by_cases hctx : err.isContextDone = true
      · simp [hctx] at hloop
      · by_cases hnf : err.isNotFound = true
        · simp only [hctx, Bool.false_eq_true, if_false, hnf, if_true] at hloop
          simp only [Bool.not_eq_true] at hctx
          exact hskip hloop (by simp [isStorageMiss, hctx, hnf]) (fun os hc => by cases hc)
        · simp [hctx, hnf] at hloop
    | ok found =>
      cases found with
      | none =>
        rw [hf] at hloop hskip
        simp only at hloop
        exact hskip hloop rfl (fun os hc => by cases hc)
      | some ops =>
        rw [hf] at hloop
        simp only at hloop
        obtain ⟨s1, s2, s3, s4⟩ := ExtractInv_step seals c st h ops hnd
          (hsub h (List.mem_cons_self _ _)) hhfresh hinv
        have hfresh1 : ∀ k ∈ GoMap.keys (GoMap.set st.opsBySeals h
            (SealsExtracter.filterFounds st.founds ops).1), k ∉ rest := by
          intro k hk hc
          rcases (GoMap.mem_keys_set _ _ _ _).1 hk with h1 | h1
          · subst h1
            exact hrnd.1 hc
          · exact hfresh k h1 (List.mem_cons_of_mem _ hc)
        obtain ⟨r1, r2, r3, r4, r5⟩ := ih (i + 1) _ hsub1 hrnd.2 hfresh1 s1 hloop
        have hentry : GoMap.get st1.opsBySeals h =
            some (SealsExtracter.filterFounds st.founds ops).1 := by
          rw [r3 h hrnd.1, GoMap.get_set]
          simp
        refine ⟨r1, fun x hx => r2 x (s4 x hx), ?_, ?_, ?_⟩
        · intro k hk
          rw [r3 k (fun hc => hk (List.mem_cons_of_mem _ hc)), GoMap.get_set]
          have hne : ¬ h = k := fun hc => hk (hc ▸ List.mem_cons_self _ _)
          rw [if_neg hne]
        · intro k hk
          rw [missingSeals_cons, hf] at hk
          simp only [isStorageMiss, Bool.false_eq_true, if_false, List.nil_append] at hk
          exact r4 k hk
        · intro a ha os hos
          rw [storageAnswers_cons] at ha
          rcases List.mem_cons.1 ha with h1 | h1
          · subst h1
            simp only at hos
            rw [hf] at hos
            simp only [Except.ok.injEq, Option.some.injEq] at hos
            subst hos
            exact ⟨⟨_, hentry, s2⟩, fun op hop => r2 _ (s3 op hop)⟩
          · exact r5 a h1 os hos

/-- The loop of `extractFromChannel`, over received seals that are listed, pairwise
different and without an entry yet, keeps the invariant of `Extract`: every received
seal gets its entry, a subsequence of its operations, whose hashes are all found
afterwards, and the other entries are as before. -/
theorem extractFromChannelLoop_inv (seals : List Hash) (c : Nat) (hnd : seals.Nodup)
    (entries : List (Hash × List Operation)) (st : ExtractState)
    (hkeys : (GoMap.keys entries).Nodup) (hsub : ∀ kv ∈ entries, kv.1 ∈ seals)
    (hfresh : ∀ kv ∈ entries, GoMap.get st.opsBySeals kv.1 = none)
    (hinv : ExtractInv seals c st) :
    ExtractInv seals c (SealsExtracter.extractFromChannelLoop entries st) ∧
    (∀ x ∈ st.founds, x ∈ (SealsExtracter.extractFromChannelLoop entries st).founds) ∧
    (∀ k, k ∉ GoMap.keys entries →
      GoMap.get (SealsExtracter.extractFromChannelLoop entries st).opsBySeals k =
        GoMap.get st.opsBySeals k) ∧
    (∀ kv ∈ entries,
      (∃ g, GoMap.get (SealsExtracter.extractFromChannelLoop entries st).opsBySeals kv.1 = some g
        ∧ g.Sublist kv.2) ∧
      ∀ op ∈ kv.2, op.hash ∈ (SealsExtracter.extractFromChannelLoop entries st).founds) := by
  induction entries generalizing st with
  | nil =>
    simp only [SealsExtracter.extractFromChannelLoop]
    exact ⟨hinv, fun _ h => h, by simp, by simp⟩
  | cons kv rest ih =>
    simp only [GoMap.keys, List.map_cons, List.nodup_cons] at hkeys
    obtain ⟨s1, s2, s3, s4⟩ := ExtractInv_step seals c st kv.1 kv.2 hnd
      (hsub kv (List.mem_cons_self _ _)) (hfresh kv (List.mem_cons_self _ _)) hinv
    have hfresh1 : ∀ x ∈ rest, GoMap.get (GoMap.set st.opsBySeals kv.1
        (SealsExtracter.filterFounds st.founds kv.2).1) x.1 = none := by
      intro x hx
      have hne : ¬ kv.1 = x.1 := by
        intro hc
        exact hkeys.1 (hc ▸ List.mem_map.2 ⟨x, hx, rfl⟩)
      rw [GoMap.get_set, if_neg hne]
      exact hfresh x (List.mem_cons_of_mem _ hx)
    obtain ⟨r1, r2, r3, r4⟩ := ih _ hkeys.2 (fun x hx => hsub x (List.mem_cons_of_mem _ hx))
      hfresh1 s1
    simp only [SealsExtracter.extractFromChannelLoop]
    refine ⟨r1, fun x hx => r2 x (s4 x hx), ?_, ?_⟩
    · intro k hk
      simp only [GoMap.keys, List.map_cons, List.mem_cons, not_or] at hk
      rw [r3 k hk.2, GoMap.get_set]
      have hne : ¬ kv.1 = k := fun hc => hk.1 hc.symm
      rw [if_neg hne]
    · intro x hx
      rcases List.mem_cons.1 hx with h1 | h1
      · subst h1
        refine ⟨⟨_, ?_, s2⟩, fun op hop => r2 _ (s3 op hop)⟩
        rw [r3 x.1 hkeys.1, GoMap.get_set]
        simp
      · exact r4 x h1

/-- The map built at the end of `fromChannel` has each key once. -/
theorem bySealsOf_nodup (received : List StoredSeal) (acc m : List (Hash × List Operation))
    (hacc : (GoMap.keys acc).Nodup) (h : bySealsOf received acc = Except.ok m) :
    (GoMap.keys m).Nodup := by
  induction received generalizing acc with
  | nil =>
    simp only [bySealsOf, Except.ok.injEq] at h
    subst h
    exact hacc
  | cons sl rest ih =>
    unfold bySealsOf at h
    cases hos : sl.operations with
    | none => rw [hos] at h; cases h
    | some os =>
      rw [hos] at h
      exact ih _ (GoMap.nodup_keys_set acc sl.hash os hacc) h

/-- The map returned by `fromChannel` has each key once. -/
theorem fromChannel_nodup (env : ExtractEnv) (se : SealsExtracter) (notFounds : List Hash)
    (m : List (Hash × List Operation))
    (h : (SealsExtracter.fromChannel env se notFounds).1 = Except.ok m) :
    (GoMap.keys m).Nodup := by
  unfold SealsExtracter.fromChannel at h
  by_cases hlocal : se.localAddress = se.proposer
  · rw [if_pos hlocal] at h
    cases h
  · rw [if_neg hlocal] at h
    cases hnode : env.Node se.proposer with
    | none => rw [hnode] at h; cases h
    | some c =>
      cases c with
      | none => rw [hnode] at h; cases h
      | some ch =>
        rw [hnode] at h
        simp only at h
        cases hseals : env.Seals ch notFounds with
        | error err => rw [hseals] at h; cases h
        | ok received =>
          rw [hseals] at h
          simp only at h
          cases hnew : (env.NewSeals received).filter (fun err => !err.isDuplicated) with
          | some err => rw [hnew] at h; cases h
          | none =>
            rw [hnew] at h
            exact bySealsOf_nodup received [] m (by simp [GoMap.keys]) h

/-- Without entries all groups are empty. -/
theorem groupsOf_nil (seals : List Hash) : (groupsOf [] seals).flatten = [] := by
  induction seals with
  | nil => rfl
  | cons h rest ih =>
    have : groupsOf [] (h :: rest) = [] :: groupsOf [] rest := by simp [groupsOf, GoMap.get]
    rw [this, List.flatten_cons, ih]
    rfl

/-- For a fresh extracter over pairwise different seal hashes, all obtainable: when
storage answers every lookup without another error than `NotFoundError` and, if seals
are missing, the proposer returns exactly the missing seals, `Extract` returns the
groups of the listed seals in list order, without nil entry; no two operations returned
have the same hash; the group of a seal is a subsequence of its operations; and every
hash of an operation of a listed seal is the hash of an operation returned. -/
theorem Extract_of_distinct_seals (env : ExtractEnv) (se : SealsExtracter)
    (hfounds : se.founds = []) (hnd : se.seals.Nodup)
    (hok : (storageAnswers env 0 se.seals).findSome? (fun a => storageFailure a.2) = none)
    (hch : missingSeals env 0 se.seals ≠ [] →
      env.ctxDoneChannel = none ∧
      ∃ m, (SealsExtracter.fromChannel env se (missingSeals env 0 se.seals)).1 = Except.ok m ∧
        (∀ h, h ∈ GoMap.keys m ↔ h ∈ missingSeals env 0 se.seals) ∧ (env.enum m).Perm m) :
    ∃ M : List (Hash × List Operation),
      (SealsExtracter.Extract env se).result =
        Run.ret (Except.ok ((groupsOf M se.seals).flatten.map some)) ∧
      ((groupsOf M se.seals).flatten.map Operation.hash).Nodup ∧
      (∀ a ∈ storageAnswers env 0 se.seals, ∀ os, a.2 = Except.ok (some os) →
        (∃ g, GoMap.get M a.1 = some g ∧ g.Sublist os) ∧
        ∀ op ∈ os, op.hash ∈ (groupsOf M se.seals).flatten.map Operation.hash) ∧
      (missingSeals env 0 se.seals ≠ [] →
        ∀ m, (SealsExtracter.fromChannel env se (missingSeals env 0 se.seals)).1 = Except.ok m →
        ∀ kv ∈ m, (∃ g, GoMap.get M kv.1 = some g ∧ g.Sublist kv.2) ∧
          ∀ op ∈ kv.2, op.hash ∈ (groupsOf M se.seals).flatten.map Operation.hash) := by
  have hloop := (extractFromStorageLoop_notFounds env se.seals 0
    { opsBySeals := [], founds := se.founds, count := 0, notFounds := [] }).2 hok
  simp only [List.nil_append] at hloop
  have hinv0 : ExtractInv se.seals 0
      { opsBySeals := [], founds := se.founds, count := 0, notFounds := [] } := by
    refine ⟨?_, ?_, ?_⟩
    · simp [hfounds]
    · simp [hfounds, groupsOf_nil]
    · simp [hfounds]
  cases hres : SealsExtracter.extractFromStorageLoop env 0 se.seals
      { opsBySeals := [], founds := se.founds, count := 0, notFounds := [] } with
  | mk err st =>
    rw [hres] at hloop
    simp only at hloop
    obtain ⟨herr, hnf⟩ := hloop
    subst herr
    obtain ⟨r1, -, -, r4, r5⟩ := extractFromStorageLoop_inv env se.seals 0 hnd se.seals 0 _ st
      (fun _ h => h) hnd (by simp [GoMap.keys]) hinv0 hres
    by_cases hmiss : missingSeals env 0 se.seals = []
    · -- every seal was found in storage
      refine ⟨st.opsBySeals, ?_, ?_, ?_, fun hc => absurd hmiss hc⟩
      · have hlen : st.count = (groupsOf st.opsBySeals se.seals).flatten.length := by
          have h1 := r1.2.1.length_eq
          have h2 := r1.2.2
          simp only [List.length_map] at h1
          omega
        have hcol := collect_groups st.opsBySeals se.seals [] st.count hlen
        simp only [List.nil_append, List.length_nil] at hcol
        unfold SealsExtracter.Extract SealsExtracter.extractFromStorage
        simp only [hres, hnf, hmiss, List.length_nil, gt_iff_lt, lt_self_iff_false, if_false,
          Nat.add_zero, hcol, Run.bind]
      · exact r1.2.1.nodup_iff.2 r1.1
      · intro a ha os hos
        obtain ⟨h1, h2⟩ := r5 a ha os hos
        exact ⟨h1, fun op hop => r1.2.1.mem_iff.2 (h2 op hop)⟩
    · -- the missing seals come from the proposer
      obtain ⟨hctx, m, hm, hkeys, hperm⟩ := hch hmiss
      have hmnd : (GoMap.keys (env.enum m)).Nodup := by
        have h1 := fromChannel_nodup env se _ m hm
        exact (hperm.map Prod.fst).nodup_iff.2 h1
      have hmem : ∀ kv ∈ env.enum m, kv.1 ∈ missingSeals env 0 se.seals := by
        intro kv hkv
        exact (hkeys kv.1).1 (List.mem_map.2 ⟨kv, hperm.mem_iff.1 hkv, rfl⟩)
      have hinv1 : ExtractInv se.seals st.count { st with count := 0 } :=
        ⟨r1.1, r1.2.1, by have := r1.2.2; simp only at this ⊢; omega⟩
      obtain ⟨c1, c2, c3, c4⟩ := extractFromChannelLoop_inv se.seals st.count hnd (env.enum m)
        { st with count := 0 } hmnd
        (fun kv hkv => missingSeals_subset env 0 se.seals kv.1 (hmem kv hkv))
        (fun kv hkv => r4 kv.1 (hmem kv hkv)) hinv1
      refine ⟨(SealsExtracter.extractFromChannelLoop (env.enum m)
        { st with count := 0 }).opsBySeals, ?_, ?_, ?_, ?_⟩
      · have hlen : st.count + (SealsExtracter.extractFromChannelLoop (env.enum m)
            { st with count := 0 }).count =
            (groupsOf (SealsExtracter.extractFromChannelLoop (env.enum m)
              { st with count := 0 }).opsBySeals se.seals).flatten.length := by
          have h1 := c1.2.1.length_eq
          have h2 := c1.2.2
          simp only [List.length_map] at h1
          omega
        have hcol := collect_groups _ se.seals [] _ hlen
        simp only [List.nil_append, List.length_nil] at hcol
        have hpos : st.notFounds.length > 0 := by
          rw [hnf]
          exact List.length_pos.2 hmiss
        have hm2 : (SealsExtracter.fromChannel env se st.notFounds).1 = Except.ok m := by
          rw [hnf]
          exact hm
        unfold SealsExtracter.Extract SealsExtracter.extractFromStorage
        simp only [hres, hpos, if_true, SealsExtracter.extractFromChannel, hctx, hm2, hcol,
          Run.bind]
      · exact c1.2.1.nodup_iff.2 c1.1
      · intro a ha os hos
        obtain ⟨⟨g, hg, hsub⟩, h2⟩ := r5 a ha os hos
        have hnot : a.1 ∉ GoMap.keys (env.enum m) := by
          intro hc
          obtain ⟨kv, hkv, hk⟩ := List.mem_map.1 hc
          have := r4 a.1 (hk ▸ hmem kv hkv)
          rw [this] at hg
          cases hg
        refine ⟨⟨g, ?_, hsub⟩, fun op hop => c1.2.1.mem_iff.2 (c2 _ (h2 op hop))⟩
        rw [c3 a.1 hnot]
        exact hg
      · intro _ m1 hm1 kv hkv
        rw [hm] at hm1
        simp only [Except.ok.injEq] at hm1
        subst hm1
        obtain ⟨h1, h2⟩ := c4 kv (hperm.mem_iff.2 hkv)
        exact ⟨h1, fun op hop => c1.2.1.mem_iff.2 (h2 op hop)⟩

/-- While the context is not done, the answer of `fromStorage` is the answer of the
database: it fails as the database fails, and it lacks the seal as the database lacks
it. -/
theorem fromStorage_of_ctx_none (env : ExtractEnv) (i : Nat) (h : Hash)
    (hc : env.ctxDone i = none) :
    storageFailure (SealsExtracter.fromStorage env i h) = databaseFailure env h ∧
    isStorageMiss (SealsExtracter.fromStorage env i h) = databaseMisses env h := by
  unfold SealsExtracter.fromStorage databaseFailure databaseMisses
  rw [hc]
  simp only
  cases env.databaseSeal h with
  | error err => exact ⟨rfl, rfl⟩
  | ok o =>
    cases o with
    | none => exact ⟨rfl, rfl⟩
    | some sl =>
      simp only
      cases sl.operations with
      | none => exact ⟨rfl, rfl⟩
      | some os => exact ⟨rfl, rfl⟩

/-- When the context is done at a lookup, `fromStorage` returns the error of the
context. -/
theorem fromStorage_of_ctx_done (env : ExtractEnv) (i : Nat) (h : Hash) (e : Error)
    (hc : env.ctxDone i = some e) :
    SealsExtracter.fromStorage env i h = Except.error e := by
  unfold SealsExtracter.fromStorage
  rw [hc]

/-- When the context is not done during the lookups and the database fails none of
them, no answer of `fromStorage` is a failure, and the seals that storage does not have
are the listed seals that the database lacks. -/
theorem storageAnswers_without_failure (env : ExtractEnv) (seals : List Hash) (i0 : Nat)
    (hctx : ∀ k, k < seals.length → env.ctxDone (i0 + k) = none)
    (hdb : ∀ x ∈ seals, databaseFailure env x = none) :
    (storageAnswers env i0 seals).findSome? (fun a => storageFailure a.2) = none ∧
    missingSeals env i0 seals = seals.filter (databaseMisses env) := by
  induction seals generalizing i0 with
  | nil => exact ⟨rfl, rfl⟩
  | cons h rest ih =>
    have hc : env.ctxDone i0 = none := hctx 0 (by simp)
    have hfs := fromStorage_of_ctx_none env i0 h hc
    have hrest := ih (i0 + 1)
      (fun k hk => by
        have := hctx (k + 1) (by simp only [List.length_cons]; omega)
        rw [← this]
        congr 1
        omega)
      (fun x hx => hdb x (List.mem_cons_of_mem _ hx))
    have hh : databaseFailure env h = none := hdb h (List.mem_cons_self _ _)
    refine ⟨?_, ?_⟩
    · rw [storageAnswers_cons, List.findSome?_cons]
      simp only [hfs.1, hh]
      exact hrest.1
    · rw [missingSeals_cons, hfs.2, hrest.2, List.filter_cons]
      by_cases hm : databaseMisses env h = true
      · simp only [hm, if_true, List.singleton_append]
      · simp only [hm, Bool.false_eq_true, if_false, List.nil_append]

/-- The first failure among the answers of `fromStorage`: the lookups before it are not
cut short by the context and the database fails none of them. -/
theorem storageAnswers_first_failure (env : ExtractEnv) (pre : List Hash) (h : Hash)
    (post : List Hash) (i0 : Nat) (e : Error)
    (hctx : ∀ k, k < pre.length → env.ctxDone (i0 + k) = none)
    (hdb : ∀ x ∈ pre, databaseFailure env x = none)
    (hfail : storageFailure (SealsExtracter.fromStorage env (i0 + pre.length) h) = some e) :
    (storageAnswers env i0 (pre ++ h :: post)).findSome? (fun a => storageFailure a.2) =
      some e := by
  induction pre generalizing i0 with
  | nil =>
    simp only [List.length_nil, Nat.add_zero] at hfail
    rw [List.nil_append, storageAnswers_cons, List.findSome?_cons]
    simp only [hfail]
  | cons x rest ih =>
    have hc : env.ctxDone i0 = none := hctx 0 (by simp)
    have hfs := fromStorage_of_ctx_none env i0 x hc
    have hx : databaseFailure env x = none := hdb x (List.mem_cons_self _ _)
    have hrest := ih (i0 + 1)
      (fun k hk => by
        have := hctx (k + 1) (by simp only [List.length_cons]; omega)
        rw [← this]
        congr 1
        omega)
      (fun y hy => hdb y (List.mem_cons_of_mem _ hy))
      (by
        have hidx : i0 + 1 + rest.length = i0 + (x :: rest).length := by
          simp only [List.length_cons]
          omega
        rw [hidx]
        exact hfail)
    rw [List.cons_append, storageAnswers_cons, List.findSome?_cons]
    simp only [hfs.1, hx]
    exact hrest

/-- When an answer of `fromStorage` is a failure, `Extract` returns the first such
error and requests nothing. -/
theorem Extract_of_storage_failure (env : ExtractEnv) (se : SealsExtracter) (e : Error)
    (he : (storageAnswers env 0 se.seals).findSome? (fun a => storageFailure a.2) = some e) :
    (SealsExtracter.Extract env se).result = Run.ret (Except.error e) ∧
    (SealsExtracter.Extract env se).requests = [] := by
  have hloop := (extractFromStorageLoop_notFounds env se.seals 0
    { opsBySeals := [], founds := se.founds, count := 0, notFounds := [] }).1 e he
  unfold SealsExtracter.Extract SealsExtracter.extractFromStorage
  cases hres : SealsExtracter.extractFromStorageLoop env 0 se.seals
      { opsBySeals := [], founds := se.founds, count := 0, notFounds := [] } with
  | mk err st =>
    rw [hres] at hloop
    simp only at hloop
    subst hloop
    exact ⟨rfl, rfl⟩

/-- C23: `Extract` looks the listed seals up in the database, `se.seals[i]` by the
lookup number `i`. When `database.Seal` fails a lookup with another error than
`NotFoundError` (cancellation and deadline-exceeded included; a seal found that is not
an operation seal counts as such a failure), no earlier lookup having failed so and
the context not being done up to this lookup, `Extract` returns that error, with no
operations, and requests nothing from the proposer. When the context is done at a
lookup, no earlier one having failed, `Extract` returns the error of the context, with
no operations, and requests nothing. When the context is not done during the lookups
and the database fails none of them, the hashes that storage does not have are the
listed hashes for which `database.Seal` reports not-found or fails with
`NotFoundError`, in list order: when there is none the proposer is not contacted; when
there are some and the proposer has a channel (it is not the local node, and the node
pool knows it with a channel that is not nil), exactly one request is made on that
channel, for exactly these hashes; and no request is ever made for other hashes. -/
theorem Extract_requests_exactly_missing_seals (env : ExtractEnv) (se : SealsExtracter) :
    (∀ pre h post e, se.seals = pre ++ h :: post →
      (∀ i, i ≤ pre.length → env.ctxDone i = none) →
      (∀ x ∈ pre, databaseFailure env x = none) →
      databaseFailure env h = some e →
      (SealsExtracter.Extract env se).result = Run.ret (Except.error e) ∧
      (SealsExtracter.Extract env se).requests = []) ∧
    (∀ pre h post e, se.seals = pre ++ h :: post →
      (∀ i, i < pre.length → env.ctxDone i = none) →
      (∀ x ∈ pre, databaseFailure env x = none) →
      env.ctxDone pre.length = some e → e.isContextDone = true →
      (SealsExtracter.Extract env se).result = Run.ret (Except.error e) ∧
      (SealsExtracter.Extract env se).requests = []) ∧
    ((∀ i, i < se.seals.length → env.ctxDone i = none) →
      (∀ x ∈ se.seals, databaseFailure env x = none) →
      (se.seals.filter (databaseMisses env) = [] →
        (SealsExtracter.Extract env se).requests = []) ∧
      (se.seals.filter (databaseMisses env) ≠ [] → se.localAddress ≠ se.proposer →
        ∀ ch, env.Node se.proposer = some (some ch) →
          (SealsExtracter.Extract env se).requests =
            [(ch, se.seals.filter (databaseMisses env))]) ∧
      (∀ r ∈ (SealsExtracter.Extract env se).requests,
        r.2 = se.seals.filter (databaseMisses env))) := by
  refine ⟨?_, ?_, ?_⟩
  · intro pre h post e hseals hctx hdb hfail
    apply Extract_of_storage_failure
    rw [hseals]
    apply storageAnswers_first_failure env pre h post 0 e
    · intro k hk
      rw [Nat.zero_add]
      exact hctx k (Nat.le_of_lt hk)
    · exact hdb
    · rw [Nat.zero_add, (fromStorage_of_ctx_none env pre.length h (hctx _ (Nat.le_refl _))).1]
      exact hfail
  · intro pre h post e hseals hctx hdb hdone hisctx
    apply Extract_of_storage_failure
    rw [hseals]
    apply storageAnswers_first_failure env pre h post 0 e
    · intro k hk
      rw [Nat.zero_add]
      exact hctx k hk
    · exact hdb
    · rw [Nat.zero_add, fromStorage_of_ctx_done env pre.length h e hdone]
      simp only [storageFailure, hisctx, Bool.true_or, if_true]
  · intro hctx hdb
    have hlink := storageAnswers_without_failure env se.seals 0
      (fun k hk => by rw [Nat.zero_add]; exact hctx k hk) hdb
    have hreq := Extract_requests env se hlink.1
    rw [hlink.2] at hreq
    refine ⟨?_, ?_, ?_⟩
    · intro hnone
      rw [hreq, hnone]
      rfl
    · intro hsome hlocal ch hnode
      have hlen : (se.seals.filter (databaseMisses env)).length > 0 := List.length_pos.2 hsome
      rw [hreq, if_pos hlen]
      exact (fromChannel_requests env se _).2 hlocal ch hnode
    · intro r hr
      rw [hreq] at hr
      split_ifs at hr with hlen
      · exact (fromChannel_requests env se _).1 r hr
      · cases hr

/-- Witness of C23: of the seals 7, 9, 8, 10 the sample database has 7 and 8, and the
hashes 9 and 10 are requested from the channel 0 of the proposer; of the seals 7 and 8
it lacks none, and nothing is requested. In the database that fails the lookup of the
seal 9 with an error of its own and the lookup of the seal 10 with `NotFoundError`,
`Extract` of the seals 7, 10, 8 requests the hash 10, and `Extract` of the seals 7, 10,
9, 8 returns the error of the database and requests nothing. With the second lookup
cancelled, `Extract` returns the cancellation and requests nothing. -/
theorem Extract_requests_exactly_missing_seals_witness :
    (SealsExtracter.Extract sampleExtractEnv (NewSealsExtracter 1 5 [7, 9, 8, 10])).requests =
      [(0, [9, 10])] ∧
    (SealsExtracter.Extract sampleExtractEnv (NewSealsExtracter 1 5 [7, 8])).requests = [] ∧
    (SealsExtracter.Extract sampleFailingDatabaseEnv
      (NewSealsExtracter 1 5 [7, 10, 8])).requests = [(0, [10])] ∧
    ((SealsExtracter.Extract sampleFailingDatabaseEnv
        (NewSealsExtracter 1 5 [7, 10, 9, 8])).result =
        Run.ret (Except.error (Error.Errorf (Msg.other 3))) ∧
      (SealsExtracter.Extract sampleFailingDatabaseEnv
        (NewSealsExtracter 1 5 [7, 10, 9, 8])).requests = []) ∧
    ((SealsExtracter.Extract sampleCancelledEnv (NewSealsExtracter 1 5 [7, 9, 8, 10])).result =
        Run.ret (Except.error Error.Canceled) ∧
      (SealsExtracter.Extract sampleCancelledEnv
        (NewSealsExtracter 1 5 [7, 9, 8, 10])).requests = []) :=
  ⟨((Extract_requests_exactly_missing_seals sampleExtractEnv
      (NewSealsExtracter 1 5 [7, 9, 8, 10])).2.2 (fun _ _ => rfl) (by decide)).2.1
        (by decide) (by decide) 0 rfl,
    ((Extract_requests_exactly_missing_seals sampleExtractEnv
      (NewSealsExtracter 1 5 [7, 8])).2.2 (fun _ _ => rfl) (by decide)).1 rfl,
    ((Extract_requests_exactly_missing_seals sampleFailingDatabaseEnv
      (NewSealsExtracter 1 5 [7, 10, 8])).2.2 (fun _ _ => rfl) (by decide)).2.1
        (by decide) (by decide) 0 rfl,
    (Extract_requests_exactly_missing_seals sampleFailingDatabaseEnv
      (NewSealsExtracter 1 5 [7, 10, 9, 8])).1 [7, 10] 9 [8] (Error.Errorf (Msg.other 3)) rfl
        (fun _ _ => rfl) (by decide) rfl,
    (Extract_requests_exactly_missing_seals sampleCancelledEnv
      (NewSealsExtracter 1 5 [7, 9, 8, 10])).2.1 [7] 9 [8, 10] Error.Canceled rfl
        (by decide) (by decide) rfl rfl⟩

/-- C27 (what the code does): the sample database holds the seal 7, whose operations
have the hashes 1 and 2, and the proposer answers the hash 9 with one operation of hash
3. For the seals 7, 8 `Extract` returns the operations of hash 1 and 2, each once. For
the list 7, 7 it returns two nil entries and no operation; for the list 9, 9, 7 it
returns the operation of hash 3 twice and loses the operation of hash 2; and for the
list 9, 9, 9 it panics with a slice bound out of range. -/
theorem Extract_repeated_seal_gives_nil_entries :
    (SealsExtracter.Extract sampleExtractEnv (NewSealsExtracter 1 5 [7, 8])).result =
      Run.ret (Except.ok [some { hash := 1, body := 10 }, some { hash := 2, body := 20 }]) ∧
    (SealsExtracter.Extract sampleExtractEnv (NewSealsExtracter 1 5 [7, 7])).result =
      Run.ret (Except.ok [none, none]) ∧
    (SealsExtracter.Extract sampleExtractEnv (NewSealsExtracter 1 5 [9, 9, 7])).result =
      Run.ret (Except.ok [some { hash := 3, body := 9 }, some { hash := 3, body := 9 },
        some { hash := 1, body := 10 }]) ∧
    (SealsExtracter.Extract sampleExtractEnv (NewSealsExtracter 1 5 [9, 9, 9])).result =
      Run.indexOutOfRange :=
  ⟨rfl, rfl, rfl, rfl⟩

end Mitum
